import Mathlib

/-!
# newmac: programming a MAC address into the EEPROM of the LAN9221

A shallow embedding of `newmac.c` and a verification of its register
transport (`reg_w`, `reg_r`, `mac_r`), of the EEPROM dump (`dump_eep`) and of
the programming sequence of `main`.

Conventions of the embedding

* C `unsigned long` is 32 bits wide (the program is built for the 32-bit ARM
  Snowball board); values are natural numbers below `2 ^ 32`.
* The mapped window is accessed through `volatile unsigned short *regs`, so a
  register number `reg` is an *index of a half-word*: `regs[reg]` sits at byte
  offset `2 * reg` of the mapping.
* The device is live, so the window is reached through a `Bus`: a 16-bit load
  may change the device state, a 16-bit store may start a command.
* Every busy-wait loop takes a fuel argument (the number of polls it may
  make); running out of fuel is the result `none`.
* `Proc.trace` is a ghost log of the 32-bit register accesses in program order.
-/

namespace Newmac

/-! ## Register map (the `#define` block) -/

def GPIO_CFG : Nat := 0x88

def E2P_CMD : Nat := 0xB0
def E2P_CMD_EPC_BUSY_ : Nat := 0x80000000
def E2P_CMD_EPC_CMD_ : Nat := 0x70000000
def E2P_CMD_EPC_CMD_READ_ : Nat := 0x00000000
def E2P_CMD_EPC_CMD_EWDS_ : Nat := 0x10000000
def E2P_CMD_EPC_CMD_EWEN_ : Nat := 0x20000000
def E2P_CMD_EPC_CMD_WRITE_ : Nat := 0x30000000
def E2P_CMD_EPC_CMD_WRAL_ : Nat := 0x40000000
def E2P_CMD_EPC_CMD_ERASE_ : Nat := 0x50000000
def E2P_CMD_EPC_CMD_ERAL_ : Nat := 0x60000000
def E2P_CMD_EPC_CMD_RELOAD_ : Nat := 0x70000000
def E2P_CMD_EPC_TIMEOUT_ : Nat := 0x00000200
def E2P_CMD_MAC_ADDR_LOADED_ : Nat := 0x00000100
def E2P_CMD_EPC_ADDR_ : Nat := 0x000000FF

def E2P_DATA : Nat := 0xB4
def E2P_DATA_EEPROM_DATA_ : Nat := 0x000000FF

def MAP_BASE : Nat := 0x50000000
def MAP_SIZE : Nat := 0x00001000

/-! ## C integer conversions used by the register transport -/

/-- Width in bits of `unsigned long` on the target (32-bit ARM, ILP32). -/
def ULONG_BITS : Nat := 32

/-- Value of `x << 16` computed in 32-bit `int`, `x` being a promoted
`unsigned short` (two's complement wrap-around into the sign bit). -/
def shl16_int (h : Nat) : Int :=
  let x := (h * 65536) % 4294967296
  if x < 2147483648 then (x : Int) else (x : Int) - 4294967296

/-- Conversion of an `int` to an `unsigned long` of `bits` bits. -/
def to_ulong (bits : Nat) (i : Int) : Nat := (i % (2 : Int) ^ bits).toNat

/-- Lines 82-83 of `reg_r`: `val = lo; val |= hi << 16;` for two `unsigned short`
values, the result being an `unsigned long` of `bits` bits. -/
def join_halves (bits : Nat) (lo hi : Nat) : Nat :=
  (lo % 65536) ||| to_ulong bits (shl16_int (hi % 65536))

/-! ## The mapped window as a bus of volatile half-words -/

/-- A window of volatile `unsigned short` cells over a device state `σ`. -/
structure Bus (σ : Type) where
  /-- Result of `regs[i]` as an rvalue and the device state after the access. -/
  load : σ → Nat → Nat × σ
  /-- Effect of `regs[i] = v`. -/
  store : σ → Nat → Nat → σ

/-- One 32-bit register access made by `reg_r` or `reg_w`. -/
inductive Access where
  | rd (reg : Nat) (val : Nat)
  | wr (reg : Nat) (val : Nat)
  deriving DecidableEq, Repr

/-- State of the running process: the device behind the window, the log of
register accesses so far and the characters written to standard output. -/
structure Proc (σ : Type) where
  dev : σ
  trace : List Access
  out : List Char

/-- Function `reg_w`: `regs[reg] = val; regs[reg + 2] = val >> 16;`. -/
def reg_w {σ : Type} (bus : Bus σ) (p : Proc σ) (reg val : Nat) : Proc σ :=
  let d1 := bus.store p.dev reg (val % 65536)
  let d2 := bus.store d1 (reg + 2) ((val / 65536) % 65536)
  { p with dev := d2, trace := p.trace ++ [Access.wr reg val] }

/-- Function `reg_r`: `val = regs[reg]; val |= regs[reg + 2] << 16; return val;`. -/
def reg_r {σ : Type} (bus : Bus σ) (p : Proc σ) (reg : Nat) : Nat × Proc σ :=
  let r1 := bus.load p.dev reg
  let r2 := bus.load r1.2 (reg + 2)
  let val := join_halves ULONG_BITS r1.1 r2.1
  (val, { p with dev := r2.2, trace := p.trace ++ [Access.rd reg val] })

/-- Function `mac_r`: indirect read of a MAC control register. -/
def mac_r {σ : Type} (bus : Bus σ) (p : Proc σ) (reg : Nat) : Nat × Proc σ :=
  reg_r bus (reg_w bus p 0xA4 ((0xc0000000 + reg) % 4294967296)) 0xA8

/-! ## A window that is plain memory -/

/-- Contents of a window that behaves as memory: half-word index to value. -/
abbrev Window := Nat → Nat

/-- The bus of a window without a device behind it. -/
def memBus : Bus Window where
  load := fun w i => (w i % 65536, w)
  store := fun w i v => Function.update w i (v % 65536)

/-- Byte offset, from the start of the mapping, of `regs[i]`. -/
def byte_offset (i : Nat) : Nat := 2 * i

/-- The half-word stored at an even byte offset of the window. -/
def halfword_at (w : Window) (off : Nat) : Nat := w (off / 2)

/-! ## Standard output -/

/-- Conversions `%02lx`, `%08lx` and `%02x` of `printf`: lower-case hexadecimal,
zero-padded on the left to at least `width` digits, never truncated. -/
def fmt_hex (width n : Nat) : List Char :=
  let ds := Nat.toDigits 16 n
  List.replicate (width - ds.length) '0' ++ ds

/-- Append characters to standard output. -/
def put {σ : Type} (p : Proc σ) (cs : List Char) : Proc σ :=
  { p with out := p.out ++ cs }

/-- The six groups `%02x:%02x:%02x:%02x:%02x:%02x` of `macaddr[0..5]`. -/
def fmt_mac (m : List Nat) : List Char :=
  fmt_hex 2 (m.getD 0 0) ++ [':'] ++ fmt_hex 2 (m.getD 1 0) ++ [':'] ++
  fmt_hex 2 (m.getD 2 0) ++ [':'] ++ fmt_hex 2 (m.getD 3 0) ++ [':'] ++
  fmt_hex 2 (m.getD 4 0) ++ [':'] ++ fmt_hex 2 (m.getD 5 0)

/-! ## Control structure -/

/-- The busy-wait `while (reg_r(base, E2P_CMD) & E2P_CMD_EPC_BUSY_) ;`, making at
most `fuel` polls. -/
def busy_wait {σ : Type} (bus : Bus σ) : Nat → Proc σ → Option (Proc σ)
  | 0, _ => none
  | fuel + 1, p =>
    let r := reg_r bus p E2P_CMD
    if r.1 &&& E2P_CMD_EPC_BUSY_ ≠ 0 then busy_wait bus fuel r.2 else some r.2

/-- The loop `for (i = lo; i < lo + n; i++) body`. -/
def for_range {α : Type} (body : α → Nat → Option α) : Nat → Nat → α → Option α
  | 0, _, a => some a
  | n + 1, i, a => (body a i).bind (for_range body n (i + 1))

/-! ## `dump_eep` -/

/-- Body of the loop of `dump_eep` for cell `i` (lines 99-111). -/
def dump_cell {σ : Type} (bus : Bus σ) (fuel : Nat) (p : Proc σ) (i : Nat) :
    Option (Proc σ) :=
  (busy_wait bus fuel p).bind fun p1 =>
  let p2 := reg_w bus p1 E2P_CMD (0 ||| E2P_CMD_EPC_CMD_READ_ ||| i)
  let p3 := reg_w bus p2 E2P_CMD (0 ||| E2P_CMD_EPC_BUSY_ ||| E2P_CMD_EPC_CMD_READ_ ||| i)
  (busy_wait bus fuel p3).bind fun p4 =>
  let r := reg_r bus p4 E2P_DATA
  some (put (put r.2 (fmt_hex 2 r.1)) [if i &&& 7 = 7 then '\n' else ' '])

/-- Function `dump_eep`. -/
def dump_eep {σ : Type} (bus : Bus σ) (fuel : Nat) (p : Proc σ) : Option (Proc σ) :=
  for_range (dump_cell bus fuel) 32 0 (put p "Current eeprom:\n".toList)

/-! ## `main` -/

/-- How the process ended: `exit(0)`, the usage error of line 154, or `FATAL`
expanded at the given source line. -/
inductive Exit where
  | ok
  | usage
  | fatal (line : Nat)
  deriving DecidableEq, Repr

/-- The exit status passed to `exit`. -/
def Exit.status : Exit → Nat
  | Exit.ok => 0
  | Exit.usage => 1
  | Exit.fatal _ => 1

/-- Result of a run that ended: how it ended and the final process state. -/
structure Outcome (σ : Type) where
  exit : Exit
  proc : Proc σ

/-- What the operating system answers to the process. -/
structure Env where
  /-- Whether `getenv("VERBOSE")` is non-null. -/
  verbose : Bool
  /-- Whether `open("/dev/mem", ...)` succeeds. -/
  open_mem : Bool
  /-- Whether `mmap` succeeds. -/
  mmap_ok : Bool
  /-- The address returned by `mmap`. -/
  base : Nat
  /-- Whether `open("/dev/urandom", ...)` succeeds. -/
  open_urandom : Bool
  /-- Result of `read(fd, macaddr, 6)`: `none` for an error, else the bytes
  delivered (at most six are taken). -/
  urandom : Option (List Nat)

/-- Body of the write loop for index `i` (lines 202-218). -/
def write_cell {σ : Type} (bus : Bus σ) (fuel : Nat) (macaddr : List Nat)
    (p : Proc σ) (i : Nat) : Option (Proc σ) :=
  let datum := if i = 0 then 0xa5 else macaddr.getD (i - 1) 0
  (busy_wait bus fuel p).bind fun p1 =>
  let p2 := reg_w bus p1 E2P_DATA datum
  let p3 := reg_w bus p2 E2P_CMD (0 ||| E2P_CMD_EPC_CMD_WRITE_ ||| i)
  let p4 := reg_w bus p3 E2P_CMD (0 ||| E2P_CMD_EPC_BUSY_ ||| E2P_CMD_EPC_CMD_WRITE_ ||| i)
  busy_wait bus fuel p4

/-- Lines 183-195 of `main`: the first dump, then the EWEN command and the
busy-wait after it. -/
def unlock {σ : Type} (bus : Bus σ) (fuel : Nat) (p : Proc σ) : Option (Proc σ) :=
  (dump_eep bus fuel p).bind fun p1 =>
  (busy_wait bus fuel p1).bind fun p2 =>
  let p3 := reg_w bus p2 E2P_CMD (0 ||| E2P_CMD_EPC_CMD_EWEN_)
  let p4 := reg_w bus p3 E2P_CMD (0 ||| E2P_CMD_EPC_BUSY_ ||| E2P_CMD_EPC_CMD_EWEN_)
  busy_wait bus fuel p4

/-- Lines 200-228 of `main`: the write loop, the EWDS write, the second dump
and `exit(0)`. -/
def write_and_dump {σ : Type} (bus : Bus σ) (fuel : Nat) (macaddr : List Nat)
    (p : Proc σ) : Option (Outcome σ) :=
  (for_range (write_cell bus fuel macaddr) 7 0 (put p "Write...\n".toList)).bind fun p1 =>
  let p2 := reg_w bus p1 E2P_CMD (0 ||| E2P_CMD_EPC_CMD_EWDS_)
  (dump_eep bus fuel p2).bind fun p3 =>
  some { exit := Exit.ok, proc := p3 }

/-- Lines 183-228 of `main`, the programming sequence proper: dump, unlock,
TIMEOUT check, seven writes, EWDS, dump. -/
def programAddress {σ : Type} (bus : Bus σ) (fuel : Nat) (macaddr : List Nat)
    (p : Proc σ) : Option (Outcome σ) :=
  (unlock bus fuel p).bind fun p1 =>
  let r := reg_r bus p1 E2P_CMD
  if r.1 &&& E2P_CMD_EPC_TIMEOUT_ ≠ 0 then some { exit := Exit.fatal 198, proc := r.2 }
  else write_and_dump bus fuel macaddr r.2

/-! ## Command-line parsing -/

/-- White space as skipped by a `scanf` conversion (`isspace`). -/
def is_space (c : Char) : Bool :=
  c = ' ' || c = '\t' || c = '\n' || c = '\x0b' || c = '\x0c' || c = '\r'

/-- Value of a hexadecimal digit, if the character is one. -/
def hex_val (c : Char) : Option Nat :=
  if '0' ≤ c ∧ c ≤ '9' then some (c.toNat - '0'.toNat)
  else if 'a' ≤ c ∧ c ≤ 'f' then some (c.toNat - 'a'.toNat + 10)
  else if 'A' ≤ c ∧ c ≤ 'F' then some (c.toNat - 'A'.toNat + 10)
  else none

/-- Skip leading white space. -/
def skip_space (s : List Char) : List Char := s.dropWhile is_space

/-- Whether the number starts with a minus sign. -/
def has_minus (s : List Char) : Bool :=
  match s with
  | c :: _ => c = '-'
  | [] => false

/-- Read the optional sign of a number. -/
def drop_sign (s : List Char) : List Char :=
  match s with
  | c :: t => if c = '-' ∨ c = '+' then t else s
  | [] => []

/-- Read the prefix `0x` or `0X` of a number as `vfscanf` of the GNU C library
does for base 16: the `0` is kept as a digit of the number and the `x` after it
is read and dropped, whether or not a hexadecimal digit comes next. -/
def drop_0x (s : List Char) : List Char :=
  match s with
  | c :: x :: t => if c = '0' ∧ (x = 'x' ∨ x = 'X') then c :: t else s
  | _ => s

/-- Result of `strtoul` in base 16 on a sign and a run of hexadecimal digits,
`unsigned long` having `ULONG_BITS` bits: `ULONG_MAX` when the digits overflow,
whatever the sign; otherwise the value, negated as an `unsigned long` after a
minus sign. -/
def hex_value (neg : Bool) (ds : List Char) : Nat :=
  let v := ds.foldl (fun a c => a * 16 + (hex_val c).getD 0) 0
  if 2 ^ ULONG_BITS ≤ v then 2 ^ ULONG_BITS - 1
  else if neg then (2 ^ ULONG_BITS - v) % 2 ^ ULONG_BITS else v

/-- One `%hhx` conversion as the GNU C library performs it: skip white space,
read an optional sign, an optional `0x` and the hexadecimal digits that
follow; the conversion fails when no digit was read, the `0` of `0x` being
one (so `0x` without a digit after it converts to 0 and is consumed, where
ISO C asks for a matching failure); the digits are converted by `strtoul` and
the result is stored in an `unsigned char`. Returns the stored byte and the
rest of the input, or `none` when the conversion fails. -/
def scan_hhx (s : List Char) : Option (Nat × List Char) :=
  let s1 := skip_space s
  let s3 := drop_0x (drop_sign s1)
  let ds := s3.takeWhile fun c => (hex_val c).isSome
  let rest := s3.dropWhile fun c => (hex_val c).isSome
  if ds = [] then none
  else some (hex_value (has_minus s1) ds % 256, rest)

/-- The conversions of `"%hhx:%hhx:%hhx:%hhx:%hhx:%hhx:%hhx"` from number `k` on,
`n` of them being left; a `:` of the format must match the next input
character. Returns the number of bytes assigned and the buffer. -/
def scan_fields : Nat → Nat → List Char → List Nat → Nat × List Nat
  | 0, k, _, buf => (k, buf)
  | n + 1, k, s, buf =>
    let s1 := if k = 0 then some s else
      match s with
      | ':' :: t => some t
      | _ => none
    match s1 with
    | none => (k, buf)
    | some s2 =>
      match scan_hhx s2 with
      | none => (k, buf)
      | some r => scan_fields n (k + 1) r.2 (buf.set k r.1)

/-- The call `sscanf(argv[1], "%hhx:%hhx:%hhx:%hhx:%hhx:%hhx:%hhx", macaddr+0, ...,
macaddr+6)`: its return value (`-1` is `EOF`) and the buffer afterwards. -/
def sscanf_mac (s : List Char) (buf : List Nat) : Int × List Nat :=
  if (skip_space s).isEmpty then (-1, buf)
  else
    let r := scan_fields 7 0 s buf
    ((r.1 : Int), r.2)

/-- Lines 162-163: `macaddr[0] &= 0xfe; macaddr[0] |= 0x02;`. -/
def fix_random (m : List Nat) : List Nat :=
  let m1 := m.set 0 ((m.getD 0 0 &&& 0xfe) % 256)
  m1.set 0 ((m1.getD 0 0 ||| 0x02) % 256)

/-- Store the bytes delivered by `read` at the start of the buffer. -/
def store_bytes (buf : List Nat) (bs : List Nat) : List Nat :=
  bs.map (fun b => b % 256) ++ buf.drop bs.length

/-- Lines 156-169 of `main`: the address to write, or the line of the `FATAL`. -/
def parse_arg (env : Env) (arg : String) (macaddr : List Nat) : Except Nat (List Nat) :=
  if arg = "-r" then
    if !env.open_urandom then Except.error 159
    else
      match env.urandom with
      | none => Except.error 160
      | some bs =>
        let got := bs.take 6
        if got.length ≠ 6 then Except.error 160
        else Except.ok (fix_random (store_bytes macaddr got))
  else
    let r := sscanf_mac arg.toList macaddr
    if r.1 ≠ 6 then Except.error 168 else Except.ok r.2

/-- The four bytes of a 32-bit word in memory order (little-endian). -/
def le_bytes (v : Nat) : List Nat :=
  [v % 256, v / 256 % 256, v / 65536 % 256, v / 16777216 % 256]

/-- Lines 140-149 of `main`: read the current MAC address through `mac_r`, copy
it into `macaddr`, print it and print the EEPROM status. Returns the buffer
`macaddr` (8 bytes) and the process state. -/
def show_current {σ : Type} (bus : Bus σ) (p : Proc σ) : List Nat × Proc σ :=
  let m0 := mac_r bus p 2
  let m1 := mac_r bus m0.2 3
  let p3 := put m1.2 ("Current mac registers: ".toList ++ fmt_hex 8 m0.1 ++ [' '] ++
    fmt_hex 8 m1.1 ++ ['\n'])
  let macaddr := le_bytes m1.1 ++ le_bytes m0.1
  let p4 := put p3 ("Current mac address ".toList ++ fmt_mac macaddr ++ ['\n'])
  let st := reg_r bus p4 0xB0
  (macaddr, put st.2 ("Current status in E2P_CMD: ".toList ++ fmt_hex 8 st.1 ++ ['\n']))

/-- Lines 170-180 of `main`: print the address to write, then print, clear and
print again `GPIO_CFG`. -/
def clear_gpio_cfg {σ : Type} (bus : Bus σ) (mac : List Nat) (p : Proc σ) : Proc σ :=
  let p6 := put p ("Writing mac address ".toList ++ fmt_mac mac ++ ['\n'])
  let g0 := reg_r bus p6 GPIO_CFG
  let p7 := put g0.2 ("gpiocfg was ".toList ++ fmt_hex 8 g0.1 ++ ['\n'])
  let p8 := reg_w bus p7 GPIO_CFG 0
  let g1 := reg_r bus p8 GPIO_CFG
  put g1.2 ("gpiocfg  is ".toList ++ fmt_hex 8 g1.1 ++ ['\n'])

/-- Lines 123-139 of `main`: open `/dev/mem` and map the window; the process
state when both succeed, else the line of the `FATAL` and the state there. -/
def map_window {σ : Type} (env : Env) (dev : σ) : Except (Nat × Proc σ) (Proc σ) :=
  let p0 : Proc σ := { dev := dev, trace := [], out := [] }
  if !env.open_mem then Except.error (126, p0)
  else
    let p1 := if env.verbose then put p0 "/dev/mem opened.\n".toList else p0
    if !env.mmap_ok then Except.error (135, p1)
    else
      Except.ok (if env.verbose then
        put p1 ("Memory mapped at address 0x".toList ++ Nat.toDigits 16 env.base ++ ".\n".toList)
        else p1)

/-- Function `main`. `argv` is the argument vector (`argc` its length), `dev`
the state of the device when the process starts. -/
def main {σ : Type} (bus : Bus σ) (fuel : Nat) (env : Env) (argv : List String)
    (dev : σ) : Option (Outcome σ) :=
  match map_window env dev with
  | Except.error e => some { exit := Exit.fatal e.1, proc := e.2 }
  | Except.ok p2 =>
    let cur := show_current bus p2
    if argv.length ≠ 2 then some { exit := Exit.usage, proc := cur.2 }
    else
      match parse_arg env (argv.getD 1 "") cur.1 with
      | Except.error line => some { exit := Exit.fatal line, proc := cur.2 }
      | Except.ok mac => programAddress bus fuel mac (clear_gpio_cfg bus mac cur.2)

/-! ## A simulated EEPROM controller -/

/-- One command accepted by the simulated controller: the CMD field, the ADDR
field and, for the commands that store data (WRITE and WRAL), the low byte of
the data register at the moment of submission (0 for the other commands). -/
structure Cmd where
  op : Nat
  addr : Nat
  data : Nat
  deriving DecidableEq, Repr

/-- What the simulated controller does independently of the program: for the
`k`-th submitted command, how many polls of the command register see BUSY
set, and whether the EEPROM fails to answer. -/
structure SimCfg where
  delay : Nat → Nat
  fails : Nat → Bool

/-- State of the simulated controller. -/
structure Sim where
  /-- Half-word `regs[0xB0]`: low half of the command register as last stored. -/
  cmd_lo : Nat
  /-- Half-word `regs[0xB2]`: high half of the command register as last stored. -/
  cmd_hi : Nat
  /-- Half-word `regs[0xB4]`: low half of the data register. -/
  data_lo : Nat
  /-- Half-word `regs[0xB6]`: high half of the data register. -/
  data_hi : Nat
  /-- Every other half-word of the window (plain storage). -/
  ram : Nat → Nat
  /-- The EEPROM array, by cell address. -/
  cells : Nat → Nat
  /-- Write-enable latch (set by EWEN, cleared by EWDS). -/
  wen : Bool
  /-- TIMEOUT flag: the last command got no answer. -/
  tmo : Bool
  /-- Number of polls of the command register that still see BUSY set. -/
  busy : Nat
  /-- Number of commands submitted so far. -/
  ncmd : Nat
  /-- Commands submitted so far, oldest first. -/
  log : List Cmd

/-- Effect of submitting the command held in the command register. -/
def Sim.submit (cfg : SimCfg) (s : Sim) : Sim :=
  let op := s.cmd_hi / 4096 % 8
  let addr := s.cmd_lo % 256
  let s1 : Sim := { s with
    busy := cfg.delay s.ncmd
    ncmd := s.ncmd + 1
    log := s.log ++
      [{ op := op, addr := addr, data := if op = 3 ∨ op = 4 then s.data_lo % 256 else 0 }] }
  if cfg.fails s.ncmd then { s1 with tmo := true }
  else
    let s2 : Sim := { s1 with tmo := false }
    if op = 0 then { s2 with data_lo := s.cells addr % 256, data_hi := 0 }
    else if op = 1 then { s2 with wen := false }
    else if op = 2 then { s2 with wen := true }
    else if op = 3 then
      if s.wen then { s2 with cells := Function.update s.cells addr (s.data_lo % 256) } else s2
    else if op = 4 then
      if s.wen then { s2 with cells := fun _ => s.data_lo % 256 } else s2
    else if op = 5 then
      if s.wen then { s2 with cells := Function.update s.cells addr 0xFF } else s2
    else if op = 6 then
      if s.wen then { s2 with cells := fun _ => 0xFF } else s2
    else s2

/-- A 16-bit load from the simulated window. -/
def Sim.load (s : Sim) (i : Nat) : Nat × Sim :=
  if i = 0xB0 then (s.cmd_lo % 256 + (if s.tmo then 512 else 0), s)
  else if i = 0xB2 then
    (s.cmd_hi / 4096 % 8 * 4096 + (if s.busy = 0 then 0 else 32768),
      { s with busy := s.busy - 1 })
  else if i = 0xB4 then (s.data_lo % 65536, s)
  else if i = 0xB6 then (s.data_hi % 65536, s)
  else (s.ram i % 65536, s)

/-- A 16-bit store to the simulated window. -/
def Sim.store (cfg : SimCfg) (s : Sim) (i v : Nat) : Sim :=
  if i = 0xB0 then { s with cmd_lo := v % 65536 }
  else if i = 0xB2 then
    let s1 : Sim := { s with cmd_hi := v % 65536 }
    if v / 32768 % 2 = 1 ∧ s.busy = 0 then Sim.submit cfg s1 else s1
  else if i = 0xB4 then { s with data_lo := v % 65536 }
  else if i = 0xB6 then { s with data_hi := v % 65536 }
  else { s with ram := Function.update s.ram i (v % 65536) }

/-- Modelled from the spec: the EEPROM controller of the LAN9221 is hardware,
not code of the repository. This test double follows sections 3 and 4.2 of the
specification: a command is submitted when the command register is written
with BUSY (bit 31) set while the controller is idle; BUSY then reads as set
for `delay k` polls; READ loads the addressed cell into the data register,
EWEN and EWDS set and clear the write-enable latch, WRITE stores the low byte
of the data register in the addressed cell when writing is enabled; a command
the EEPROM does not answer only sets TIMEOUT (bit 9). -/
def simBus (cfg : SimCfg) : Bus Sim where
  load := Sim.load
  store := Sim.store cfg

/-! ## Vocabulary of the statements -/

/-- The register writes recorded in a trace, oldest first: register and value. -/
def writes (t : List Access) : List (Nat × Nat) :=
  t.filterMap fun a =>
    match a with
    | Access.wr r v => some (r, v)
    | Access.rd _ _ => none

/-- The values returned by the reads of register `reg` recorded in a trace. -/
def reads_of (reg : Nat) (t : List Access) : List Nat :=
  t.filterMap fun a =>
    match a with
    | Access.rd r v => if r = reg then some v else none
    | Access.wr _ _ => none

/-- The word a read of the command register of the simulated controller
returns: ADDR, TIMEOUT, CMD and BUSY. -/
def Sim.cmd_word (s : Sim) : Nat :=
  s.cmd_lo % 256 + (if s.tmo then 512 else 0) +
    (s.cmd_hi / 4096 % 8 * 4096 + (if s.busy = 0 then 0 else 32768)) * 65536

/-- The polls a busy-wait makes on the simulated controller. -/
def Sim.polls : Nat → Sim → List Access
  | 0, s => [Access.rd E2P_CMD s.cmd_word]
  | b + 1, s => Access.rd E2P_CMD s.cmd_word :: Sim.polls b { s with busy := b }

/-- The concatenation `W i ++ W (i + 1) ++ ... ++ W (i + n - 1)`. -/
def cat_range {α : Type} (W : Nat → List α) : Nat → Nat → List α
  | 0, _ => []
  | n + 1, i => W i ++ cat_range W n (i + 1)

/-- The two register writes that submit READ for cell `i`. -/
def read_writes (i : Nat) : List (Nat × Nat) :=
  [(0xB0, i), (0xB0, 0x80000000 + i)]

/-- The register writes of one `dump_eep`: READ for the cells 0 to 31. -/
def dump_writes : List (Nat × Nat) := cat_range read_writes 32 0

/-- The two register writes that submit EWEN. -/
def ewen_writes : List (Nat × Nat) := [(0xB0, 0x20000000), (0xB0, 0xA0000000)]

/-- The register writes of the write loop for index `i`: the datum, then the
WRITE command without and with BUSY. -/
def cell_writes (macaddr : List Nat) (i : Nat) : List (Nat × Nat) :=
  [(0xB4, if i = 0 then 0xa5 else macaddr.getD (i - 1) 0), (0xB0, 0x30000000 + i),
   (0xB0, 0xB0000000 + i)]

/-- The register writes of the whole write loop. -/
def loop_writes (macaddr : List Nat) : List (Nat × Nat) := cat_range (cell_writes macaddr) 7 0

/-- The READ commands of one dump as the controller logs them. -/
def read_cmds : List Cmd := cat_range (fun c => [{ op := 0, addr := c, data := 0 }]) 32 0

/-- The datum of the write loop at index `i` (lines 204-205). -/
def datum_of (macaddr : List Nat) (i : Nat) : Nat :=
  if i = 0 then 0xa5 else macaddr.getD (i - 1) 0

/-- The WRITE commands of the write loop as the controller logs them. -/
def write_cmds (macaddr : List Nat) : List Cmd :=
  cat_range (fun i => [{ op := 3, addr := i, data := datum_of macaddr i % 256 }]) 7 0

/-! ## Well-formed address arguments -/

/-- Whether bit 31 (BUSY) of a command word is set, tested as the busy-wait
tests it. -/
def busy_flag (v : Nat) : Bool := decide (v &&& E2P_CMD_EPC_BUSY_ ≠ 0)

/-- Run a monitor over a trace: the monitor state at the end, or `none` when
the monitor rejects an access. -/
def run_mon {S : Type} (step : S → Access → Option S) : S → List Access → Option S
  | s, [] => some s
  | s, a :: t => (step s a).bind fun s1 => run_mon step s1 t

/-- Monitor of the two-phase latch. Its state is the previous register access.
A write of the command register with BUSY set is accepted only when the
previous access is a write of the command register with the same word less
the BUSY bit, and that word has BUSY clear. -/
def latch_step (prev : Option Access) (a : Access) : Option (Option Access) :=
  match a with
  | Access.wr r v =>
    if r = E2P_CMD ∧ busy_flag v = true then
      if prev = some (Access.wr E2P_CMD (v - E2P_CMD_EPC_BUSY_)) ∧
          busy_flag (v - E2P_CMD_EPC_BUSY_) = false then some (some a) else none
    else some (some a)
  | Access.rd _ _ => some (some a)

/-- State of the monitor of the command register. -/
structure CmdState where
  /-- The word of the last submission (write with BUSY set), when no other
  write of the command register came after it. -/
  submitted : Option Nat
  /-- Whether the latest access to the command register is a read that
  returned BUSY clear. -/
  idle : Bool
  deriving DecidableEq, Repr

/-- Monitor of the command register. A write of the command register with BUSY
clear (the first write of a command) is accepted only when the latest access
to the command register is a read that returned BUSY clear; a read of the data
register is accepted only when the last write of the command register
submitted READ and the latest access to the command register is a read that
returned BUSY clear. -/
def idle_step (s : CmdState) (a : Access) : Option CmdState :=
  match a with
  | Access.rd r v =>
    if r = E2P_CMD then some { s with idle := !busy_flag v }
    else if r = E2P_DATA then
      match s.submitted with
      | some w => if s.idle = true ∧ w / 0x10000000 % 8 = 0 then some s else none
      | none => none
    else some s
  | Access.wr r v =>
    if r = E2P_CMD then
      if busy_flag v then some { submitted := some v, idle := false }
      else if s.idle then some { submitted := none, idle := false } else none
    else some s

/-- The accesses of a trace other than reads of the command register. -/
def nonpoll (t : List Access) : List Access :=
  t.filter fun a =>
    match a with
    | Access.rd r _ => decide (r ≠ E2P_CMD)
    | Access.wr _ _ => true

/-- The accesses of the dump for cell `i` other than polls, given the value
`d` the data register returns. -/
def cell_accesses (d : Nat → Nat) (i : Nat) : List Access :=
  [Access.wr E2P_CMD i, Access.wr E2P_CMD (0x80000000 + i), Access.rd E2P_DATA (d i)]

/-- What the dump prints for cell `i`: the value with `%02lx`, then a newline
after every eighth cell and a space after the others. -/
def cell_text (d : Nat → Nat) (i : Nat) : List Char :=
  fmt_hex 2 (d i) ++ [if i &&& 7 = 7 then '\n' else ' ']

/-- A trace segment both monitors accept from every state. -/
def accepted (t : List Access) : Prop :=
  (∀ s, (run_mon latch_step s t).isSome = true) ∧
  (∀ s, (run_mon idle_step s t).isSome = true)

/-- An accepted segment after which the command register is known idle. -/
def accepted_idle (t : List Access) : Prop :=
  (∀ s, (run_mon latch_step s t).isSome = true) ∧
  (∀ s, ∃ s1, run_mon idle_step s t = some s1 ∧ s1.idle = true)

/-- The words written to the command register in a trace whose BUSY flag is
`b`, oldest first. -/
def cmd_words (b : Bool) (t : List Access) : List Nat :=
  (writes t).filterMap fun w => if w.1 = E2P_CMD ∧ busy_flag w.2 = b then some w.2 else none

/-- The list `[f i, f (i + 1), ..., f (i + n - 1)]`. -/
def seq_range (f : Nat → Nat) (n i : Nat) : List Nat := cat_range (fun j => [f j]) n i

/-! ## Successive reads of the command register -/

/-- The process state after `j` reads of the command register. -/
def after_polls {σ : Type} (bus : Bus σ) : Nat → Proc σ → Proc σ
  | 0, p => p
  | j + 1, p => after_polls bus j (reg_r bus p E2P_CMD).2

/-- The value the read number `j + 1` of the command register returns. -/
def poll_value {σ : Type} (bus : Bus σ) (j : Nat) (p : Proc σ) : Nat :=
  (reg_r bus (after_polls bus j p) E2P_CMD).1

/-- The accesses of `n` successive reads of the command register. -/
def poll_trace {σ : Type} (bus : Bus σ) : Nat → Proc σ → List Access
  | 0, _ => []
  | j + 1, p => Access.rd E2P_CMD (reg_r bus p E2P_CMD).1 ::
      poll_trace bus j (reg_r bus p E2P_CMD).2

/-- The device clears BUSY within finitely many reads: from every state, one
of the successive reads of the command register returns BUSY clear. -/
def clears_busy {σ : Type} (bus : Bus σ) : Prop :=
  ∀ p : Proc σ, ∃ n, poll_value bus n p &&& E2P_CMD_EPC_BUSY_ = 0

/-! ## Fixtures of the worked examples -/

/-- An environment in which `/dev/mem` and `/dev/urandom` open and the mapping
succeeds, without `VERBOSE`; the random source delivers 11 22 33 44 55 66. -/
def env_plain : Env :=
  { verbose := false, open_mem := true, mmap_ok := true, base := 0x40000000,
    open_urandom := true, urandom := some [0x11, 0x22, 0x33, 0x44, 0x55, 0x66] }

/-- A simulated controller at rest over an EEPROM whose cells all hold `c`,
with `g` in the low half of `GPIO_CFG` and `d` in the data register. -/
def sim_at_rest (c g d : Nat) : Sim :=
  { cmd_lo := 0, cmd_hi := 0, data_lo := d, data_hi := 0,
    ram := fun i => if i = 0x88 then g else 0,
    cells := fun _ => c, wen := false, tmo := false, busy := 0, ncmd := 0, log := [] }

/-! ## Two devices side by side -/

/-- The shape of a trace: for each access the register and, for a write, the
value written; the value a read returned is left out. -/
def shape (t : List Access) : List (Nat × Option Nat) :=
  t.map fun a =>
    match a with
    | Access.rd r _ => (r, none)
    | Access.wr r v => (r, some v)

/-- Two devices agree on the BUSY bit of every read of the command register:
`R` relates their states, the same 16-bit store or load on both sides keeps
them related, and in related states the high half-word of the command
register reads with the same bit 15, which is bit 31 (BUSY) of the register.
Nothing is asked of the other bits read, of the low half-word (where TIMEOUT
is) or of the data register. -/
def agree_on_busy {σ τ : Type} (bus1 : Bus σ) (bus2 : Bus τ) (R : σ → τ → Prop) : Prop :=
  (∀ s1 s2 i v, R s1 s2 → R (bus1.store s1 i v) (bus2.store s2 i v)) ∧
  (∀ s1 s2 i, R s1 s2 → R (bus1.load s1 i).2 (bus2.load s2 i).2) ∧
  (∀ s1 s2, R s1 s2 →
    (bus1.load s1 (E2P_CMD + 2)).1 % 65536 / 32768 =
      (bus2.load s2 (E2P_CMD + 2)).1 % 65536 / 32768)

/-- Two processes that went from `p1` to `q1` and from `p2` to `q2` by
accesses of the same shape, ending in related device states. -/
def alike {σ τ : Type} (R : σ → τ → Prop) (p1 q1 : Proc σ) (p2 q2 : Proc τ) : Prop :=
  ∃ t1 t2, q1.trace = p1.trace ++ t1 ∧ q2.trace = p2.trace ++ t2 ∧ shape t1 = shape t2 ∧
    R q1.dev q2.dev

/-! # Theorems -/

/-! ### Integer conversions and command words -/

theorem to_ulong_shl16 (h : Nat) (hh : h < 65536) :
    to_ulong ULONG_BITS (shl16_int h) = h * 65536 := by
  unfold to_ulong shl16_int ULONG_BITS
  simp only []
  split <;> omega

theorem join_halves_eq (lo hi : Nat) :
    join_halves ULONG_BITS lo hi = lo % 65536 + hi % 65536 * 65536 := by
  unfold join_halves
  rw [to_ulong_shl16 _ (Nat.mod_lt _ (by decide))]
  have h := @Nat.mul_add_lt_is_or 16 (lo % 65536) (Nat.mod_lt _ (by decide)) (hi % 65536)
  rw [Nat.lor_comm, Nat.mul_comm, Nat.add_comm]
  exact h.symm

/-- Bit 31 of a 32-bit word is set exactly when the word is at least `2 ^ 31`. -/
theorem and_busy_ne_zero (x : Nat) (hx : x < 4294967296) :
    (x &&& E2P_CMD_EPC_BUSY_ ≠ 0) ↔ 2147483648 ≤ x := by
  have h := Nat.and_two_pow x 31
  have e : E2P_CMD_EPC_BUSY_ = 2 ^ 31 := by decide
  rw [e, h, Nat.testBit_to_div_mod]
  by_cases c : x / 2 ^ 31 % 2 = 1 <;> simp [c] <;> omega

theorem and_timeout_ne_zero (x : Nat) :
    (x &&& E2P_CMD_EPC_TIMEOUT_ ≠ 0) ↔ x / 512 % 2 = 1 := by
  have h := Nat.and_two_pow x 9
  have e : E2P_CMD_EPC_TIMEOUT_ = 2 ^ 9 := by decide
  rw [e, h, Nat.testBit_to_div_mod]
  by_cases c : x / 2 ^ 9 % 2 = 1 <;> simp [c]

theorem read_word (i : Nat) (hi : i < 32) :
    (0 ||| E2P_CMD_EPC_CMD_READ_ ||| i) = i ∧
    (0 ||| E2P_CMD_EPC_BUSY_ ||| E2P_CMD_EPC_CMD_READ_ ||| i) = 2147483648 + i := by
  revert i; decide

theorem write_word (i : Nat) (hi : i < 7) :
    (0 ||| E2P_CMD_EPC_CMD_WRITE_ ||| i) = 805306368 + i ∧
    (0 ||| E2P_CMD_EPC_BUSY_ ||| E2P_CMD_EPC_CMD_WRITE_ ||| i) = 2952790016 + i := by
  revert i; decide

theorem sim_reg_r_cmd (cfg : SimCfg) (p : Proc Sim) :
    reg_r (simBus cfg) p E2P_CMD =
      (p.dev.cmd_word, { p with dev := { p.dev with busy := p.dev.busy - 1 },
                                 trace := p.trace ++ [Access.rd E2P_CMD p.dev.cmd_word] }) := by
  have e : join_halves ULONG_BITS (p.dev.cmd_lo % 256 + (if p.dev.tmo then 512 else 0))
      (p.dev.cmd_hi / 4096 % 8 * 4096 + (if p.dev.busy = 0 then 0 else 32768)) = p.dev.cmd_word := by
    rw [join_halves_eq]; unfold Sim.cmd_word
    split <;> split <;> omega
  simp [reg_r, simBus, Sim.load, E2P_CMD, e]

theorem sim_busy_iff (s : Sim) : (s.cmd_word &&& E2P_CMD_EPC_BUSY_ ≠ 0) ↔ s.busy ≠ 0 := by
  have hb : s.cmd_word < 4294967296 := by
    unfold Sim.cmd_word; split <;> split <;> omega
  rw [and_busy_ne_zero _ hb]
  unfold Sim.cmd_word; split <;> split <;> omega

theorem sim_timeout_iff (s : Sim) : (s.cmd_word &&& E2P_CMD_EPC_TIMEOUT_ ≠ 0) ↔ s.tmo = true := by
  rw [and_timeout_ne_zero]
  unfold Sim.cmd_word; split <;> split <;> simp_all <;> omega

theorem sim_busy_wait (cfg : SimCfg) (fuel : Nat) (p : Proc Sim) (h : p.dev.busy < fuel) :
    busy_wait (simBus cfg) fuel p =
      some { p with dev := { p.dev with busy := 0 },
                    trace := p.trace ++ Sim.polls p.dev.busy p.dev } := by
  induction fuel generalizing p with
  | zero => omega
  | succ n ih =>
    rw [busy_wait, sim_reg_r_cmd]
    simp only []
    by_cases hb : p.dev.busy = 0
    · have : ¬ (p.dev.cmd_word &&& E2P_CMD_EPC_BUSY_ ≠ 0) := by
        rw [sim_busy_iff]; simp [hb]
      rw [if_neg this, hb]
      simp [Sim.polls]
    · have : (p.dev.cmd_word &&& E2P_CMD_EPC_BUSY_ ≠ 0) := by
        rw [sim_busy_iff]; exact hb
      rw [if_pos this, ih _ (by simp; omega)]
      obtain ⟨b, hb'⟩ : ∃ b, p.dev.busy = b + 1 := ⟨p.dev.busy - 1, by omega⟩
      simp [hb', Sim.polls]

/-! ### Trace projections -/

@[simp] theorem writes_append (t u : List Access) : writes (t ++ u) = writes t ++ writes u := by
  simp [writes, List.filterMap_append]

@[simp] theorem writes_nil : writes [] = [] := rfl

@[simp] theorem writes_wr (r v : Nat) (t : List Access) :
    writes (Access.wr r v :: t) = (r, v) :: writes t := by
  simp [writes, List.filterMap_cons]

@[simp] theorem writes_rd (r v : Nat) (t : List Access) :
    writes (Access.rd r v :: t) = writes t := by
  simp [writes, List.filterMap_cons]

@[simp] theorem reads_of_append (reg : Nat) (t u : List Access) :
    reads_of reg (t ++ u) = reads_of reg t ++ reads_of reg u := by
  simp [reads_of, List.filterMap_append]

@[simp] theorem reads_of_nil (reg : Nat) : reads_of reg [] = [] := rfl

@[simp] theorem reads_of_wr (reg r v : Nat) (t : List Access) :
    reads_of reg (Access.wr r v :: t) = reads_of reg t := by
  simp [reads_of, List.filterMap_cons]

@[simp] theorem reads_of_rd (reg r v : Nat) (t : List Access) :
    reads_of reg (Access.rd r v :: t) = (if r = reg then [v] else []) ++ reads_of reg t := by
  by_cases h : r = reg <;> simp [reads_of, List.filterMap_cons, h]

/-! ### Register accesses on any bus -/

@[simp] theorem reg_w_trace {σ : Type} (bus : Bus σ) (p : Proc σ) (r v : Nat) :
    (reg_w bus p r v).trace = p.trace ++ [Access.wr r v] := rfl

@[simp] theorem reg_w_out {σ : Type} (bus : Bus σ) (p : Proc σ) (r v : Nat) :
    (reg_w bus p r v).out = p.out := rfl

@[simp] theorem reg_r_trace {σ : Type} (bus : Bus σ) (p : Proc σ) (r : Nat) :
    (reg_r bus p r).2.trace = p.trace ++ [Access.rd r (reg_r bus p r).1] := rfl

@[simp] theorem reg_r_out {σ : Type} (bus : Bus σ) (p : Proc σ) (r : Nat) :
    (reg_r bus p r).2.out = p.out := rfl

@[simp] theorem put_trace {σ : Type} (p : Proc σ) (cs : List Char) : (put p cs).trace = p.trace := rfl

@[simp] theorem put_dev {σ : Type} (p : Proc σ) (cs : List Char) : (put p cs).dev = p.dev := rfl

@[simp] theorem put_out {σ : Type} (p : Proc σ) (cs : List Char) : (put p cs).out = p.out ++ cs := rfl

theorem cmd_ne_data : E2P_CMD ≠ E2P_DATA := by decide

/-- A busy-wait only polls the command register: it extends the trace by reads
of `E2P_CMD` and prints nothing. -/
theorem busy_wait_trace {σ : Type} (bus : Bus σ) (fuel : Nat) (p q : Proc σ)
    (h : busy_wait bus fuel p = some q) :
    ∃ t, q.trace = p.trace ++ t ∧ writes t = [] ∧ reads_of E2P_DATA t = [] ∧ q.out = p.out := by
  induction fuel generalizing p with
  | zero => simp [busy_wait] at h
  | succ n ih =>
    rw [busy_wait] at h
    split at h
    · obtain ⟨t, h1, h2, h3, h4⟩ := ih _ h
      refine ⟨Access.rd E2P_CMD (reg_r bus p E2P_CMD).1 :: t, ?_, ?_, ?_, ?_⟩
      · simp [h1]
      · simp [h2]
      · simp [h3, cmd_ne_data]
      · simp [h4]
    · simp only [Option.some.injEq] at h
      subst h
      exact ⟨[Access.rd E2P_CMD (reg_r bus p E2P_CMD).1], by simp, by simp, by simp [cmd_ne_data], by simp⟩

/-! ### Register writes of the program on any bus -/

theorem for_range_writes {σ : Type} (body : Proc σ → Nat → Option (Proc σ))
    (W : Nat → List (Nat × Nat)) (hi : Nat)
    (hbody : ∀ p i q, i < hi → body p i = some q → writes q.trace = writes p.trace ++ W i) :
    ∀ n i p q, i + n ≤ hi → for_range body n i p = some q →
      writes q.trace = writes p.trace ++ cat_range W n i := by
  intro n
  induction n with
  | zero =>
    intro i p q _ h
    simp only [for_range, Option.some.injEq] at h
    subst h
    simp [cat_range]
  | succ n ih =>
    intro i p q hle h
    rw [for_range] at h
    cases hb : body p i with
    | none => simp [hb] at h
    | some p1 =>
      rw [hb] at h
      simp only [Option.some_bind] at h
      rw [ih (i + 1) p1 q (by omega) h, hbody p i p1 (by omega) hb]
      simp [cat_range]

theorem dump_cell_writes {σ : Type} (bus : Bus σ) (fuel : Nat) (p q : Proc σ) (i : Nat)
    (hi : i < 32) (h : dump_cell bus fuel p i = some q) :
    writes q.trace = writes p.trace ++ read_writes i := by
  unfold dump_cell at h
  obtain ⟨r1, r2⟩ := read_word i hi
  rw [r1, r2] at h
  simp only [Option.bind_eq_some, Option.some.injEq] at h
  obtain ⟨p1, h1, p4, h2, h⟩ := h
  obtain ⟨t1, e1, w1, -, -⟩ := busy_wait_trace bus fuel p p1 h1
  obtain ⟨t2, e2, w2, -, -⟩ := busy_wait_trace bus fuel _ p4 h2
  subst h
  simp [e2, e1, w1, w2, read_writes, E2P_CMD]

theorem dump_eep_writes {σ : Type} (bus : Bus σ) (fuel : Nat) (p q : Proc σ)
    (h : dump_eep bus fuel p = some q) :
    writes q.trace = writes p.trace ++ dump_writes := by
  unfold dump_eep at h
  have := for_range_writes (dump_cell bus fuel) read_writes 32
    (fun p i q hi hq => dump_cell_writes bus fuel p q i hi hq) 32 0 _ q (by omega) h
  simpa [dump_writes] using this

theorem ewen_word : (0 ||| E2P_CMD_EPC_CMD_EWEN_) = 0x20000000 ∧
    (0 ||| E2P_CMD_EPC_BUSY_ ||| E2P_CMD_EPC_CMD_EWEN_) = 0xA0000000 := by decide

theorem ewds_word : (0 ||| E2P_CMD_EPC_CMD_EWDS_) = 0x10000000 := by decide

theorem unlock_writes {σ : Type} (bus : Bus σ) (fuel : Nat) (p q : Proc σ)
    (h : unlock bus fuel p = some q) :
    writes q.trace = writes p.trace ++ dump_writes ++ ewen_writes := by
  unfold unlock at h
  rw [ewen_word.1, ewen_word.2] at h
  simp only [Option.bind_eq_some] at h
  obtain ⟨p1, h1, p2, h2, h3⟩ := h
  obtain ⟨t2, e2, w2, -, -⟩ := busy_wait_trace bus fuel _ _ h2
  obtain ⟨t3, e3, w3, -, -⟩ := busy_wait_trace bus fuel _ _ h3
  have hd := dump_eep_writes bus fuel p p1 h1
  simp [e3, e2, w2, w3, hd, ewen_writes, E2P_CMD]

theorem write_cell_writes {σ : Type} (bus : Bus σ) (fuel : Nat) (a : List Nat) (p q : Proc σ)
    (i : Nat) (hi : i < 7) (h : write_cell bus fuel a p i = some q) :
    writes q.trace = writes p.trace ++ cell_writes a i := by
  unfold write_cell at h
  obtain ⟨r1, r2⟩ := write_word i hi
  rw [r1, r2] at h
  simp only [Option.bind_eq_some] at h
  obtain ⟨p1, h1, h2⟩ := h
  obtain ⟨t1, e1, w1, -, -⟩ := busy_wait_trace bus fuel _ _ h1
  obtain ⟨t2, e2, w2, -, -⟩ := busy_wait_trace bus fuel _ _ h2
  simp [e2, e1, w1, w2, cell_writes, E2P_CMD, E2P_DATA]

theorem write_and_dump_writes {σ : Type} (bus : Bus σ) (fuel : Nat) (a : List Nat)
    (p : Proc σ) (o : Outcome σ) (h : write_and_dump bus fuel a p = some o) :
    o.exit = Exit.ok ∧
    writes o.proc.trace =
      writes p.trace ++ loop_writes a ++ [(0xB0, 0x10000000)] ++ dump_writes := by
  unfold write_and_dump at h
  rw [ewds_word] at h
  simp only [Option.bind_eq_some, Option.some.injEq] at h
  obtain ⟨p1, h1, p3, h3, h⟩ := h
  subst h
  have hl := for_range_writes (write_cell bus fuel a) (cell_writes a) 7
    (fun p i q hi hq => write_cell_writes bus fuel a p q i hi hq) 7 0 _ p1 (by omega) h1
  have hd := dump_eep_writes bus fuel _ p3 h3
  refine ⟨rfl, ?_⟩
  simp [hd, hl, loop_writes, E2P_CMD]

/-- The register writes of `programAddress` on any device: a run that ends is
either the complete sequence with exit 0, or stops at the `FATAL` of line 198
having written only the READ and EWEN commands. -/
theorem programAddress_writes {σ : Type} (bus : Bus σ) (fuel : Nat) (a : List Nat)
    (p : Proc σ) (o : Outcome σ) (h : programAddress bus fuel a p = some o) :
    (o.exit = Exit.ok ∧
      writes o.proc.trace = writes p.trace ++ dump_writes ++ ewen_writes ++ loop_writes a ++
        [(0xB0, 0x10000000)] ++ dump_writes) ∨
    (o.exit = Exit.fatal 198 ∧
      writes o.proc.trace = writes p.trace ++ dump_writes ++ ewen_writes) := by
  unfold programAddress at h
  simp only [Option.bind_eq_some] at h
  obtain ⟨p1, h1, h2⟩ := h
  have hu := unlock_writes bus fuel p p1 h1
  split at h2
  · simp only [Option.some.injEq] at h2
    subst h2
    right
    exact ⟨rfl, by simp [hu]⟩
  · left
    obtain ⟨e, w⟩ := write_and_dump_writes bus fuel a _ o h2
    exact ⟨e, by simp [w, hu]⟩

/-! ### Register accesses on the simulated controller -/

theorem sim_reg_w_cmd_idle (cfg : SimCfg) (p : Proc Sim) (v lo hi : Nat) (hv : v < 2147483648)
    (hlo : v % 65536 = lo) (hhi : v / 65536 % 65536 = hi) :
    reg_w (simBus cfg) p E2P_CMD v =
      { p with dev := { p.dev with cmd_lo := lo, cmd_hi := hi },
               trace := p.trace ++ [Access.wr E2P_CMD v] } := by
  have h : ¬ (v / 65536 % 65536 / 32768 % 2 = 1 ∧ p.dev.busy = 0) := by omega
  subst hlo hhi
  simp [reg_w, simBus, Sim.store, E2P_CMD, h]

theorem sim_reg_w_cmd_go (cfg : SimCfg) (p : Proc Sim) (v lo hi : Nat) (hv : 2147483648 ≤ v)
    (hv2 : v < 4294967296) (hlo : v % 65536 = lo) (hhi : v / 65536 % 65536 = hi)
    (hb : p.dev.busy = 0) :
    reg_w (simBus cfg) p E2P_CMD v =
      { p with dev := Sim.submit cfg { p.dev with cmd_lo := lo, cmd_hi := hi },
               trace := p.trace ++ [Access.wr E2P_CMD v] } := by
  have h : (v / 65536 % 65536 / 32768 % 2 = 1 ∧ p.dev.busy = 0) := ⟨by omega, hb⟩
  subst hlo hhi
  simp [reg_w, simBus, Sim.store, E2P_CMD, h]

theorem sim_reg_w_data (cfg : SimCfg) (p : Proc Sim) (v : Nat) (hv : v < 65536) :
    reg_w (simBus cfg) p E2P_DATA v =
      { p with dev := { p.dev with data_lo := v, data_hi := 0 },
               trace := p.trace ++ [Access.wr E2P_DATA v] } := by
  have h1 : v % 65536 = v := by omega
  have h2 : v / 65536 = 0 := by omega
  simp [reg_w, simBus, Sim.store, E2P_DATA, h1, h2]

theorem sim_reg_r_data (cfg : SimCfg) (p : Proc Sim) :
    reg_r (simBus cfg) p E2P_DATA =
      (p.dev.data_lo % 65536 + p.dev.data_hi % 65536 * 65536,
       { p with trace := p.trace ++
          [Access.rd E2P_DATA (p.dev.data_lo % 65536 + p.dev.data_hi % 65536 * 65536)] }) := by
  simp [reg_r, simBus, Sim.load, E2P_DATA, join_halves_eq]

theorem sim_submit_read (cfg : SimCfg) (s : Sim) (i : Nat) (hi : i < 256)
    (h1 : s.cmd_lo = i) (h2 : s.cmd_hi = 32768) :
    Sim.submit cfg s =
      { s with busy := cfg.delay s.ncmd, ncmd := s.ncmd + 1,
               log := s.log ++ [{ op := 0, addr := i, data := 0 }],
               tmo := cfg.fails s.ncmd,
               data_lo := if cfg.fails s.ncmd then s.data_lo else s.cells i % 256,
               data_hi := if cfg.fails s.ncmd then s.data_hi else 0 } := by
  have e : i % 256 = i := Nat.mod_eq_of_lt hi
  unfold Sim.submit
  cases hf : cfg.fails s.ncmd <;> simp [h1, h2, e]

theorem sim_submit_ewen (cfg : SimCfg) (s : Sim)
    (h1 : s.cmd_lo = 0) (h2 : s.cmd_hi = 40960) :
    Sim.submit cfg s =
      { s with busy := cfg.delay s.ncmd, ncmd := s.ncmd + 1,
               log := s.log ++ [{ op := 2, addr := 0, data := 0 }],
               tmo := cfg.fails s.ncmd,
               wen := if cfg.fails s.ncmd then s.wen else true } := by
  unfold Sim.submit
  cases hf : cfg.fails s.ncmd <;> simp [h1, h2]

theorem sim_submit_write (cfg : SimCfg) (s : Sim) (i : Nat) (hi : i < 256)
    (h1 : s.cmd_lo = i) (h2 : s.cmd_hi = 45056) :
    Sim.submit cfg s =
      { s with busy := cfg.delay s.ncmd, ncmd := s.ncmd + 1,
               log := s.log ++ [{ op := 3, addr := i, data := s.data_lo % 256 }],
               tmo := cfg.fails s.ncmd,
               cells := if cfg.fails s.ncmd = false ∧ s.wen = true
                        then Function.update s.cells i (s.data_lo % 256) else s.cells } := by
  have e : i % 256 = i := Nat.mod_eq_of_lt hi
  unfold Sim.submit
  cases hf : cfg.fails s.ncmd <;> cases hw : s.wen <;> simp [h1, h2, e, hw]

@[simp] theorem reads_polls (b : Nat) (s : Sim) : reads_of E2P_DATA (Sim.polls b s) = [] := by
  induction b generalizing s with
  | zero => simp [Sim.polls, cmd_ne_data]
  | succ n ih => simp [Sim.polls, cmd_ne_data, ih]

@[simp] theorem writes_polls (b : Nat) (s : Sim) : writes (Sim.polls b s) = [] := by
  induction b generalizing s with
  | zero => simp [Sim.polls]
  | succ n ih => simp [Sim.polls, ih]

/-- One iteration of the dump on the simulated controller. -/
theorem sim_dump_cell (cfg : SimCfg) (fuel : Nat) (p : Proc Sim) (i : Nat) (hi : i < 32)
    (hb : p.dev.busy < fuel) (hd : ∀ k, cfg.delay k < fuel) :
    ∃ q, dump_cell (simBus cfg) fuel p i = some q ∧
      q.dev = { p.dev with
        cmd_lo := i, cmd_hi := 32768, busy := 0, ncmd := p.dev.ncmd + 1,
        log := p.dev.log ++ [{ op := 0, addr := i, data := 0 }],
        tmo := cfg.fails p.dev.ncmd,
        data_lo := if cfg.fails p.dev.ncmd then p.dev.data_lo else p.dev.cells i % 256,
        data_hi := if cfg.fails p.dev.ncmd then p.dev.data_hi else 0 } ∧
      reads_of E2P_DATA q.trace = reads_of E2P_DATA p.trace ++
        [if cfg.fails p.dev.ncmd then p.dev.data_lo % 65536 + p.dev.data_hi % 65536 * 65536
         else p.dev.cells i % 256] := by
  unfold dump_cell
  rw [sim_busy_wait cfg fuel p hb]
  simp only [Option.some_bind]
  rw [(read_word i hi).1, (read_word i hi).2]
  rw [sim_reg_w_cmd_idle cfg _ i i 0 (by omega) (by omega) (by omega)]
  dsimp only
  rw [sim_reg_w_cmd_go cfg _ (2147483648 + i) i 32768 (by omega) (by omega) (by omega)
    (by omega) rfl]
  rw [sim_submit_read cfg _ i (by omega) rfl rfl]
  dsimp only
  rw [sim_busy_wait _ _ _ (hd _)]
  simp only [Option.some_bind]
  rw [sim_reg_r_data]
  refine ⟨_, rfl, ?_, ?_⟩
  · simp
  · cases hf : cfg.fails p.dev.ncmd <;> simp [hf]
    omega

/-- The dump loop on the simulated controller: `n` cells from cell `i`. -/
theorem sim_dump_loop (cfg : SimCfg) (fuel : Nat) (hd : ∀ k, cfg.delay k < fuel) :
    ∀ n i (p : Proc Sim), i + n ≤ 32 → p.dev.busy < fuel →
    ∃ q, for_range (dump_cell (simBus cfg) fuel) n i p = some q ∧
      q.dev.cells = p.dev.cells ∧ q.dev.wen = p.dev.wen ∧ q.dev.ram = p.dev.ram ∧
      q.dev.ncmd = p.dev.ncmd + n ∧ q.dev.busy < fuel ∧
      q.dev.log = p.dev.log ++ cat_range (fun c => [{ op := 0, addr := c, data := 0 }]) n i ∧
      ((∀ k, cfg.fails k = false) →
        reads_of E2P_DATA q.trace =
          reads_of E2P_DATA p.trace ++ cat_range (fun c => [p.dev.cells c % 256]) n i) := by
  intro n
  induction n with
  | zero =>
    intro i p _ hb
    exact ⟨p, rfl, rfl, rfl, rfl, rfl, hb, by simp [cat_range], fun _ => by simp [cat_range]⟩
  | succ n ih =>
    intro i p hle hb
    obtain ⟨q1, e1, d1, r1⟩ := sim_dump_cell cfg fuel p i (by omega) hb hd
    obtain ⟨q, e, c, w, m, k, b, l, r⟩ := ih (i + 1) q1 (by omega) (by rw [d1]; simp; omega)
    refine ⟨q, ?_, ?_, ?_, ?_, ?_, b, ?_, ?_⟩
    · rw [for_range, e1]; simpa using e
    · rw [c, d1]
    · rw [w, d1]
    · rw [m, d1]
    · rw [k, d1]; simp; omega
    · rw [l, d1]; simp [cat_range]
    · intro hf
      rw [r hf, r1, d1]
      simp [cat_range, hf]

theorem sim_dump_eep (cfg : SimCfg) (fuel : Nat) (hd : ∀ k, cfg.delay k < fuel)
    (p : Proc Sim) (hb : p.dev.busy < fuel) :
    ∃ q, dump_eep (simBus cfg) fuel p = some q ∧
      q.dev.cells = p.dev.cells ∧ q.dev.wen = p.dev.wen ∧ q.dev.ram = p.dev.ram ∧
      q.dev.ncmd = p.dev.ncmd + 32 ∧ q.dev.busy < fuel ∧
      q.dev.log = p.dev.log ++ read_cmds ∧
      ((∀ k, cfg.fails k = false) →
        reads_of E2P_DATA q.trace =
          reads_of E2P_DATA p.trace ++ cat_range (fun c => [p.dev.cells c % 256]) 32 0) := by
  unfold dump_eep
  exact sim_dump_loop cfg fuel hd 32 0 (put p "Current eeprom:\n".toList) (by omega) hb

/-- The first dump and the EWEN command on the simulated controller. -/
theorem sim_unlock (cfg : SimCfg) (fuel : Nat) (hd : ∀ k, cfg.delay k < fuel)
    (p : Proc Sim) (hb : p.dev.busy < fuel) :
    ∃ q, unlock (simBus cfg) fuel p = some q ∧
      q.dev.cells = p.dev.cells ∧ q.dev.ram = p.dev.ram ∧
      q.dev.wen = (if cfg.fails (p.dev.ncmd + 32) then p.dev.wen else true) ∧
      q.dev.tmo = cfg.fails (p.dev.ncmd + 32) ∧
      q.dev.ncmd = p.dev.ncmd + 33 ∧ q.dev.busy = 0 ∧
      q.dev.log = p.dev.log ++ read_cmds ++ [{ op := 2, addr := 0, data := 0 }] ∧
      ((∀ k, cfg.fails k = false) →
        reads_of E2P_DATA q.trace =
          reads_of E2P_DATA p.trace ++ cat_range (fun c => [p.dev.cells c % 256]) 32 0) := by
  obtain ⟨q1, e1, c1, w1, m1, k1, b1, l1, r1⟩ := sim_dump_eep cfg fuel hd p hb
  unfold unlock
  rw [e1]
  simp only [Option.some_bind]
  rw [sim_busy_wait cfg fuel q1 b1]
  simp only [Option.some_bind]
  rw [ewen_word.1, ewen_word.2]
  rw [sim_reg_w_cmd_idle cfg _ 0x20000000 0 8192 (by omega) (by omega) (by omega)]
  dsimp only
  rw [sim_reg_w_cmd_go cfg _ 0xA0000000 0 40960 (by omega) (by omega) (by omega) (by omega) rfl]
  rw [sim_submit_ewen cfg _ rfl rfl]
  dsimp only
  rw [sim_busy_wait _ _ _ (hd _)]
  dsimp only
  refine ⟨_, rfl, ?_, ?_, ?_, ?_, ?_, ?_, ?_, ?_⟩
  · simp [c1]
  · simp [m1]
  · simp [w1, k1]
  · simp [k1]
  · simp [k1]
  · simp
  · simp [l1]
  · intro hf
    simp [r1 hf]

/-- The data of the write loop are bytes when the six address bytes are. -/
theorem datum_lt (a0 a1 a2 a3 a4 a5 : Nat) (rest : List Nat)
    (h : a0 < 256 ∧ a1 < 256 ∧ a2 < 256 ∧ a3 < 256 ∧ a4 < 256 ∧ a5 < 256) :
    ∀ i, i < 7 → datum_of (a0 :: a1 :: a2 :: a3 :: a4 :: a5 :: rest) i < 256 := by
  obtain ⟨h0, h1, h2, h3, h4, h5⟩ := h
  intro i hi
  interval_cases i <;> simp [datum_of] <;> assumption

/-- One iteration of the write loop on the simulated controller. -/
theorem sim_write_cell (cfg : SimCfg) (fuel : Nat) (hd : ∀ k, cfg.delay k < fuel)
    (a : List Nat) (ha : ∀ i, i < 7 → datum_of a i < 256) (p : Proc Sim) (i : Nat) (hi : i < 7)
    (hb : p.dev.busy < fuel) :
    ∃ q, write_cell (simBus cfg) fuel a p i = some q ∧
      q.dev = { p.dev with
        data_lo := datum_of a i, data_hi := 0,
        cmd_lo := i, cmd_hi := 45056, busy := 0, ncmd := p.dev.ncmd + 1,
        log := p.dev.log ++ [{ op := 3, addr := i, data := datum_of a i % 256 }],
        tmo := cfg.fails p.dev.ncmd,
        cells := if cfg.fails p.dev.ncmd = false ∧ p.dev.wen = true
                 then Function.update p.dev.cells i (datum_of a i % 256) else p.dev.cells } ∧
      reads_of E2P_DATA q.trace = reads_of E2P_DATA p.trace := by
  unfold write_cell
  rw [sim_busy_wait cfg fuel p hb]
  simp only [Option.some_bind]
  rw [(write_word i hi).1, (write_word i hi).2]
  have hdat : datum_of a i < 256 := ha i hi
  have hd2 : (if i = 0 then 0xa5 else a.getD (i - 1) 0) = datum_of a i := rfl
  rw [hd2, sim_reg_w_data cfg _ _ (by omega)]
  dsimp only
  rw [sim_reg_w_cmd_idle cfg _ (805306368 + i) i 12288 (by omega) (by omega) (by omega)]
  dsimp only
  rw [sim_reg_w_cmd_go cfg _ (2952790016 + i) i 45056 (by omega) (by omega) (by omega)
    (by omega) rfl]
  rw [sim_submit_write cfg _ i (by omega) rfl rfl]
  dsimp only
  rw [sim_busy_wait _ _ _ (hd _)]
  refine ⟨_, rfl, ?_, ?_⟩
  · simp
  · simp

/-- The write loop on the simulated controller: `n` cells from index `i`. -/
theorem sim_write_loop (cfg : SimCfg) (fuel : Nat) (hd : ∀ k, cfg.delay k < fuel)
    (a : List Nat) (ha : ∀ i, i < 7 → datum_of a i < 256) :
    ∀ n i (p : Proc Sim), i + n ≤ 7 → p.dev.busy < fuel →
    ∃ q, for_range (write_cell (simBus cfg) fuel a) n i p = some q ∧
      q.dev.wen = p.dev.wen ∧ q.dev.ram = p.dev.ram ∧
      q.dev.ncmd = p.dev.ncmd + n ∧ q.dev.busy < fuel ∧
      q.dev.log = p.dev.log ++
        cat_range (fun j => [{ op := 3, addr := j, data := datum_of a j % 256 }]) n i ∧
      reads_of E2P_DATA q.trace = reads_of E2P_DATA p.trace ∧
      (∀ c, c < i ∨ i + n ≤ c → q.dev.cells c = p.dev.cells c) ∧
      ((∀ k, cfg.fails k = false) → p.dev.wen = true →
        ∀ c, i ≤ c → c < i + n → q.dev.cells c = datum_of a c % 256) := by
  intro n
  induction n with
  | zero =>
    intro i p _ hb
    exact ⟨p, rfl, rfl, rfl, rfl, hb, by simp [cat_range], rfl, fun _ _ => rfl,
      fun _ _ c h1 h2 => by omega⟩
  | succ n ih =>
    intro i p hle hb
    obtain ⟨q1, e1, d1, r1⟩ := sim_write_cell cfg fuel hd a ha p i (by omega) hb
    obtain ⟨q, e, w, m, k, b, l, r, fr, ce⟩ :=
      ih (i + 1) q1 (by omega) (by rw [d1]; simp; omega)
    refine ⟨q, ?_, ?_, ?_, ?_, b, ?_, ?_, ?_, ?_⟩
    · rw [for_range, e1]; simpa using e
    · rw [w, d1]
    · rw [m, d1]
    · rw [k, d1]; simp; omega
    · rw [l, d1]; simp [cat_range]
    · rw [r, r1]
    · intro c hc
      rw [fr c (by omega), d1]
      have hne : c ≠ i := by omega
      simp only []
      split
      · simp [Function.update, hne]
      · rfl
    · intro hf hw c h1 h2
      by_cases hc : c = i
      · subst hc
        rw [fr c (by omega), d1]
        simp [hf, hw]
      · exact ce hf (by rw [d1]; exact hw) c (by omega) (by omega)

/-- The write loop, the EWDS write and the second dump on the simulated
controller. -/
theorem sim_write_and_dump (cfg : SimCfg) (fuel : Nat) (hd : ∀ k, cfg.delay k < fuel)
    (a : List Nat) (ha : ∀ i, i < 7 → datum_of a i < 256) (p : Proc Sim) (hb : p.dev.busy < fuel) :
    ∃ o, write_and_dump (simBus cfg) fuel a p = some o ∧ o.exit = Exit.ok ∧
      o.proc.dev.wen = p.dev.wen ∧ o.proc.dev.ram = p.dev.ram ∧
      o.proc.dev.ncmd = p.dev.ncmd + 39 ∧ o.proc.dev.busy < fuel ∧
      o.proc.dev.log = p.dev.log ++ write_cmds a ++ read_cmds ∧
      (∀ c, 7 ≤ c → o.proc.dev.cells c = p.dev.cells c) ∧
      ((∀ k, cfg.fails k = false) → p.dev.wen = true →
        ∀ c, c < 7 → o.proc.dev.cells c = datum_of a c) ∧
      ((∀ k, cfg.fails k = false) →
        reads_of E2P_DATA o.proc.trace =
          reads_of E2P_DATA p.trace ++ cat_range (fun c => [o.proc.dev.cells c % 256]) 32 0) := by
  obtain ⟨q1, e1, w1, m1, k1, b1, l1, r1, f1, c1⟩ :=
    sim_write_loop cfg fuel hd a ha 7 0 (put p "Write...\n".toList) (by omega) hb
  unfold write_and_dump
  rw [e1]
  simp only [Option.some_bind]
  rw [ewds_word, sim_reg_w_cmd_idle cfg q1 0x10000000 0 4096 (by omega) (by omega) (by omega)]
  obtain ⟨q3, e3, c3, w3, m3, k3, b3, l3, r3⟩ := sim_dump_eep cfg fuel hd
    { q1 with dev := { q1.dev with cmd_lo := 0, cmd_hi := 4096 },
              trace := q1.trace ++ [Access.wr E2P_CMD 0x10000000] } b1
  rw [e3]
  refine ⟨_, rfl, rfl, ?_, ?_, ?_, b3, ?_, ?_, ?_, ?_⟩
  · simp [w3, w1]
  · simp [m3, m1]
  · simp [k3, k1]
  · simp [l3, l1, write_cmds]
  · intro c hc
    simp only [c3]
    simpa using f1 c (by omega)
  · intro hf hw c hc
    simp only [c3]
    have := c1 hf (by simpa using hw) c (by omega) (by omega)
    rw [Nat.mod_eq_of_lt (ha c hc)] at this
    simpa using this
  · intro hf
    simp only [c3]
    rw [r3 hf]
    simp [r1]

/-- The programming sequence on the simulated controller. -/
theorem sim_programAddress (cfg : SimCfg) (fuel : Nat) (hd : ∀ k, cfg.delay k < fuel)
    (a : List Nat) (ha : ∀ i, i < 7 → datum_of a i < 256) (p : Proc Sim) (hb : p.dev.busy < fuel) :
    ∃ o, programAddress (simBus cfg) fuel a p = some o ∧
      o.exit = (if cfg.fails (p.dev.ncmd + 32) then Exit.fatal 198 else Exit.ok) ∧
      o.proc.dev.ram = p.dev.ram ∧ o.proc.dev.busy < fuel ∧
      (∀ c, 7 ≤ c → o.proc.dev.cells c = p.dev.cells c) ∧
      (cfg.fails (p.dev.ncmd + 32) = true →
        o.proc.dev.cells = p.dev.cells ∧ o.proc.dev.wen = p.dev.wen ∧
        o.proc.dev.log = p.dev.log ++ read_cmds ++ [{ op := 2, addr := 0, data := 0 }]) ∧
      (cfg.fails (p.dev.ncmd + 32) = false →
        o.proc.dev.wen = true ∧ o.proc.dev.ncmd = p.dev.ncmd + 72 ∧
        o.proc.dev.log = p.dev.log ++ read_cmds ++ [{ op := 2, addr := 0, data := 0 }] ++
          write_cmds a ++ read_cmds) ∧
      ((∀ k, cfg.fails k = false) →
        (∀ c, c < 7 → o.proc.dev.cells c = datum_of a c) ∧
        reads_of E2P_DATA o.proc.trace =
          reads_of E2P_DATA p.trace ++ cat_range (fun c => [p.dev.cells c % 256]) 32 0 ++
            cat_range (fun c => [o.proc.dev.cells c % 256]) 32 0) := by
  obtain ⟨q, e, c, m, w, t, k, b, l, r⟩ := sim_unlock cfg fuel hd p hb
  unfold programAddress
  rw [e]
  simp only [Option.some_bind]
  rw [sim_reg_r_cmd]
  dsimp only
  by_cases hf : cfg.fails (p.dev.ncmd + 32) = true
  · have ht : q.dev.cmd_word &&& E2P_CMD_EPC_TIMEOUT_ ≠ 0 := by
      rw [sim_timeout_iff, t]; exact hf
    rw [if_pos ht]
    refine ⟨_, rfl, ?_, ?_, ?_, ?_, ?_, ?_, ?_⟩
    · simp [hf]
    · simp [m]
    · simp [b]; omega
    · intro x _; simp [c]
    · intro _
      refine ⟨by simp [c], by simp [w, hf], by simp [l]⟩
    · intro h; rw [h] at hf; exact absurd hf (by decide)
    · intro h; rw [h] at hf; exact absurd hf (by decide)
  · have hf2 : cfg.fails (p.dev.ncmd + 32) = false := by simpa using hf
    have ht : ¬ (q.dev.cmd_word &&& E2P_CMD_EPC_TIMEOUT_ ≠ 0) := by
      rw [sim_timeout_iff, t]; exact hf
    rw [if_neg ht]
    obtain ⟨o, eo, ex, w2, m2, k2, b2, l2, f2, c2, r2⟩ := sim_write_and_dump cfg fuel hd a ha
      { q with dev := { q.dev with busy := q.dev.busy - 1 },
               trace := q.trace ++ [Access.rd E2P_CMD q.dev.cmd_word] }
      (by simp [b]; omega)
    refine ⟨o, eo, ?_, ?_, b2, ?_, ?_, ?_, ?_⟩
    · simp [hf2, ex]
    · simp [m2, m]
    · intro x hx
      rw [f2 x hx]; simp [c]
    · intro h; rw [h] at hf2; exact absurd hf2 (by decide)
    · intro _
      refine ⟨?_, ?_, ?_⟩
      · rw [w2]; simp [w, hf2]
      · rw [k2]; simp [k]
      · rw [l2]; simp [l]
    · intro hall
      refine ⟨fun x hx => c2 hall (by simp [w, hf2]) x hx, ?_⟩
      rw [r2 hall]
      simp [r hall, cmd_ne_data]

theorem cat_range_split {α : Type} (W : Nat → List α) (m n i : Nat) :
    cat_range W (m + n) i = cat_range W m i ++ cat_range W n (i + m) := by
  induction m generalizing i with
  | zero => simp [cat_range]
  | succ m ih =>
    have e : m + 1 + n = (m + n) + 1 := by omega
    rw [e, cat_range, cat_range, ih (i + 1)]
    have e2 : i + 1 + m = i + (m + 1) := by omega
    simp [e2]

theorem cat_range_congr {α : Type} (W V : Nat → List α) (n i : Nat)
    (h : ∀ c, i ≤ c → c < i + n → W c = V c) : cat_range W n i = cat_range V n i := by
  induction n generalizing i with
  | zero => rfl
  | succ n ih =>
    rw [cat_range, cat_range, h i (by omega) (by omega), ih (i + 1)]
    intro c h1 h2
    exact h c (by omega) (by omega)

theorem cat_range_length {α : Type} (f : Nat → α) (n i : Nat) :
    (cat_range (fun c => [f c]) n i).length = n := by
  induction n generalizing i with
  | zero => rfl
  | succ n ih => simp [cat_range, ih]

theorem mem_cat_range {α : Type} (W : Nat → List α) (n i : Nat) (x : α)
    (h : x ∈ cat_range W n i) : ∃ j, i ≤ j ∧ j < i + n ∧ x ∈ W j := by
  induction n generalizing i with
  | zero => simp [cat_range] at h
  | succ n ih =>
    rw [cat_range, List.mem_append] at h
    rcases h with h | h
    · exact ⟨i, by omega, by omega, h⟩
    · obtain ⟨j, h1, h2, h3⟩ := ih (i + 1) h
      exact ⟨j, by omega, by omega, h3⟩

/-- Every register write of the write loop is a write of the data register or
a WRITE word for a cell from 0 to 6. -/
theorem loop_writes_classified (a : List Nat) :
    ∀ w ∈ loop_writes a,
      w.1 = E2P_DATA ∨ (w.1 = E2P_CMD ∧ w.2 / 0x10000000 % 8 = 3 ∧ w.2 % 256 ≤ 6) := by
  intro w hw
  obtain ⟨j, -, h2, hj⟩ := mem_cat_range _ _ _ _ hw
  simp only [cell_writes, List.mem_cons, List.mem_singleton, List.not_mem_nil, or_false] at hj
  rcases hj with h | h | h
  · left; rw [h]; rfl
  · right; rw [h]; refine ⟨rfl, ?_, ?_⟩ <;> simp <;> omega
  · right; rw [h]; refine ⟨rfl, ?_, ?_⟩ <;> simp <;> omega

/-- On any device, every register write of a run of `programAddress` goes to
the data register or to the command register, and a command word written
with BUSY set carries READ, EWEN, or WRITE for a cell from 0 to 6. -/
theorem program_writes_classified {σ : Type} (bus : Bus σ) (fuel : Nat) (a : List Nat)
    (p : Proc σ) (o : Outcome σ) (h : programAddress bus fuel a p = some o) :
    ∀ w ∈ (writes o.proc.trace).drop (writes p.trace).length,
      (w.1 = E2P_DATA) ∨
      (w.1 = E2P_CMD ∧ (w.2 / 0x80000000 % 2 = 1 →
        w.2 / 0x10000000 % 8 = 0 ∨ w.2 / 0x10000000 % 8 = 2 ∨
        (w.2 / 0x10000000 % 8 = 3 ∧ w.2 % 256 ≤ 6))) := by
  have hdw : ∀ w ∈ dump_writes, w.1 = E2P_CMD ∧ w.2 / 0x10000000 % 8 = 0 := by decide
  have hew : ∀ w ∈ ewen_writes, w.1 = E2P_CMD ∧ w.2 / 0x10000000 % 8 = 2 := by decide
  have hlw := loop_writes_classified a
  intro w hw
  rcases programAddress_writes _ _ _ _ _ h with ⟨_, h⟩ | ⟨_, h⟩
  · rw [h] at hw
    simp only [List.append_assoc, List.drop_left] at hw
    rcases List.mem_append.1 hw with h1 | h1
    · right; exact ⟨(hdw w h1).1, fun _ => Or.inl (hdw w h1).2⟩
    rcases List.mem_append.1 h1 with h2 | h2
    · right; exact ⟨(hew w h2).1, fun _ => Or.inr (Or.inl (hew w h2).2)⟩
    rcases List.mem_append.1 h2 with h3 | h3
    · rcases hlw w h3 with h4 | ⟨h4, h5, h6⟩
      · left; exact h4
      · right; exact ⟨h4, fun _ => Or.inr (Or.inr ⟨h5, h6⟩)⟩
    rcases List.mem_append.1 h3 with h4 | h4
    · simp only [List.mem_singleton] at h4
      right; rw [h4]; exact ⟨rfl, fun hh => absurd hh (by decide)⟩
    · right; exact ⟨(hdw w h4).1, fun _ => Or.inl (hdw w h4).2⟩
  · rw [h] at hw
    simp only [List.append_assoc, List.drop_left] at hw
    rcases List.mem_append.1 hw with h1 | h1
    · right; exact ⟨(hdw w h1).1, fun _ => Or.inl (hdw w h1).2⟩
    · right; exact ⟨(hew w h1).1, fun _ => Or.inr (Or.inl (hew w h1).2)⟩

/-- When the EEPROM does not answer the EWEN command, the run on the simulated
controller ends with exit status 1 and every cell is as it was. -/
theorem sim_timeout_leaves_cells (cfg : SimCfg) (fuel : Nat) (hd : ∀ k, cfg.delay k < fuel)
    (a0 a1 a2 a3 a4 a5 : Nat) (rest : List Nat) (p : Proc Sim)
    (hbyte : a0 < 256 ∧ a1 < 256 ∧ a2 < 256 ∧ a3 < 256 ∧ a4 < 256 ∧ a5 < 256)
    (hb : p.dev.busy < fuel) (ht : cfg.fails (p.dev.ncmd + 32) = true) :
    ∃ o, programAddress (simBus cfg) fuel (a0 :: a1 :: a2 :: a3 :: a4 :: a5 :: rest) p = some o ∧
      o.exit.status = 1 ∧ o.proc.dev.cells = p.dev.cells := by
  have ha := datum_lt a0 a1 a2 a3 a4 a5 rest hbyte
  obtain ⟨o, e, ex, -, -, -, l1, -⟩ := sim_programAddress cfg fuel hd _ ha p hb
  refine ⟨o, e, ?_, (l1 ht).1⟩
  rw [ex, ht]
  rfl

/-! ### End-to-end scenarios of the specification, by evaluation -/

set_option maxRecDepth 1000000 in
/-- The argument `02:00:00:00:00:01` on a blank EEPROM: exit 0 and
`a5 02 00 00 00 00 01` in the cells 0 to 6, cell 7 untouched. -/
theorem scenario_explicit_address :
    (main (simBus { delay := fun _ => 1, fails := fun _ => false }) 2
        { verbose := false, open_mem := true, mmap_ok := true, base := 0x40000000,
          open_urandom := true, urandom := none }
        ["newmac", "02:00:00:00:00:01"]
        { cmd_lo := 0, cmd_hi := 0, data_lo := 0, data_hi := 0, ram := fun _ => 0,
          cells := fun _ => 0xFF, wen := false, tmo := false, busy := 0, ncmd := 0,
          log := [] }).map (fun o => (o.exit, (List.range 8).map o.proc.dev.cells)) =
      some (Exit.ok, [0xA5, 0x02, 0x00, 0x00, 0x00, 0x00, 0x01, 0xFF]) := by
  decide

set_option maxRecDepth 1000000 in
/-- The argument `-r` with the random bytes 11 22 33 44 55 66: exit 0 and
`a5 12 22 33 44 55 66` in the cells 0 to 6, cell 7 untouched. -/
theorem scenario_random_address :
    (main (simBus { delay := fun _ => 1, fails := fun _ => false }) 2
        { verbose := false, open_mem := true, mmap_ok := true, base := 0x40000000,
          open_urandom := true, urandom := some [0x11, 0x22, 0x33, 0x44, 0x55, 0x66] }
        ["newmac", "-r"]
        { cmd_lo := 0, cmd_hi := 0, data_lo := 0, data_hi := 0, ram := fun _ => 0,
          cells := fun _ => 0xFF, wen := false, tmo := false, busy := 0, ncmd := 0,
          log := [] }).map (fun o => (o.exit, (List.range 8).map o.proc.dev.cells)) =
      some (Exit.ok, [0xA5, 0x12, 0x22, 0x33, 0x44, 0x55, 0x66, 0xFF]) := by
  decide

/-! ### Command-line parsing -/

theorem map_window_trace {σ : Type} (env : Env) (dev : σ) :
    (∀ e, map_window env dev = Except.error e →
      e.2.trace = [] ∧ e.2.dev = dev ∧ (e.1 = 126 ∨ e.1 = 135)) ∧
    (∀ p, map_window env dev = Except.ok p → p.trace = [] ∧ p.dev = dev) := by
  unfold map_window
  cases env.open_mem <;> cases env.mmap_ok <;> cases env.verbose <;> simp

theorem show_current_writes {σ : Type} (bus : Bus σ) (p : Proc σ) :
    writes (show_current bus p).2.trace =
      writes p.trace ++ [(0xA4, 0xc0000002), (0xA4, 0xc0000003)] := by
  simp [show_current, mac_r]

/-- The scan on arguments with a bare `0x` and with an overflowing negative
number, by evaluation: `0x` converts to 0 and is consumed, so `0x:1:2:3:4:5`
gives six bytes and `1:2:3:4:5:0x:7` gives seven; `-10000000000000000`
overflows `strtoul`, which returns `ULONG_MAX`, stored as 0xFF. -/
theorem sscanf_mac_examples :
    sscanf_mac "0x:1:2:3:4:5".toList [9, 9, 9, 9, 9, 9, 9, 9] = (6, [0, 1, 2, 3, 4, 5, 9, 9]) ∧
    sscanf_mac "1:2:3:4:5:0x:7".toList [9, 9, 9, 9, 9, 9, 9, 9] =
      (7, [1, 2, 3, 4, 5, 0, 7, 9]) ∧
    sscanf_mac "-10000000000000000:-1".toList [9, 9, 9, 9, 9, 9, 9, 9] =
      (2, [0xFF, 0xFF, 9, 9, 9, 9, 9, 9]) ∧
    (sscanf_mac "".toList [9, 9, 9, 9, 9, 9, 9, 9]).1 = -1 := by
  decide

/-! ### The protocol monitors on any bus -/

theorem run_mon_append {S : Type} (step : S → Access → Option S) (s : S) (t u : List Access) :
    run_mon step s (t ++ u) = (run_mon step s t).bind fun s1 => run_mon step s1 u := by
  induction t generalizing s with
  | nil => rfl
  | cons a t ih =>
    simp only [List.cons_append, run_mon]
    cases step s a with
    | none => rfl
    | some s1 => simpa using ih s1

theorem accepted_idle_accepted (t : List Access) (h : accepted_idle t) : accepted t := by
  refine ⟨h.1, fun s => ?_⟩
  obtain ⟨s1, e, -⟩ := h.2 s
  simp [e]

theorem accepted_append (t u : List Access) (ht : accepted t) (hu : accepted u) :
    accepted (t ++ u) := by
  constructor
  · intro s
    rw [run_mon_append]
    obtain ⟨s1, e⟩ := Option.isSome_iff_exists.1 (ht.1 s)
    rw [e]
    exact hu.1 s1
  · intro s
    rw [run_mon_append]
    obtain ⟨s1, e⟩ := Option.isSome_iff_exists.1 (ht.2 s)
    rw [e]
    exact hu.2 s1

theorem accepted_idle_append (t u : List Access) (ht : accepted t) (hu : accepted_idle u) :
    accepted_idle (t ++ u) := by
  constructor
  · intro s
    rw [run_mon_append]
    obtain ⟨s1, e⟩ := Option.isSome_iff_exists.1 (ht.1 s)
    rw [e]
    exact hu.1 s1
  · intro s
    rw [run_mon_append]
    obtain ⟨s1, e⟩ := Option.isSome_iff_exists.1 (ht.2 s)
    rw [e]
    exact hu.2 s1

theorem accepted_nil : accepted [] := ⟨fun _ => rfl, fun _ => rfl⟩

@[simp] theorem nonpoll_append (t u : List Access) : nonpoll (t ++ u) = nonpoll t ++ nonpoll u := by
  simp [nonpoll]

@[simp] theorem nonpoll_nil : nonpoll [] = [] := rfl

@[simp] theorem nonpoll_wr (r v : Nat) (t : List Access) :
    nonpoll (Access.wr r v :: t) = Access.wr r v :: nonpoll t := by
  simp [nonpoll]

@[simp] theorem nonpoll_rd (r v : Nat) (t : List Access) :
    nonpoll (Access.rd r v :: t) = (if r = E2P_CMD then [] else [Access.rd r v]) ++ nonpoll t := by
  by_cases h : r = E2P_CMD <;> simp [nonpoll, h]

/-- The monitors over a busy-wait: only polls, the last one with BUSY clear. -/
theorem busy_wait_mon {σ : Type} (bus : Bus σ) (fuel : Nat) (p q : Proc σ)
    (h : busy_wait bus fuel p = some q) :
    ∃ t, q.trace = p.trace ++ t ∧ q.out = p.out ∧ nonpoll t = [] ∧
      (∀ s, (run_mon latch_step s t).isSome = true) ∧
      (∀ s, run_mon idle_step s t = some { s with idle := true }) := by
  induction fuel generalizing p with
  | zero => simp [busy_wait] at h
  | succ n ih =>
    rw [busy_wait] at h
    split at h
    · obtain ⟨t, h1, h2, h3, h4, h5⟩ := ih _ h
      refine ⟨Access.rd E2P_CMD (reg_r bus p E2P_CMD).1 :: t, ?_, ?_, ?_, ?_, ?_⟩
      · simp [h1]
      · simp [h2]
      · simp [h3]
      · intro s
        simp only [run_mon, latch_step, Option.some_bind]
        exact h4 _
      · intro s
        simp only [run_mon, idle_step, if_true, Option.some_bind]
        rw [h5]
    · rename_i hb
      simp only [Option.some.injEq] at h
      subst h
      refine ⟨[Access.rd E2P_CMD (reg_r bus p E2P_CMD).1], by simp, by simp, by simp,
        fun s => rfl, fun s => ?_⟩
      have : busy_flag (reg_r bus p E2P_CMD).1 = false := by
        simpa [busy_flag] using hb
      simp [run_mon, idle_step, this]

theorem busy_wait_accepted {σ : Type} (bus : Bus σ) (fuel : Nat) (p q : Proc σ)
    (h : busy_wait bus fuel p = some q) :
    ∃ t, q.trace = p.trace ++ t ∧ q.out = p.out ∧ nonpoll t = [] ∧ accepted_idle t := by
  obtain ⟨t, h1, h2, h3, h4, h5⟩ := busy_wait_mon bus fuel p q h
  exact ⟨t, h1, h2, h3, h4, fun s => ⟨_, h5 s, rfl⟩⟩

theorem read_word_flags (i : Nat) (hi : i < 32) :
    busy_flag i = false ∧ busy_flag (2147483648 + i) = true ∧
    2147483648 + i - E2P_CMD_EPC_BUSY_ = i ∧ (2147483648 + i) / 0x10000000 % 8 = 0 := by
  revert i; decide

theorem write_word_flags (i : Nat) (hi : i < 7) :
    busy_flag (805306368 + i) = false ∧ busy_flag (2952790016 + i) = true ∧
    2952790016 + i - E2P_CMD_EPC_BUSY_ = 805306368 + i := by
  revert i; decide

theorem ewen_word_flags :
    busy_flag 0x20000000 = false ∧ busy_flag 0xA0000000 = true ∧
    0xA0000000 - E2P_CMD_EPC_BUSY_ = 0x20000000 ∧ busy_flag 0x10000000 = false := by
  decide

/-- The accesses of one iteration of the dump. -/
theorem dump_cell_mon {σ : Type} (bus : Bus σ) (fuel : Nat) (p q : Proc σ) (i : Nat)
    (hi : i < 32) (h : dump_cell bus fuel p i = some q) :
    ∃ t d, q.trace = p.trace ++ t ∧ accepted_idle t ∧
      nonpoll t = [Access.wr E2P_CMD i, Access.wr E2P_CMD (0x80000000 + i), Access.rd E2P_DATA d] ∧
      q.out = p.out ++ fmt_hex 2 d ++ [if i &&& 7 = 7 then '\n' else ' '] := by
  unfold dump_cell at h
  obtain ⟨r1, r2⟩ := read_word i hi
  obtain ⟨f1, f2, f3, f4⟩ := read_word_flags i hi
  rw [r1, r2] at h
  simp only [Option.bind_eq_some, Option.some.injEq] at h
  obtain ⟨p1, h1, p4, h2, h⟩ := h
  obtain ⟨t1, e1, o1, n1, l1, m1⟩ := busy_wait_mon bus fuel p p1 h1
  obtain ⟨t2, e2, o2, n2, l2, m2⟩ := busy_wait_mon bus fuel _ p4 h2
  subst h
  refine ⟨t1 ++ ([Access.wr E2P_CMD i, Access.wr E2P_CMD (2147483648 + i)] ++
      (t2 ++ [Access.rd E2P_DATA (reg_r bus p4 E2P_DATA).1])),
    (reg_r bus p4 E2P_DATA).1, ?_, ⟨?_, ?_⟩, ?_, ?_⟩
  · simp [e2, e1]
  · intro s
    rw [run_mon_append]
    obtain ⟨s1, e⟩ := Option.isSome_iff_exists.1 (l1 s)
    rw [e, Option.some_bind, run_mon_append]
    simp only [run_mon, latch_step, f1, f2, f3, true_and, if_true, and_false, if_false,
      Option.some_bind, and_self, Bool.false_eq_true]
    rw [run_mon_append]
    obtain ⟨s2, e⟩ := Option.isSome_iff_exists.1 (l2 (some (Access.wr E2P_CMD (2147483648 + i))))
    rw [e]
    rfl
  · intro s
    rw [run_mon_append, m1, Option.some_bind, run_mon_append]
    simp only [run_mon, idle_step, f1, f2, if_true, if_false, Option.some_bind,
      Bool.false_eq_true]
    rw [run_mon_append, m2]
    simp [run_mon, idle_step, cmd_ne_data.symm, f4]
  · simp [n1, n2, cmd_ne_data.symm]
  · simp [o2, o1]

/-- The accesses of the loop of the dump over the cells `i` to `i + n - 1`. -/
theorem dump_loop_mon {σ : Type} (bus : Bus σ) (fuel : Nat) :
    ∀ (n i : Nat) (p q : Proc σ), i + n ≤ 32 →
      for_range (dump_cell bus fuel) n i p = some q →
      ∃ t d, q.trace = p.trace ++ t ∧ accepted t ∧ (0 < n → accepted_idle t) ∧
        nonpoll t = cat_range (cell_accesses d) n i ∧
        q.out = p.out ++ cat_range (cell_text d) n i := by
  intro n
  induction n with
  | zero =>
    intro i p q _ h
    simp only [for_range, Option.some.injEq] at h
    subst h
    exact ⟨[], fun _ => 0, by simp, accepted_nil, fun h => absurd h (by omega),
      by simp [cat_range], by simp [cat_range]⟩
  | succ n ih =>
    intro i p q hle h
    rw [for_range] at h
    cases hb : dump_cell bus fuel p i with
    | none => simp [hb] at h
    | some p1 =>
      rw [hb] at h
      simp only [Option.some_bind] at h
      obtain ⟨t1, d1, e1, a1, n1, o1⟩ := dump_cell_mon bus fuel p p1 i (by omega) hb
      obtain ⟨t2, d2, e2, a2, i2, n2, o2⟩ := ih (i + 1) p1 q (by omega) h
      have hc : cat_range (cell_accesses fun j => if j = i then d1 else d2 j) n (i + 1) =
          cat_range (cell_accesses d2) n (i + 1) :=
        cat_range_congr _ _ n (i + 1) (fun j hj _ => by
          have : j ≠ i := by omega
          simp [cell_accesses, this])
      have ht : cat_range (cell_text fun j => if j = i then d1 else d2 j) n (i + 1) =
          cat_range (cell_text d2) n (i + 1) :=
        cat_range_congr _ _ n (i + 1) (fun j hj _ => by
          have : j ≠ i := by omega
          simp [cell_text, this])
      refine ⟨t1 ++ t2, fun j => if j = i then d1 else d2 j, ?_, ?_, ?_, ?_, ?_⟩
      · simp [e2, e1]
      · exact accepted_append _ _ (accepted_idle_accepted _ a1) a2
      · intro _
        cases n with
        | zero =>
          have : t2 = [] := by
            simp only [for_range, Option.some.injEq] at h
            subst h
            simpa using e2
          rw [this, List.append_nil]
          exact a1
        | succ m => exact accepted_idle_append _ _ (accepted_idle_accepted _ a1) (i2 (by omega))
      · rw [cat_range, hc, nonpoll_append, n1, n2]
        simp [cell_accesses]
      · rw [cat_range, ht, o2, o1]
        simp [cell_text]

/-- The accesses and the output of `dump_eep` on any bus. -/
theorem dump_eep_mon {σ : Type} (bus : Bus σ) (fuel : Nat) (p q : Proc σ)
    (h : dump_eep bus fuel p = some q) :
    ∃ t d, q.trace = p.trace ++ t ∧ accepted_idle t ∧
      nonpoll t = cat_range (cell_accesses d) 32 0 ∧
      q.out = p.out ++ "Current eeprom:\n".toList ++ cat_range (cell_text d) 32 0 := by
  unfold dump_eep at h
  obtain ⟨t, d, e, -, a, n, o⟩ := dump_loop_mon bus fuel 32 0 _ q (by omega) h
  exact ⟨t, d, by simpa using e, a (by omega), n, by simpa using o⟩

theorem unlock_mon {σ : Type} (bus : Bus σ) (fuel : Nat) (p q : Proc σ)
    (h : unlock bus fuel p = some q) :
    ∃ t, q.trace = p.trace ++ t ∧ accepted_idle t := by
  unfold unlock at h
  rw [ewen_word.1, ewen_word.2] at h
  simp only [Option.bind_eq_some] at h
  obtain ⟨p1, h1, p2, h2, h3⟩ := h
  obtain ⟨t1, d, e1, a1, -, -⟩ := dump_eep_mon bus fuel p p1 h1
  obtain ⟨t2, e2, -, -, l2, m2⟩ := busy_wait_mon bus fuel _ _ h2
  obtain ⟨t3, e3, -, -, l3, m3⟩ := busy_wait_mon bus fuel _ _ h3
  obtain ⟨f1, f2, f3, -⟩ := ewen_word_flags
  refine ⟨t1 ++ (t2 ++ ([Access.wr E2P_CMD 0x20000000, Access.wr E2P_CMD 0xA0000000] ++ t3)),
    by simp [e3, e2, e1], ?_⟩
  refine accepted_idle_append _ _ (accepted_idle_accepted _ a1) ⟨fun s => ?_, fun s => ?_⟩
  · rw [run_mon_append]
    obtain ⟨s1, e⟩ := Option.isSome_iff_exists.1 (l2 s)
    rw [e, Option.some_bind, run_mon_append]
    simp only [run_mon, latch_step, f1, f2, f3, true_and, if_true, and_false, if_false,
      Option.some_bind, and_self, Bool.false_eq_true]
    exact l3 _
  · rw [run_mon_append, m2, Option.some_bind, run_mon_append]
    simp only [run_mon, idle_step, f1, f2, if_true, if_false, Option.some_bind,
      Bool.false_eq_true]
    exact ⟨_, m3 _, rfl⟩

theorem write_cell_mon {σ : Type} (bus : Bus σ) (fuel : Nat) (a : List Nat) (p q : Proc σ)
    (i : Nat) (hi : i < 7) (h : write_cell bus fuel a p i = some q) :
    ∃ t, q.trace = p.trace ++ t ∧ q.out = p.out ∧ accepted_idle t := by
  unfold write_cell at h
  obtain ⟨r1, r2⟩ := write_word i hi
  obtain ⟨f1, f2, f3⟩ := write_word_flags i hi
  rw [r1, r2] at h
  simp only [Option.bind_eq_some] at h
  obtain ⟨p1, h1, h2⟩ := h
  obtain ⟨t1, e1, o1, -, l1, m1⟩ := busy_wait_mon bus fuel _ _ h1
  obtain ⟨t2, e2, o2, -, l2, m2⟩ := busy_wait_mon bus fuel _ _ h2
  refine ⟨t1 ++ ([Access.wr E2P_DATA (if i = 0 then 0xa5 else a.getD (i - 1) 0),
      Access.wr E2P_CMD (805306368 + i), Access.wr E2P_CMD (2952790016 + i)] ++ t2),
    by simp [e2, e1], by simp [o2, o1], fun s => ?_, fun s => ?_⟩
  · rw [run_mon_append]
    obtain ⟨s1, e⟩ := Option.isSome_iff_exists.1 (l1 s)
    rw [e, Option.some_bind, run_mon_append]
    simp only [run_mon, latch_step, f1, f2, f3, true_and, if_true, and_false, if_false,
      Option.some_bind, and_self, Bool.false_eq_true, cmd_ne_data.symm, false_and]
    exact l2 _
  · rw [run_mon_append, m1, Option.some_bind, run_mon_append]
    simp only [run_mon, idle_step, f1, f2, if_true, if_false, Option.some_bind,
      Bool.false_eq_true, cmd_ne_data.symm]
    exact ⟨_, m2 _, rfl⟩

theorem write_loop_mon {σ : Type} (bus : Bus σ) (fuel : Nat) (a : List Nat) :
    ∀ (n i : Nat) (p q : Proc σ), i + n ≤ 7 →
      for_range (write_cell bus fuel a) n i p = some q →
      ∃ t, q.trace = p.trace ++ t ∧ accepted t ∧ (0 < n → accepted_idle t) := by
  intro n
  induction n with
  | zero =>
    intro i p q _ h
    simp only [for_range, Option.some.injEq] at h
    subst h
    exact ⟨[], by simp, accepted_nil, fun h => absurd h (by omega)⟩
  | succ n ih =>
    intro i p q hle h
    rw [for_range] at h
    cases hb : write_cell bus fuel a p i with
    | none => simp [hb] at h
    | some p1 =>
      rw [hb] at h
      simp only [Option.some_bind] at h
      obtain ⟨t1, e1, -, a1⟩ := write_cell_mon bus fuel a p p1 i (by omega) hb
      obtain ⟨t2, e2, a2, i2⟩ := ih (i + 1) p1 q (by omega) h
      refine ⟨t1 ++ t2, by simp [e2, e1],
        accepted_append _ _ (accepted_idle_accepted _ a1) a2, fun _ => ?_⟩
      cases n with
      | zero =>
        have : t2 = [] := by
          simp only [for_range, Option.some.injEq] at h
          subst h
          simpa using e2
        rw [this, List.append_nil]
        exact a1
      | succ m => exact accepted_idle_append _ _ (accepted_idle_accepted _ a1) (i2 (by omega))

theorem write_and_dump_mon {σ : Type} (bus : Bus σ) (fuel : Nat) (a : List Nat)
    (p : Proc σ) (o : Outcome σ) (h : write_and_dump bus fuel a p = some o) :
    ∃ t, o.proc.trace = p.trace ++ t ∧ accepted_idle t := by
  unfold write_and_dump at h
  rw [ewds_word] at h
  simp only [Option.bind_eq_some, Option.some.injEq] at h
  obtain ⟨p1, h1, p3, h3, h⟩ := h
  subst h
  obtain ⟨t1, e1, -, a1⟩ := write_loop_mon bus fuel a 7 0 _ p1 (by omega) h1
  obtain ⟨t3, d, e3, a3, -, -⟩ := dump_eep_mon bus fuel _ p3 h3
  obtain ⟨-, -, -, f4⟩ := ewen_word_flags
  have a1 := a1 (by omega)
  refine ⟨t1 ++ ([Access.wr E2P_CMD 0x10000000] ++ t3), by simp [e3, e1], fun s => ?_, fun s => ?_⟩
  · rw [run_mon_append]
    obtain ⟨s1, e⟩ := Option.isSome_iff_exists.1 (a1.1 s)
    rw [e, Option.some_bind, run_mon_append]
    simp only [run_mon, latch_step, f4, and_false, if_false, Option.some_bind,
      Bool.false_eq_true]
    exact a3.1 _
  · rw [run_mon_append]
    obtain ⟨s1, e, hs⟩ := a1.2 s
    rw [e, Option.some_bind, run_mon_append]
    simp only [run_mon, idle_step, f4, if_true, if_false, Option.some_bind,
      Bool.false_eq_true, hs]
    exact a3.2 _

theorem programAddress_mon {σ : Type} (bus : Bus σ) (fuel : Nat) (a : List Nat)
    (p : Proc σ) (o : Outcome σ) (h : programAddress bus fuel a p = some o) :
    ∃ t, o.proc.trace = p.trace ++ t ∧ accepted t := by
  unfold programAddress at h
  simp only [Option.bind_eq_some] at h
  obtain ⟨p1, h1, h2⟩ := h
  obtain ⟨t1, e1, a1⟩ := unlock_mon bus fuel p p1 h1
  have ar : accepted [Access.rd E2P_CMD (reg_r bus p1 E2P_CMD).1] :=
    ⟨fun _ => rfl, fun _ => by simp [run_mon, idle_step]⟩
  split at h2
  · simp only [Option.some.injEq] at h2
    subst h2
    exact ⟨t1 ++ [Access.rd E2P_CMD (reg_r bus p1 E2P_CMD).1], by simp [e1],
      accepted_append _ _ (accepted_idle_accepted _ a1) ar⟩
  · obtain ⟨t2, e2, a2⟩ := write_and_dump_mon bus fuel a _ o h2
    exact ⟨t1 ++ ([Access.rd E2P_CMD (reg_r bus p1 E2P_CMD).1] ++ t2), by simp [e2, e1],
      accepted_append _ _ (accepted_idle_accepted _ a1)
        (accepted_append _ _ ar (accepted_idle_accepted _ a2))⟩

/-! ### The whole run on any bus -/

theorem prelude_accepted (v1 v2 v3 g0 g1 : Nat) :
    accepted [Access.wr 0xA4 0xc0000002, Access.rd 0xA8 v1, Access.wr 0xA4 0xc0000003,
       Access.rd 0xA8 v2, Access.rd E2P_CMD v3,
       Access.rd GPIO_CFG g0, Access.wr GPIO_CFG 0, Access.rd GPIO_CFG g1] ∧
    accepted [Access.wr 0xA4 0xc0000002, Access.rd 0xA8 v1, Access.wr 0xA4 0xc0000003,
       Access.rd 0xA8 v2, Access.rd E2P_CMD v3] := by
  have c1 : (0xA4 : Nat) ≠ E2P_CMD := by decide
  have c2 : (0xA8 : Nat) ≠ E2P_CMD := by decide
  have c3 : (0xA8 : Nat) ≠ E2P_DATA := by decide
  have c4 : GPIO_CFG ≠ E2P_CMD := by decide
  have c5 : GPIO_CFG ≠ E2P_DATA := by decide
  refine ⟨⟨fun s => ?_, fun s => ?_⟩, ⟨fun s => ?_, fun s => ?_⟩⟩ <;>
    simp [run_mon, latch_step, idle_step, c1, c2, c3, c4, c5]

/-- The register accesses of the lines 140-149 of `main`: the two `mac_r` and
the status read. -/
theorem show_current_trace {σ : Type} (bus : Bus σ) (p : Proc σ) :
    ∃ v1 v2 v3, (show_current bus p).2.trace = p.trace ++
      [Access.wr 0xA4 0xc0000002, Access.rd 0xA8 v1, Access.wr 0xA4 0xc0000003,
       Access.rd 0xA8 v2, Access.rd E2P_CMD v3] :=
  ⟨(mac_r bus p 2).1, (mac_r bus (mac_r bus p 2).2 3).1,
    (((show_current bus p).2.trace.drop (p.trace.length + 4)).headD (Access.rd 0 0)).casesOn
      (fun _ v => v) (fun _ v => v),
    by simp [show_current, mac_r, E2P_CMD]⟩

/-- The register accesses of the lines 170-180 of `main`: the read, the clear
and the read of `GPIO_CFG`. -/
theorem clear_gpio_cfg_trace {σ : Type} (bus : Bus σ) (mac : List Nat) (p : Proc σ) :
    ∃ g0 g1, (clear_gpio_cfg bus mac p).trace = p.trace ++
      [Access.rd GPIO_CFG g0, Access.wr GPIO_CFG 0, Access.rd GPIO_CFG g1] :=
  ⟨(((clear_gpio_cfg bus mac p).trace.drop p.trace.length).headD (Access.rd 0 0)).casesOn
      (fun _ v => v) (fun _ v => v),
   (((clear_gpio_cfg bus mac p).trace.drop (p.trace.length + 2)).headD (Access.rd 0 0)).casesOn
      (fun _ v => v) (fun _ v => v),
    by simp [clear_gpio_cfg]⟩

/-- The register accesses of the lines 140-180 of `main`, before the first
dump. -/
theorem prelude_trace {σ : Type} (bus : Bus σ) (mac : List Nat) (p : Proc σ) :
    ∃ v1 v2 v3 g0 g1, (clear_gpio_cfg bus mac (show_current bus p).2).trace = p.trace ++
      [Access.wr 0xA4 0xc0000002, Access.rd 0xA8 v1, Access.wr 0xA4 0xc0000003,
       Access.rd 0xA8 v2, Access.rd E2P_CMD v3,
       Access.rd GPIO_CFG g0, Access.wr GPIO_CFG 0, Access.rd GPIO_CFG g1] ∧
      (show_current bus p).2.trace = p.trace ++
      [Access.wr 0xA4 0xc0000002, Access.rd 0xA8 v1, Access.wr 0xA4 0xc0000003,
       Access.rd 0xA8 v2, Access.rd E2P_CMD v3] := by
  obtain ⟨v1, v2, v3, e1⟩ := show_current_trace bus p
  obtain ⟨g0, g1, e2⟩ := clear_gpio_cfg_trace bus mac (show_current bus p).2
  exact ⟨v1, v2, v3, g0, g1, by rw [e2, e1]; simp, e1⟩

theorem parse_arg_line (env : Env) (arg : String) (buf : List Nat) (line : Nat)
    (h : parse_arg env arg buf = Except.error line) :
    line = 159 ∨ line = 160 ∨ line = 168 := by
  unfold parse_arg at h
  split at h
  · split at h
    · simp only [Except.error.injEq] at h; omega
    · split at h
      · simp only [Except.error.injEq] at h; omega
      · dsimp only at h
        split at h
        · simp only [Except.error.injEq] at h; omega
        · simp at h
  · dsimp only at h
    split at h
    · simp only [Except.error.injEq] at h; omega
    · simp at h

/-- The ways a run of `main` ends: before the programming sequence, with exit
status 1 and no register written but 0xA4, or through `programAddress`. -/
theorem main_cases {σ : Type} (bus : Bus σ) (fuel : Nat) (env : Env) (argv : List String)
    (dev : σ) (o : Outcome σ) (h : main bus fuel env argv dev = some o) :
    (o.exit ≠ Exit.ok ∧ o.exit ≠ Exit.fatal 198 ∧ o.exit.status = 1 ∧ accepted o.proc.trace ∧
      (writes o.proc.trace = [] ∨
       writes o.proc.trace = [(0xA4, 0xc0000002), (0xA4, 0xc0000003)])) ∨
    (∃ p2 mac, map_window env dev = Except.ok p2 ∧ p2.trace = [] ∧ argv.length = 2 ∧
      parse_arg env (argv.getD 1 "") (show_current bus p2).1 = Except.ok mac ∧
      programAddress bus fuel mac (clear_gpio_cfg bus mac (show_current bus p2).2) = some o) := by
  obtain ⟨he, hp⟩ := map_window_trace env dev
  unfold main at h
  cases hm : map_window env dev with
  | error e =>
    rw [hm] at h
    simp only [Option.some.injEq] at h
    subst h
    left
    refine ⟨?_, ?_, rfl, ?_, Or.inl ?_⟩
    · simp
    · rcases (he e hm).2.2 with h | h <;> simp [h]
    · simp only [(he e hm).1]; exact accepted_nil
    · simp [(he e hm).1]
  | ok p2 =>
    rw [hm] at h
    simp only at h
    obtain ⟨v1, v2, v3, g0, g1, -, e2⟩ := prelude_trace bus [] p2
    have acc : accepted (show_current bus p2).2.trace := by
      rw [e2, (hp p2 hm).1]
      exact (prelude_accepted v1 v2 v3 g0 g1).2
    have wr : writes (show_current bus p2).2.trace =
        [(0xA4, 0xc0000002), (0xA4, 0xc0000003)] := by
      rw [show_current_writes, (hp p2 hm).1]; rfl
    split at h
    · simp only [Option.some.injEq] at h
      subst h
      left
      exact ⟨by simp, by simp, rfl, acc, Or.inr wr⟩
    · rename_i hlen
      cases hpa : parse_arg env (argv.getD 1 "") (show_current bus p2).1 with
      | error line =>
        rw [hpa] at h
        simp only [Option.some.injEq] at h
        subst h
        left
        refine ⟨by simp, ?_, rfl, acc, Or.inr wr⟩
        rcases parse_arg_line _ _ _ _ hpa with h | h | h <;> simp [h]
      | ok mac =>
        rw [hpa] at h
        right
        exact ⟨p2, mac, rfl, (hp p2 hm).1, by omega, hpa, h⟩

/-- Both monitors accept the whole trace of any run of `main` that ends. -/
theorem main_accepted {σ : Type} (bus : Bus σ) (fuel : Nat) (env : Env) (argv : List String)
    (dev : σ) (o : Outcome σ) (h : main bus fuel env argv dev = some o) :
    accepted o.proc.trace := by
  rcases main_cases bus fuel env argv dev o h with ⟨-, -, -, a, -⟩ | ⟨p2, mac, -, hp, -, -, hpa⟩
  · exact a
  · obtain ⟨t, e, a⟩ := programAddress_mon bus fuel mac _ o hpa
    obtain ⟨v1, v2, v3, g0, g1, e1, -⟩ := prelude_trace bus mac p2
    rw [e, e1, hp, List.nil_append]
    exact accepted_append _ _ (prelude_accepted v1 v2 v3 g0 g1).1 a

/-- The register writes of a run of `main` that gets past argument parsing. -/
theorem main_writes {σ : Type} (bus : Bus σ) (fuel : Nat) (mac : List Nat) (p2 : Proc σ)
    (o : Outcome σ) (hp : p2.trace = [])
    (h : programAddress bus fuel mac (clear_gpio_cfg bus mac (show_current bus p2).2) = some o) :
    (o.exit = Exit.ok ∧
      writes o.proc.trace = [(0xA4, 0xc0000002), (0xA4, 0xc0000003), (GPIO_CFG, 0)] ++
        dump_writes ++ ewen_writes ++ loop_writes mac ++ [(0xB0, 0x10000000)] ++ dump_writes) ∨
    (o.exit = Exit.fatal 198 ∧
      writes o.proc.trace = [(0xA4, 0xc0000002), (0xA4, 0xc0000003), (GPIO_CFG, 0)] ++
        dump_writes ++ ewen_writes) := by
  obtain ⟨v1, v2, v3, g0, g1, e1, -⟩ := prelude_trace bus mac p2
  have hw : writes (clear_gpio_cfg bus mac (show_current bus p2).2).trace =
      [(0xA4, 0xc0000002), (0xA4, 0xc0000003), (GPIO_CFG, 0)] := by
    rw [e1, hp]; simp
  rcases programAddress_writes bus fuel mac _ o h with ⟨e, w⟩ | ⟨e, w⟩
  · left; rw [w, hw]; exact ⟨e, rfl⟩
  · right; rw [w, hw]; exact ⟨e, rfl⟩

/-! ### What the monitors establish -/

theorem busy_flag_ge (v : Nat) (h : busy_flag v = true) :
    E2P_CMD_EPC_BUSY_ ≤ v ∧ (v - E2P_CMD_EPC_BUSY_) % 0x80000000 = v % 0x80000000 := by
  have h1 : v &&& E2P_CMD_EPC_BUSY_ ≠ 0 := by simpa [busy_flag] using h
  have h2 : v &&& E2P_CMD_EPC_BUSY_ ≤ E2P_CMD_EPC_BUSY_ := Nat.and_le_right
  have h3 : v &&& E2P_CMD_EPC_BUSY_ ≤ v := Nat.and_le_left
  have e : E2P_CMD_EPC_BUSY_ = 2 ^ 31 := by decide
  have h4 := Nat.and_two_pow v 31
  rw [← e] at h4
  have h5 : v &&& E2P_CMD_EPC_BUSY_ = E2P_CMD_EPC_BUSY_ := by
    rw [h4] at h1 ⊢
    cases hb : v.testBit 31 <;> simp [hb] at h1 ⊢
  have h6 : E2P_CMD_EPC_BUSY_ ≤ v := by omega
  refine ⟨h6, ?_⟩
  have e2 : E2P_CMD_EPC_BUSY_ = 2147483648 := by decide
  rw [e2] at h6 ⊢
  omega

/-- The state of the latch monitor after a trace it accepts is the last access. -/
theorem latch_state (s0 s1 : Option Access) (t : List Access)
    (h : run_mon latch_step s0 t = some s1) :
    (t = [] ∧ s1 = s0) ∨ ∃ t0 a, t = t0 ++ [a] ∧ s1 = some a := by
  rcases List.eq_nil_or_concat t with rfl | ⟨t0, a, e⟩
  · left
    simpa [run_mon] using h.symm
  · right
    rw [List.concat_eq_append] at e
    subst e
    refine ⟨t0, a, rfl, ?_⟩
    rw [run_mon_append] at h
    cases h0 : run_mon latch_step s0 t0 with
    | none => simp [h0] at h
    | some s =>
      rw [h0] at h
      simp only [Option.some_bind, run_mon] at h
      cases a with
      | rd r v =>
        simp only [latch_step, Option.some_bind, Option.some.injEq] at h
        exact h.symm
      | wr r v =>
        simp only [latch_step] at h
        split at h
        · split at h
          · simp only [Option.some_bind, Option.some.injEq] at h
            exact h.symm
          · simp at h
        · simp only [Option.some_bind, Option.some.injEq] at h
          exact h.symm

/-- What acceptance by the latch monitor means: every write of the command
register with BUSY set comes directly after a write of the command register
with the same word less the BUSY bit. -/
theorem latch_sound (t : List Access)
    (h : (run_mon latch_step none t).isSome = true) (pre post : List Access) (v : Nat)
    (ht : t = pre ++ Access.wr E2P_CMD v :: post) (hv : busy_flag v = true) :
    ∃ pre0, pre = pre0 ++ [Access.wr E2P_CMD (v - E2P_CMD_EPC_BUSY_)] ∧
      busy_flag (v - E2P_CMD_EPC_BUSY_) = false := by
  subst ht
  rw [run_mon_append] at h
  cases h0 : run_mon latch_step none pre with
  | none => simp [h0] at h
  | some s =>
    rw [h0] at h
    simp only [Option.some_bind, run_mon, latch_step, hv, and_self, if_true] at h
    split at h
    · rename_i hc
      obtain ⟨hs, hf⟩ := hc
      rcases latch_state none s pre h0 with ⟨-, e⟩ | ⟨t0, a, e1, e2⟩
      · rw [e] at hs; simp at hs
      · rw [e2] at hs
        simp only [Option.some.injEq] at hs
        exact ⟨t0, by rw [e1, hs], hf⟩
    · simp at h

/-- What the state of the command-register monitor records about the trace it
has accepted. -/
theorem idle_state (t : List Access) : ∀ (s : CmdState),
    run_mon idle_step { submitted := none, idle := false } t = some s →
    (s.idle = true → ∃ pre u mid, t = pre ++ Access.rd E2P_CMD u :: mid ∧ busy_flag u = false ∧
      ∀ a ∈ mid, ∀ v, a ≠ Access.rd E2P_CMD v ∧ a ≠ Access.wr E2P_CMD v) ∧
    (∀ w, s.submitted = some w → ∃ pre mid, t = pre ++ Access.wr E2P_CMD w :: mid ∧
      busy_flag w = true ∧ ∀ a ∈ mid, ∀ v, a ≠ Access.wr E2P_CMD v) := by
  induction t using List.reverseRecOn with
  | nil =>
    intro s h
    simp only [run_mon, Option.some.injEq] at h
    subst h
    simp
  | append_singleton t a ih =>
    intro s h
    rw [run_mon_append] at h
    cases h0 : run_mon idle_step { submitted := none, idle := false } t with
    | none => simp [h0] at h
    | some s1 =>
      rw [h0] at h
      simp only [Option.some_bind, run_mon] at h
      obtain ⟨i1, i2⟩ := ih s1 h0
      have keep : ∀ (hne : ∀ v, a ≠ Access.rd E2P_CMD v ∧ a ≠ Access.wr E2P_CMD v),
          s = s1 →
          (s.idle = true → ∃ pre u mid, t ++ [a] = pre ++ Access.rd E2P_CMD u :: mid ∧
            busy_flag u = false ∧
            ∀ a ∈ mid, ∀ v, a ≠ Access.rd E2P_CMD v ∧ a ≠ Access.wr E2P_CMD v) ∧
          (∀ w, s.submitted = some w → ∃ pre mid, t ++ [a] = pre ++ Access.wr E2P_CMD w :: mid ∧
            busy_flag w = true ∧ ∀ a ∈ mid, ∀ v, a ≠ Access.wr E2P_CMD v) := by
        intro hne e
        subst e
        constructor
        · intro hi
          obtain ⟨pre, u, mid, e, hu, hm⟩ := i1 hi
          refine ⟨pre, u, mid ++ [a], by simp [e], hu, ?_⟩
          intro b hb v
          rcases List.mem_append.1 hb with hb | hb
          · exact hm b hb v
          · simp only [List.mem_singleton] at hb; subst hb; exact hne v
        · intro w hw
          obtain ⟨pre, mid, e, hu, hm⟩ := i2 w hw
          refine ⟨pre, mid ++ [a], by simp [e], hu, ?_⟩
          intro b hb v
          rcases List.mem_append.1 hb with hb | hb
          · exact hm b hb v
          · simp only [List.mem_singleton] at hb; subst hb; exact (hne v).2
      cases a with
      | rd r v =>
        simp only [idle_step] at h
        by_cases hr : r = E2P_CMD
        · subst hr
          simp only [if_true, Option.some_bind, Option.some.injEq] at h
          subst h
          constructor
          · intro hi
            exact ⟨t, v, [], rfl, by simpa using hi, by simp⟩
          · intro w hw
            obtain ⟨pre, mid, e, hu, hm⟩ := i2 w hw
            refine ⟨pre, mid ++ [Access.rd E2P_CMD v], by simp [e], hu, ?_⟩
            intro b hb u
            rcases List.mem_append.1 hb with hb | hb
            · exact hm b hb u
            · simp only [List.mem_singleton] at hb; subst hb; simp
        · have hne : ∀ u, Access.rd r v ≠ Access.rd E2P_CMD u ∧
              Access.rd r v ≠ Access.wr E2P_CMD u := by
            intro u; simp [hr]
          rw [if_neg hr] at h
          split at h
          · split at h
            · split at h
              · simp only [Option.some_bind, Option.some.injEq] at h
                exact keep hne h.symm
              · simp at h
            · simp at h
          · simp only [Option.some_bind, Option.some.injEq] at h
            exact keep hne h.symm
      | wr r v =>
        simp only [idle_step] at h
        by_cases hr : r = E2P_CMD
        · subst hr
          simp only [if_true] at h
          split at h
          · rename_i hb
            simp only [Option.some_bind, Option.some.injEq] at h
            subst h
            constructor
            · intro hi; simp at hi
            · intro w hw
              simp only [Option.some.injEq] at hw
              subst hw
              exact ⟨t, [], rfl, hb, by simp⟩
          · split at h
            · simp only [Option.some_bind, Option.some.injEq] at h
              subst h
              constructor
              · intro hi; simp at hi
              · intro w hw; simp at hw
            · simp at h
        · have hne : ∀ u, Access.wr r v ≠ Access.rd E2P_CMD u ∧
              Access.wr r v ≠ Access.wr E2P_CMD u := by
            intro u; simp [hr]
          rw [if_neg hr] at h
          simp only [Option.some_bind, Option.some.injEq] at h
          exact keep hne h.symm

/-- What acceptance by the command-register monitor means for a first write of
a command. -/
theorem idle_sound_cmd (t : List Access)
    (h : (run_mon idle_step { submitted := none, idle := false } t).isSome = true)
    (pre post : List Access) (v : Nat)
    (ht : t = pre ++ Access.wr E2P_CMD v :: post) (hv : busy_flag v = false) :
    ∃ pre0 u mid, pre = pre0 ++ Access.rd E2P_CMD u :: mid ∧ busy_flag u = false ∧
      ∀ a ∈ mid, ∀ x, a ≠ Access.rd E2P_CMD x ∧ a ≠ Access.wr E2P_CMD x := by
  subst ht
  rw [run_mon_append] at h
  cases h0 : run_mon idle_step { submitted := none, idle := false } pre with
  | none => simp [h0] at h
  | some s =>
    rw [h0] at h
    simp only [Option.some_bind, run_mon, idle_step, hv, if_true, Bool.false_eq_true,
      if_false] at h
    split at h
    · rename_i hi
      exact (idle_state pre s h0).1 hi
    · simp at h

/-- What acceptance by the command-register monitor means for a read of the
data register. -/
theorem idle_sound_data (t : List Access)
    (h : (run_mon idle_step { submitted := none, idle := false } t).isSome = true)
    (pre post : List Access) (d : Nat)
    (ht : t = pre ++ Access.rd E2P_DATA d :: post) :
    ∃ pre0 w pre1 u mid, pre = pre0 ++ Access.wr E2P_CMD w :: (pre1 ++ Access.rd E2P_CMD u :: mid) ∧
      busy_flag w = true ∧ w / 0x10000000 % 8 = 0 ∧ busy_flag u = false ∧
      (∀ a ∈ pre1, ∀ x, a ≠ Access.wr E2P_CMD x) ∧
      (∀ a ∈ mid, ∀ x, a ≠ Access.rd E2P_CMD x ∧ a ≠ Access.wr E2P_CMD x) := by
  subst ht
  rw [run_mon_append] at h
  cases h0 : run_mon idle_step { submitted := none, idle := false } pre with
  | none => simp [h0] at h
  | some s =>
    rw [h0] at h
    simp only [Option.some_bind, run_mon, idle_step, cmd_ne_data.symm, if_true, if_false] at h
    obtain ⟨i1, i2⟩ := idle_state pre s h0
    split at h
    · rename_i w hw
      split at h
      · rename_i hc
        obtain ⟨hi, hread⟩ := hc
        obtain ⟨A, u, mid, eA, hu, hmid⟩ := i1 hi
        obtain ⟨P, M, eP, hwb, hM⟩ := i2 w hw
        have e := eA.symm.trans eP
        rcases List.append_eq_append_iff.1 e with ⟨c, e1, e2⟩ | ⟨c, e1, e2⟩
        · -- P = A ++ c, rd :: mid = c ++ wr :: M
          cases c with
          | nil => simp at e2
          | cons x c =>
            simp only [List.cons_append, List.cons.injEq] at e2
            have : Access.wr E2P_CMD w ∈ mid := by rw [e2.2]; simp
            exact absurd rfl (hmid _ this w).2
        · -- A = P ++ c, wr :: M = c ++ rd :: mid
          cases c with
          | nil => simp at e2
          | cons x c =>
            simp only [List.cons_append, List.cons.injEq] at e2
            obtain ⟨ex, eM⟩ := e2
            subst ex
            refine ⟨P, w, c, u, mid, ?_, hwb, hread, hu, ?_, hmid⟩
            · rw [eA, e1]; simp
            · intro a ha x
              exact hM a (by rw [eM]; simp [ha]) x
      · simp at h
    · simp at h

set_option maxRecDepth 100000 in
/-- The command words of each part of the programming sequence, by BUSY flag. -/
theorem cmd_words_parts (mac : List Nat) :
    (∀ b, [((0xA4 : Nat), (0xc0000002 : Nat)), (0xA4, 0xc0000003), (GPIO_CFG, 0)].filterMap
      (fun w => if w.1 = E2P_CMD ∧ busy_flag w.2 = b then some w.2 else none) = []) ∧
    dump_writes.filterMap
      (fun w => if w.1 = E2P_CMD ∧ busy_flag w.2 = true then some w.2 else none) =
      seq_range (fun i => 0x80000000 + i) 32 0 ∧
    dump_writes.filterMap
      (fun w => if w.1 = E2P_CMD ∧ busy_flag w.2 = false then some w.2 else none) =
      seq_range (fun i => i) 32 0 ∧
    ewen_writes.filterMap
      (fun w => if w.1 = E2P_CMD ∧ busy_flag w.2 = true then some w.2 else none) =
      [0xA0000000] ∧
    ewen_writes.filterMap
      (fun w => if w.1 = E2P_CMD ∧ busy_flag w.2 = false then some w.2 else none) =
      [0x20000000] ∧
    (loop_writes mac).filterMap
      (fun w => if w.1 = E2P_CMD ∧ busy_flag w.2 = true then some w.2 else none) =
      seq_range (fun i => 0xB0000000 + i) 7 0 ∧
    (loop_writes mac).filterMap
      (fun w => if w.1 = E2P_CMD ∧ busy_flag w.2 = false then some w.2 else none) =
      seq_range (fun i => 0x30000000 + i) 7 0 ∧
    [((0xB0 : Nat), (0x10000000 : Nat))].filterMap
      (fun w => if w.1 = E2P_CMD ∧ busy_flag w.2 = true then some w.2 else none) = [] ∧
    [((0xB0 : Nat), (0x10000000 : Nat))].filterMap
      (fun w => if w.1 = E2P_CMD ∧ busy_flag w.2 = false then some w.2 else none) =
      [0x10000000] := by
  refine ⟨fun b => ?_, by decide, by decide, by decide, by decide, rfl, rfl, by decide, by decide⟩
  cases b <;> decide

theorem reads_of_nonpoll (r : Nat) (hr : r ≠ E2P_CMD) (t : List Access) :
    reads_of r (nonpoll t) = reads_of r t := by
  induction t with
  | nil => rfl
  | cons a t ih =>
    cases a with
    | wr x v => simp [ih]
    | rd x v =>
      by_cases hx : x = E2P_CMD
      · subst hx
        simp [ih, Ne.symm hr]
      · simp [ih, hx]

theorem reads_of_cell_accesses (d : Nat → Nat) (n i : Nat) :
    reads_of E2P_DATA (cat_range (cell_accesses d) n i) = seq_range d n i := by
  induction n generalizing i with
  | zero => rfl
  | succ n ih =>
    simp only [cat_range, seq_range, reads_of_append] at ih ⊢
    rw [ih]
    simp [cell_accesses]

set_option maxRecDepth 100000 in
/-- The conversion `%02lx` prints at least two digits, and two for a byte. -/
theorem fmt_hex_two (d : Nat) :
    2 ≤ (fmt_hex 2 d).length ∧ (d < 256 → (fmt_hex 2 d).length = 2) := by
  constructor
  · simp only [fmt_hex, List.length_append, List.length_replicate]
    omega
  · revert d
    decide

/-! ### The whole run on the simulated controller -/

/-- The lines 140-180 of `main` on the simulated controller: one poll of the
command register, and `GPIO_CFG` cleared; the EEPROM side is not touched. -/
theorem sim_prelude (cfg : SimCfg) (mac : List Nat) (p : Proc Sim) :
    (clear_gpio_cfg (simBus cfg) mac (show_current (simBus cfg) p).2).dev.busy =
      p.dev.busy - 1 ∧
    (clear_gpio_cfg (simBus cfg) mac (show_current (simBus cfg) p).2).dev.ncmd = p.dev.ncmd ∧
    (clear_gpio_cfg (simBus cfg) mac (show_current (simBus cfg) p).2).dev.cells = p.dev.cells ∧
    (clear_gpio_cfg (simBus cfg) mac (show_current (simBus cfg) p).2).dev.ram GPIO_CFG = 0 ∧
    (clear_gpio_cfg (simBus cfg) mac (show_current (simBus cfg) p).2).dev.ram (GPIO_CFG + 2) = 0 := by
  simp [clear_gpio_cfg, show_current, mac_r, reg_r, reg_w, simBus, Sim.load, Sim.store, GPIO_CFG]

theorem scan_hhx_byte (s : List Char) (r : Nat × List Char) (h : scan_hhx s = some r) :
    r.1 < 256 := by
  unfold scan_hhx at h
  dsimp only at h
  split at h
  · simp at h
  · simp only [Option.some.injEq] at h
    rw [← h]
    exact Nat.mod_lt _ (by decide)

theorem set_bytes (buf : List Nat) (k v : Nat) (hb : ∀ b ∈ buf, b < 256) (hv : v < 256) :
    ∀ b ∈ buf.set k v, b < 256 := by
  intro b hb2
  rcases List.mem_or_eq_of_mem_set hb2 with h | h
  · exact hb b h
  · rw [h]; exact hv

theorem scan_fields_bytes (n : Nat) : ∀ (k : Nat) (s : List Char) (buf : List Nat),
    (∀ b ∈ buf, b < 256) → ∀ b ∈ (scan_fields n k s buf).2, b < 256 := by
  induction n with
  | zero => intro k s buf hb; simpa [scan_fields] using hb
  | succ n ih =>
    intro k s buf hb
    unfold scan_fields
    dsimp only
    split
    · exact hb
    · split
      · exact hb
      · rename_i r hr
        exact ih _ _ _ (set_bytes buf k r.1 hb (scan_hhx_byte _ r hr))

/-- The address the argument gives consists of bytes. -/
theorem parse_arg_bytes (env : Env) (arg : String) (buf mac : List Nat)
    (hb : ∀ b ∈ buf, b < 256) (h : parse_arg env arg buf = Except.ok mac) :
    ∀ b ∈ mac, b < 256 := by
  unfold parse_arg at h
  split at h
  · split at h
    · simp at h
    · split at h
      · simp at h
      · dsimp only at h
        split at h
        · simp at h
        · simp only [Except.ok.injEq] at h
          rw [← h]
          unfold fix_random
          dsimp only
          apply set_bytes _ _ _ _ (Nat.mod_lt _ (by decide))
          apply set_bytes _ _ _ _ (Nat.mod_lt _ (by decide))
          intro b hb2
          unfold store_bytes at hb2
          rcases List.mem_append.1 hb2 with h1 | h1
          · simp only [List.mem_map] at h1
            obtain ⟨x, -, rfl⟩ := h1
            exact Nat.mod_lt _ (by decide)
          · exact hb b (List.mem_of_mem_drop h1)
  · dsimp only at h
    split at h
    · simp at h
    · simp only [Except.ok.injEq] at h
      rw [← h]
      unfold sscanf_mac
      split
      · exact hb
      · exact scan_fields_bytes 7 0 _ buf hb

theorem show_current_bytes {σ : Type} (bus : Bus σ) (p : Proc σ) :
    ∀ b ∈ (show_current bus p).1, b < 256 := by
  intro b hb
  simp only [show_current, le_bytes, List.cons_append, List.nil_append, List.mem_cons,
    List.mem_singleton, List.not_mem_nil, or_false] at hb
  rcases hb with h | h | h | h | h | h | h | h <;> rw [h] <;> exact Nat.mod_lt _ (by decide)

theorem datum_of_bytes (mac : List Nat) (h : ∀ b ∈ mac, b < 256) :
    ∀ i, i < 7 → datum_of mac i < 256 := by
  intro i _
  unfold datum_of
  split
  · decide
  · rw [List.getD_eq_getElem?_getD]
    cases hg : mac[i - 1]? with
    | none => simp
    | some x =>
      simp only [Option.getD_some]
      obtain ⟨hlt, e⟩ := List.getElem?_eq_some_iff.1 hg
      exact h x (e ▸ List.getElem_mem hlt)

/-- The whole program on the simulated controller: when every command is
answered within `fuel` polls, every run of `main` ends. -/
theorem sim_main_terminates (cfg : SimCfg) (fuel : Nat) (hd : ∀ k, cfg.delay k < fuel)
    (env : Env) (argv : List String) (dev : Sim) (hb : dev.busy ≤ fuel) :
    ∃ o, main (simBus cfg) fuel env argv dev = some o := by
  obtain ⟨he, hp⟩ := map_window_trace (σ := Sim) env dev
  unfold main
  cases hm : map_window env dev with
  | error e => exact ⟨_, rfl⟩
  | ok p2 =>
    dsimp only
    split
    · exact ⟨_, rfl⟩
    · cases hpa : parse_arg env (argv.getD 1 "") (show_current (simBus cfg) p2).1 with
      | error line => exact ⟨_, rfl⟩
      | ok mac =>
        dsimp only
        have hbytes := parse_arg_bytes env _ _ mac (show_current_bytes (simBus cfg) p2) hpa
        obtain ⟨b1, -⟩ := sim_prelude cfg mac p2
        obtain ⟨o, ho, -⟩ := sim_programAddress cfg fuel hd mac (datum_of_bytes mac hbytes)
          (clear_gpio_cfg (simBus cfg) mac (show_current (simBus cfg) p2).2)
          (by rw [b1, (hp p2 hm).2]; have := hd 0; omega)
        exact ⟨o, ho⟩

/-! ### Two runs in step -/

@[simp] theorem shape_append (t u : List Access) : shape (t ++ u) = shape t ++ shape u := by
  simp [shape]

theorem alike_refl {σ τ : Type} {R : σ → τ → Prop}
    (p1 : Proc σ) (p2 : Proc τ) (h : R p1.dev p2.dev) : alike R p1 p1 p2 p2 :=
  ⟨[], [], by simp, by simp, rfl, h⟩

theorem alike_rel {σ τ : Type} {R : σ → τ → Prop}
    {p1 q1 : Proc σ} {p2 q2 : Proc τ} (h : alike R p1 q1 p2 q2) :
    R q1.dev q2.dev := by
  obtain ⟨t1, t2, -, -, -, r⟩ := h
  exact r

theorem alike_trans {σ τ : Type} {R : σ → τ → Prop}
    {p1 q1 r1 : Proc σ} {p2 q2 r2 : Proc τ}
    (h1 : alike R p1 q1 p2 q2) (h2 : alike R q1 r1 q2 r2) : alike R p1 r1 p2 r2 := by
  obtain ⟨t1, t2, e1, e2, s, -⟩ := h1
  obtain ⟨u1, u2, f1, f2, s2, r⟩ := h2
  exact ⟨t1 ++ u1, t2 ++ u2, by simp [f1, e1], by simp [f2, e2], by simp [s, s2], r⟩

theorem reg_w_alike {σ τ : Type} {bus1 : Bus σ} {bus2 : Bus τ}
    {R : σ → τ → Prop} (hR : agree_on_busy bus1 bus2 R) (p1 : Proc σ) (p2 : Proc τ)
    (h : R p1.dev p2.dev) (r v : Nat) :
    alike R p1 (reg_w bus1 p1 r v) p2 (reg_w bus2 p2 r v) :=
  ⟨[Access.wr r v], [Access.wr r v], rfl, rfl, rfl, hR.1 _ _ _ _ (hR.1 _ _ _ _ h)⟩

theorem reg_r_alike {σ τ : Type} {bus1 : Bus σ} {bus2 : Bus τ}
    {R : σ → τ → Prop} (hR : agree_on_busy bus1 bus2 R) (p1 : Proc σ) (p2 : Proc τ)
    (h : R p1.dev p2.dev) (r : Nat) :
    alike R p1 (reg_r bus1 p1 r).2 p2 (reg_r bus2 p2 r).2 :=
  ⟨[Access.rd r (reg_r bus1 p1 r).1], [Access.rd r (reg_r bus2 p2 r).1], rfl, rfl,
    by simp [shape], hR.2.1 _ _ _ (hR.2.1 _ _ _ h)⟩

theorem put_alike {σ τ : Type} {R : σ → τ → Prop}
    {p1 q1 : Proc σ} {p2 q2 : Proc τ} (h : alike R p1 q1 p2 q2)
    (c1 c2 : List Char) : alike R p1 (put q1 c1) p2 (put q2 c2) := h

theorem put_alike_left {σ τ : Type} {R : σ → τ → Prop}
    {p1 q1 : Proc σ} {p2 q2 : Proc τ} (c1 c2 : List Char)
    (h : alike R (put p1 c1) q1 (put p2 c2) q2) : alike R p1 q1 p2 q2 := h

theorem busy_bit_of_halves (lo hi : Nat) :
    (join_halves ULONG_BITS lo hi &&& E2P_CMD_EPC_BUSY_ ≠ 0) ↔ hi % 65536 / 32768 = 1 := by
  rw [join_halves_eq, and_busy_ne_zero _ (by omega)]
  omega

theorem busy_alike {σ τ : Type} {bus1 : Bus σ} {bus2 : Bus τ}
    {R : σ → τ → Prop} (hR : agree_on_busy bus1 bus2 R) (p1 : Proc σ) (p2 : Proc τ)
    (h : R p1.dev p2.dev) :
    ((reg_r bus1 p1 E2P_CMD).1 &&& E2P_CMD_EPC_BUSY_ ≠ 0) ↔
      ((reg_r bus2 p2 E2P_CMD).1 &&& E2P_CMD_EPC_BUSY_ ≠ 0) := by
  simp only [reg_r]
  rw [busy_bit_of_halves, busy_bit_of_halves, hR.2.2 _ _ (hR.2.1 _ _ _ h)]

theorem busy_wait_alike {σ τ : Type} {bus1 : Bus σ} {bus2 : Bus τ}
    {R : σ → τ → Prop} (hR : agree_on_busy bus1 bus2 R) (fuel : Nat) :
    ∀ (p1 : Proc σ) (p2 : Proc τ) (q1 : Proc σ), R p1.dev p2.dev →
      busy_wait bus1 fuel p1 = some q1 →
      ∃ q2, busy_wait bus2 fuel p2 = some q2 ∧ alike R p1 q1 p2 q2 := by
  induction fuel with
  | zero => intro p1 p2 q1 _ h; simp [busy_wait] at h
  | succ n ih =>
    intro p1 p2 q1 hr h
    rw [busy_wait] at h ⊢
    have hb := busy_alike hR p1 p2 hr
    have hs := reg_r_alike hR p1 p2 hr E2P_CMD
    by_cases c : (reg_r bus1 p1 E2P_CMD).1 &&& E2P_CMD_EPC_BUSY_ ≠ 0
    · rw [if_pos c] at h
      rw [if_pos (hb.1 c)]
      obtain ⟨q2, e, a⟩ := ih _ (reg_r bus2 p2 E2P_CMD).2 q1 (alike_rel hs) h
      exact ⟨q2, e, alike_trans hs a⟩
    · rw [if_neg c] at h
      rw [if_neg (fun x => c (hb.2 x))]
      simp only [Option.some.injEq] at h
      subst h
      exact ⟨_, rfl, hs⟩

theorem for_range_alike {σ τ : Type} {R : σ → τ → Prop}
    (body1 : Proc σ → Nat → Option (Proc σ))
    (body2 : Proc τ → Nat → Option (Proc τ))
    (hbody : ∀ (p1 : Proc σ) (p2 : Proc τ) (i : Nat) (q1 : Proc σ), R p1.dev p2.dev →
      body1 p1 i = some q1 → ∃ q2, body2 p2 i = some q2 ∧ alike R p1 q1 p2 q2) :
    ∀ (n i : Nat) (p1 : Proc σ) (p2 : Proc τ) (q1 : Proc σ), R p1.dev p2.dev →
      for_range body1 n i p1 = some q1 →
      ∃ q2, for_range body2 n i p2 = some q2 ∧ alike R p1 q1 p2 q2 := by
  intro n
  induction n with
  | zero =>
    intro i p1 p2 q1 hr h
    simp only [for_range, Option.some.injEq] at h
    subst h
    exact ⟨p2, rfl, alike_refl _ _ hr⟩
  | succ n ih =>
    intro i p1 p2 q1 hr h
    rw [for_range] at h ⊢
    cases hb : body1 p1 i with
    | none => simp [hb] at h
    | some m1 =>
      rw [hb] at h
      simp only [Option.some_bind] at h
      obtain ⟨m2, e2, a2⟩ := hbody p1 p2 i m1 hr hb
      obtain ⟨q2, e3, a3⟩ := ih (i + 1) m1 m2 q1 (alike_rel a2) h
      exact ⟨q2, by rw [e2]; exact e3, alike_trans a2 a3⟩

theorem dump_cell_alike {σ τ : Type} {bus1 : Bus σ} {bus2 : Bus τ}
    {R : σ → τ → Prop} (hR : agree_on_busy bus1 bus2 R) (fuel : Nat)
    (p1 : Proc σ) (p2 : Proc τ) (i : Nat) (q1 : Proc σ) (hr : R p1.dev p2.dev)
    (h : dump_cell bus1 fuel p1 i = some q1) :
    ∃ q2, dump_cell bus2 fuel p2 i = some q2 ∧ alike R p1 q1 p2 q2 := by
  unfold dump_cell at h ⊢
  simp only [Option.bind_eq_some, Option.some.injEq] at h
  obtain ⟨a1, h1, b1, h2, h⟩ := h
  subst h
  obtain ⟨a2, e1, k1⟩ := busy_wait_alike hR fuel p1 p2 a1 hr h1
  have k2 := reg_w_alike hR a1 a2 (alike_rel k1) E2P_CMD (0 ||| E2P_CMD_EPC_CMD_READ_ ||| i)
  have k3 := reg_w_alike hR _ _ (alike_rel k2) E2P_CMD
    (0 ||| E2P_CMD_EPC_BUSY_ ||| E2P_CMD_EPC_CMD_READ_ ||| i)
  obtain ⟨b2, e2, k4⟩ := busy_wait_alike hR fuel _ _ b1 (alike_rel k3) h2
  have k5 := reg_r_alike hR b1 b2 (alike_rel k4) E2P_DATA
  refine ⟨put (put (reg_r bus2 b2 E2P_DATA).2 (fmt_hex 2 (reg_r bus2 b2 E2P_DATA).1))
      [if i &&& 7 = 7 then '\n' else ' '], ?_,
    put_alike (put_alike (alike_trans k1 (alike_trans k2 (alike_trans k3
      (alike_trans k4 k5)))) _ _) _ _⟩
  rw [e1, Option.some_bind]
  dsimp only
  rw [e2, Option.some_bind]

theorem dump_eep_alike {σ τ : Type} {bus1 : Bus σ} {bus2 : Bus τ}
    {R : σ → τ → Prop} (hR : agree_on_busy bus1 bus2 R) (fuel : Nat)
    (p1 : Proc σ) (p2 : Proc τ) (q1 : Proc σ) (hr : R p1.dev p2.dev)
    (h : dump_eep bus1 fuel p1 = some q1) :
    ∃ q2, dump_eep bus2 fuel p2 = some q2 ∧ alike R p1 q1 p2 q2 := by
  unfold dump_eep at h ⊢
  obtain ⟨q2, e, a⟩ := for_range_alike (dump_cell bus1 fuel) (dump_cell bus2 fuel)
    (fun p1 p2 i q1 hr h => dump_cell_alike hR fuel p1 p2 i q1 hr h) 32 0
    (put p1 "Current eeprom:\n".toList) (put p2 "Current eeprom:\n".toList) q1 hr h
  exact ⟨q2, e, put_alike_left _ _ a⟩

theorem unlock_alike {σ τ : Type} {bus1 : Bus σ} {bus2 : Bus τ}
    {R : σ → τ → Prop} (hR : agree_on_busy bus1 bus2 R) (fuel : Nat)
    (p1 : Proc σ) (p2 : Proc τ) (q1 : Proc σ) (hr : R p1.dev p2.dev)
    (h : unlock bus1 fuel p1 = some q1) :
    ∃ q2, unlock bus2 fuel p2 = some q2 ∧ alike R p1 q1 p2 q2 := by
  unfold unlock at h ⊢
  simp only [Option.bind_eq_some] at h
  obtain ⟨a1, h1, b1, h2, h3⟩ := h
  obtain ⟨a2, e1, k1⟩ := dump_eep_alike hR fuel p1 p2 a1 hr h1
  obtain ⟨b2, e2, k2⟩ := busy_wait_alike hR fuel a1 a2 b1 (alike_rel k1) h2
  have k3 := reg_w_alike hR b1 b2 (alike_rel k2) E2P_CMD (0 ||| E2P_CMD_EPC_CMD_EWEN_)
  have k4 := reg_w_alike hR _ _ (alike_rel k3) E2P_CMD
    (0 ||| E2P_CMD_EPC_BUSY_ ||| E2P_CMD_EPC_CMD_EWEN_)
  obtain ⟨c2, e3, k5⟩ := busy_wait_alike hR fuel _ _ q1 (alike_rel k4) h3
  refine ⟨c2, ?_, alike_trans k1 (alike_trans k2 (alike_trans k3 (alike_trans k4 k5)))⟩
  rw [e1, Option.some_bind, e2, Option.some_bind]
  exact e3

theorem write_cell_alike {σ τ : Type} {bus1 : Bus σ} {bus2 : Bus τ}
    {R : σ → τ → Prop} (hR : agree_on_busy bus1 bus2 R) (fuel : Nat) (a : List Nat)
    (p1 : Proc σ) (p2 : Proc τ) (i : Nat) (q1 : Proc σ) (hr : R p1.dev p2.dev)
    (h : write_cell bus1 fuel a p1 i = some q1) :
    ∃ q2, write_cell bus2 fuel a p2 i = some q2 ∧ alike R p1 q1 p2 q2 := by
  unfold write_cell at h ⊢
  simp only [Option.bind_eq_some] at h
  obtain ⟨a1, h1, h2⟩ := h
  obtain ⟨a2, e1, k1⟩ := busy_wait_alike hR fuel p1 p2 a1 hr h1
  have k2 := reg_w_alike hR a1 a2 (alike_rel k1) E2P_DATA
    (if i = 0 then 0xa5 else a.getD (i - 1) 0)
  have k3 := reg_w_alike hR _ _ (alike_rel k2) E2P_CMD (0 ||| E2P_CMD_EPC_CMD_WRITE_ ||| i)
  have k4 := reg_w_alike hR _ _ (alike_rel k3) E2P_CMD
    (0 ||| E2P_CMD_EPC_BUSY_ ||| E2P_CMD_EPC_CMD_WRITE_ ||| i)
  obtain ⟨c2, e3, k5⟩ := busy_wait_alike hR fuel _ _ q1 (alike_rel k4) h2
  refine ⟨c2, ?_, alike_trans k1 (alike_trans k2 (alike_trans k3 (alike_trans k4 k5)))⟩
  dsimp only
  rw [e1, Option.some_bind]
  exact e3

theorem write_and_dump_alike {σ τ : Type} {bus1 : Bus σ} {bus2 : Bus τ}
    {R : σ → τ → Prop} (hR : agree_on_busy bus1 bus2 R) (fuel : Nat) (a : List Nat)
    (p1 : Proc σ) (p2 : Proc τ) (o1 : Outcome σ) (hr : R p1.dev p2.dev)
    (h : write_and_dump bus1 fuel a p1 = some o1) :
    ∃ o2, write_and_dump bus2 fuel a p2 = some o2 ∧ o1.exit = Exit.ok ∧ o2.exit = Exit.ok ∧
      alike R p1 o1.proc p2 o2.proc := by
  unfold write_and_dump at h ⊢
  simp only [Option.bind_eq_some, Option.some.injEq] at h
  obtain ⟨a1, h1, b1, h2, h⟩ := h
  subst h
  obtain ⟨a2, e1, k1⟩ := for_range_alike (write_cell bus1 fuel a) (write_cell bus2 fuel a)
    (fun p1 p2 i q1 hr h => write_cell_alike hR fuel a p1 p2 i q1 hr h) 7 0
    (put p1 "Write...\n".toList) (put p2 "Write...\n".toList) a1 hr h1
  have k1 : alike R p1 a1 p2 a2 := put_alike_left _ _ k1
  have k2 := reg_w_alike hR a1 a2 (alike_rel k1) E2P_CMD (0 ||| E2P_CMD_EPC_CMD_EWDS_)
  obtain ⟨b2, e2, k3⟩ := dump_eep_alike hR fuel _ _ b1 (alike_rel k2) h2
  refine ⟨{ exit := Exit.ok, proc := b2 }, ?_, rfl, rfl, alike_trans k1 (alike_trans k2 k3)⟩
  rw [e1, Option.some_bind]
  dsimp only
  rw [e2, Option.some_bind]

theorem writes_of_shape (t : List Access) :
    writes t = (shape t).filterMap fun x => x.2.map fun v => (x.1, v) := by
  induction t with
  | nil => rfl
  | cons a t ih =>
    cases a with
    | rd r v => simp [shape, ih] at ih ⊢
    | wr r v => simp [shape, ih] at ih ⊢

theorem programAddress_alike {σ τ : Type} {bus1 : Bus σ} {bus2 : Bus τ} {R : σ → τ → Prop}
    (hR : agree_on_busy bus1 bus2 R) (fuel : Nat) (a : List Nat)
    (p1 : Proc σ) (p2 : Proc τ) (o1 : Outcome σ) (hr : R p1.dev p2.dev)
    (h : programAddress bus1 fuel a p1 = some o1)
    (ht1 : ∀ q, unlock bus1 fuel p1 = some q →
      (reg_r bus1 q E2P_CMD).1 &&& E2P_CMD_EPC_TIMEOUT_ = 0)
    (ht2 : ∀ q, unlock bus2 fuel p2 = some q →
      (reg_r bus2 q E2P_CMD).1 &&& E2P_CMD_EPC_TIMEOUT_ = 0) :
    ∃ o2, programAddress bus2 fuel a p2 = some o2 ∧ o1.exit = Exit.ok ∧ o2.exit = Exit.ok ∧
      alike R p1 o1.proc p2 o2.proc := by
  unfold programAddress at h ⊢
  simp only [Option.bind_eq_some] at h
  obtain ⟨a1, h1, h2⟩ := h
  obtain ⟨a2, e1, k1⟩ := unlock_alike hR fuel p1 p2 a1 hr h1
  have c1 : ¬ ((reg_r bus1 a1 E2P_CMD).1 &&& E2P_CMD_EPC_TIMEOUT_ ≠ 0) := by
    simpa using ht1 a1 h1
  have c2 : ¬ ((reg_r bus2 a2 E2P_CMD).1 &&& E2P_CMD_EPC_TIMEOUT_ ≠ 0) := by
    simpa using ht2 a2 e1
  rw [if_neg c1] at h2
  have k2 := reg_r_alike hR a1 a2 (alike_rel k1) E2P_CMD
  obtain ⟨o2, e2, x1, x2, k3⟩ := write_and_dump_alike hR fuel a _ _ o1 (alike_rel k2) h2
  refine ⟨o2, ?_, x1, x2, alike_trans k1 (alike_trans k2 k3)⟩
  rw [e1, Option.some_bind]
  dsimp only
  rw [if_neg c2]
  exact e2

theorem sim_submit_busy (cfg : SimCfg) (s : Sim) :
    (Sim.submit cfg s).busy = cfg.delay s.ncmd ∧ (Sim.submit cfg s).ncmd = s.ncmd + 1 := by
  unfold Sim.submit
  dsimp only
  constructor
  · simp only [apply_ite Sim.busy, ite_self]
  · simp only [apply_ite Sim.ncmd, ite_self]

/-- Two simulated controllers with the same delays agree on BUSY, whatever
their EEPROM cells hold and whichever commands their EEPROMs answer. -/
theorem sim_agree_on_busy (cfg1 cfg2 : SimCfg) (hd : ∀ k, cfg1.delay k = cfg2.delay k) :
    agree_on_busy (simBus cfg1) (simBus cfg2)
      (fun s1 s2 => s1.busy = s2.busy ∧ s1.ncmd = s2.ncmd) := by
  refine ⟨?_, ?_, ?_⟩
  · intro s1 s2 i v h
    obtain ⟨hb, hn⟩ := h
    simp only [simBus, Sim.store]
    by_cases c0 : i = 0xB0
    · simp [c0, hb, hn]
    by_cases c1 : i = 0xB2
    · subst c1
      simp only [c0, if_false, if_true]
      by_cases c : v / 32768 % 2 = 1 ∧ s1.busy = 0
      · have c' : v / 32768 % 2 = 1 ∧ s2.busy = 0 := ⟨c.1, hb ▸ c.2⟩
        rw [if_pos c, if_pos c']
        rw [(sim_submit_busy cfg1 _).1, (sim_submit_busy cfg1 _).2,
          (sim_submit_busy cfg2 _).1, (sim_submit_busy cfg2 _).2]
        exact ⟨by simp [hn, hd], by simp [hn]⟩
      · have c' : ¬ (v / 32768 % 2 = 1 ∧ s2.busy = 0) := fun x => c ⟨x.1, hb.symm ▸ x.2⟩
        rw [if_neg c, if_neg c']
        exact ⟨hb, hn⟩
    by_cases c2 : i = 0xB4
    · simp [c0, c1, c2, hb, hn]
    by_cases c3 : i = 0xB6
    · simp [c0, c1, c2, c3, hb, hn]
    · simp [c0, c1, c2, c3, hb, hn]
  · intro s1 s2 i h
    obtain ⟨hb, hn⟩ := h
    simp only [simBus, Sim.load]
    repeat' split
    all_goals simp [hb, hn]
  · intro s1 s2 h
    obtain ⟨hb, hn⟩ := h
    simp only [simBus, Sim.load, E2P_CMD, hb]
    simp only [Nat.reduceAdd, Nat.reduceEqDiff, if_false, if_true]
    split <;> omega

/-- On the simulated controller, when the EEPROM answers the EWEN command the
read of the command register after its busy-wait has TIMEOUT clear. -/
theorem sim_unlock_timeout_clear (cfg : SimCfg) (fuel : Nat) (hd : ∀ k, cfg.delay k < fuel)
    (p : Proc Sim) (hb : p.dev.busy < fuel) (hf : cfg.fails (p.dev.ncmd + 32) = false) :
    ∀ q, unlock (simBus cfg) fuel p = some q →
      (reg_r (simBus cfg) q E2P_CMD).1 &&& E2P_CMD_EPC_TIMEOUT_ = 0 := by
  intro q hq
  obtain ⟨q1, e, -, -, -, t, -⟩ := sim_unlock cfg fuel hd p hb
  rw [e] at hq
  simp only [Option.some.injEq] at hq
  subst hq
  rw [sim_reg_r_cmd]
  have := (sim_timeout_iff q1.dev).not.2 (by rw [t, hf]; decide)
  simpa using this

/-! ### The busy-wait on any bus -/

theorem after_polls_succ {σ : Type} (bus : Bus σ) (j : Nat) (p : Proc σ) :
    after_polls bus (j + 1) p = (reg_r bus (after_polls bus j p) E2P_CMD).2 := by
  induction j generalizing p with
  | zero => rfl
  | succ j ih => rw [after_polls, ih]; rfl

theorem after_polls_trace {σ : Type} (bus : Bus σ) (n : Nat) (p : Proc σ) :
    (after_polls bus n p).trace = p.trace ++ poll_trace bus n p ∧
    (after_polls bus n p).out = p.out := by
  induction n generalizing p with
  | zero => simp [after_polls, poll_trace]
  | succ n ih =>
    obtain ⟨h1, h2⟩ := ih (reg_r bus p E2P_CMD).2
    rw [after_polls, poll_trace, h1, h2]
    simp

theorem poll_trace_facts {σ : Type} (bus : Bus σ) (n : Nat) (p : Proc σ) :
    (poll_trace bus n p).length = n ∧ writes (poll_trace bus n p) = [] ∧
    (∀ a ∈ poll_trace bus n p, ∃ v, a = Access.rd E2P_CMD v) ∧
    (∀ j, j < n → (poll_trace bus n p)[j]? = some (Access.rd E2P_CMD (poll_value bus j p))) := by
  induction n generalizing p with
  | zero => simp [poll_trace]
  | succ n ih =>
    obtain ⟨h1, h2, h3, h4⟩ := ih (reg_r bus p E2P_CMD).2
    refine ⟨by simp [poll_trace, h1], by simp [poll_trace, h2], ?_, ?_⟩
    · intro a ha
      simp only [poll_trace, List.mem_cons] at ha
      rcases ha with h | h
      · exact ⟨_, h⟩
      · exact h3 a h
    · intro j hj
      cases j with
      | zero => simp [poll_trace, poll_value, after_polls]
      | succ j =>
        simp only [poll_trace, List.getElem?_cons_succ]
        rw [h4 j (by omega)]
        rfl

/-- The busy-wait against a device that shows BUSY for exactly `n` reads. -/
theorem busy_wait_exact {σ : Type} (bus : Bus σ) (n : Nat) :
    ∀ (p : Proc σ),
    (∀ j, j < n → poll_value bus j p &&& E2P_CMD_EPC_BUSY_ ≠ 0) →
    poll_value bus n p &&& E2P_CMD_EPC_BUSY_ = 0 →
    ∀ fuel, (n < fuel → busy_wait bus fuel p = some (after_polls bus (n + 1) p)) ∧
            (fuel ≤ n → busy_wait bus fuel p = none) := by
  induction n with
  | zero =>
    intro p _ h0 fuel
    constructor
    · intro hf
      obtain ⟨f, rfl⟩ : ∃ f, fuel = f + 1 := ⟨fuel - 1, by omega⟩
      rw [busy_wait]
      have : ¬ ((reg_r bus p E2P_CMD).1 &&& E2P_CMD_EPC_BUSY_ ≠ 0) := by
        simpa [poll_value, after_polls] using h0
      rw [if_neg this]
      rfl
    · intro hf
      have : fuel = 0 := by omega
      subst this
      rfl
  | succ n ih =>
    intro p hb h0 fuel
    have hfirst : (reg_r bus p E2P_CMD).1 &&& E2P_CMD_EPC_BUSY_ ≠ 0 := by
      simpa [poll_value, after_polls] using hb 0 (by omega)
    have hrec := ih (reg_r bus p E2P_CMD).2
      (fun j hj => by simpa [poll_value, after_polls] using hb (j + 1) (by omega))
      (by simpa [poll_value, after_polls] using h0)
    constructor
    · intro hf
      obtain ⟨f, rfl⟩ : ∃ f, fuel = f + 1 := ⟨fuel - 1, by omega⟩
      rw [busy_wait, if_pos hfirst, (hrec f).1 (by omega)]
      rfl
    · intro hf
      cases fuel with
      | zero => rfl
      | succ f => rw [busy_wait, if_pos hfirst, (hrec f).2 (by omega)]

/-! ### Termination on a device that clears BUSY -/

theorem busy_wait_returns {σ : Type} (bus : Bus σ) (hc : clears_busy bus) (p : Proc σ) :
    ∃ q fuel0, ∀ fuel, fuel0 ≤ fuel → busy_wait bus fuel p = some q := by
  classical
  have hn := Nat.find_spec (hc p)
  have hm : ∀ j, j < Nat.find (hc p) → poll_value bus j p &&& E2P_CMD_EPC_BUSY_ ≠ 0 :=
    fun j hj => Nat.find_min (hc p) hj
  exact ⟨after_polls bus (Nat.find (hc p) + 1) p, Nat.find (hc p) + 1, fun fuel hf =>
    ((busy_wait_exact bus (Nat.find (hc p)) p hm hn) fuel).1 (by omega)⟩

theorem for_range_returns {α : Type} (body : Nat → α → Nat → Option α)
    (hbody : ∀ p i, ∃ q fuel0, ∀ fuel, fuel0 ≤ fuel → body fuel p i = some q) :
    ∀ (n i : Nat) (p : α), ∃ q fuel0, ∀ fuel, fuel0 ≤ fuel →
      for_range (body fuel) n i p = some q := by
  intro n
  induction n with
  | zero => intro i p; exact ⟨p, 0, fun _ _ => rfl⟩
  | succ n ih =>
    intro i p
    obtain ⟨q1, f1, h1⟩ := hbody p i
    obtain ⟨q2, f2, h2⟩ := ih (i + 1) q1
    refine ⟨q2, max f1 f2, fun fuel hf => ?_⟩
    rw [for_range, h1 fuel (by omega), Option.some_bind]
    exact h2 fuel (by omega)

theorem dump_cell_returns {σ : Type} (bus : Bus σ) (hc : clears_busy bus) (p : Proc σ)
    (i : Nat) : ∃ q fuel0, ∀ fuel, fuel0 ≤ fuel → dump_cell bus fuel p i = some q := by
  obtain ⟨q1, f1, h1⟩ := busy_wait_returns bus hc p
  obtain ⟨q2, f2, h2⟩ := busy_wait_returns bus hc
    (reg_w bus (reg_w bus q1 E2P_CMD (0 ||| E2P_CMD_EPC_CMD_READ_ ||| i)) E2P_CMD
      (0 ||| E2P_CMD_EPC_BUSY_ ||| E2P_CMD_EPC_CMD_READ_ ||| i))
  refine ⟨put (put (reg_r bus q2 E2P_DATA).2 (fmt_hex 2 (reg_r bus q2 E2P_DATA).1))
    [if i &&& 7 = 7 then '\n' else ' '], max f1 f2, fun fuel hf => ?_⟩
  unfold dump_cell
  rw [h1 fuel (by omega), Option.some_bind]
  dsimp only
  rw [h2 fuel (by omega), Option.some_bind]

theorem dump_eep_returns {σ : Type} (bus : Bus σ) (hc : clears_busy bus) (p : Proc σ) :
    ∃ q fuel0, ∀ fuel, fuel0 ≤ fuel → dump_eep bus fuel p = some q := by
  unfold dump_eep
  exact for_range_returns (fun fuel => dump_cell bus fuel)
    (fun p i => dump_cell_returns bus hc p i) 32 0 _

theorem unlock_returns {σ : Type} (bus : Bus σ) (hc : clears_busy bus) (p : Proc σ) :
    ∃ q fuel0, ∀ fuel, fuel0 ≤ fuel → unlock bus fuel p = some q := by
  obtain ⟨q1, f1, h1⟩ := dump_eep_returns bus hc p
  obtain ⟨q2, f2, h2⟩ := busy_wait_returns bus hc q1
  obtain ⟨q3, f3, h3⟩ := busy_wait_returns bus hc
    (reg_w bus (reg_w bus q2 E2P_CMD (0 ||| E2P_CMD_EPC_CMD_EWEN_)) E2P_CMD
      (0 ||| E2P_CMD_EPC_BUSY_ ||| E2P_CMD_EPC_CMD_EWEN_))
  refine ⟨q3, max f1 (max f2 f3), fun fuel hf => ?_⟩
  unfold unlock
  rw [h1 fuel (by omega), Option.some_bind, h2 fuel (by omega), Option.some_bind]
  exact h3 fuel (by omega)

theorem write_cell_returns {σ : Type} (bus : Bus σ) (hc : clears_busy bus) (a : List Nat)
    (p : Proc σ) (i : Nat) :
    ∃ q fuel0, ∀ fuel, fuel0 ≤ fuel → write_cell bus fuel a p i = some q := by
  obtain ⟨q1, f1, h1⟩ := busy_wait_returns bus hc p
  obtain ⟨q2, f2, h2⟩ := busy_wait_returns bus hc
    (reg_w bus (reg_w bus (reg_w bus q1 E2P_DATA (if i = 0 then 0xa5 else a.getD (i - 1) 0))
      E2P_CMD (0 ||| E2P_CMD_EPC_CMD_WRITE_ ||| i)) E2P_CMD
      (0 ||| E2P_CMD_EPC_BUSY_ ||| E2P_CMD_EPC_CMD_WRITE_ ||| i))
  refine ⟨q2, max f1 f2, fun fuel hf => ?_⟩
  unfold write_cell
  dsimp only
  rw [h1 fuel (by omega), Option.some_bind]
  exact h2 fuel (by omega)

theorem write_and_dump_returns {σ : Type} (bus : Bus σ) (hc : clears_busy bus) (a : List Nat)
    (p : Proc σ) :
    ∃ o fuel0, ∀ fuel, fuel0 ≤ fuel → write_and_dump bus fuel a p = some o := by
  obtain ⟨q1, f1, h1⟩ := for_range_returns (fun fuel => write_cell bus fuel a)
    (fun p i => write_cell_returns bus hc a p i) 7 0 (put p "Write...\n".toList)
  obtain ⟨q2, f2, h2⟩ := dump_eep_returns bus hc
    (reg_w bus q1 E2P_CMD (0 ||| E2P_CMD_EPC_CMD_EWDS_))
  refine ⟨{ exit := Exit.ok, proc := q2 }, max f1 f2, fun fuel hf => ?_⟩
  unfold write_and_dump
  rw [h1 fuel (by omega), Option.some_bind]
  dsimp only
  rw [h2 fuel (by omega), Option.some_bind]

theorem programAddress_returns {σ : Type} (bus : Bus σ) (hc : clears_busy bus) (a : List Nat)
    (p : Proc σ) :
    ∃ o fuel0, ∀ fuel, fuel0 ≤ fuel → programAddress bus fuel a p = some o := by
  obtain ⟨q1, f1, h1⟩ := unlock_returns bus hc p
  obtain ⟨o2, f2, h2⟩ := write_and_dump_returns bus hc a (reg_r bus q1 E2P_CMD).2
  by_cases c : (reg_r bus q1 E2P_CMD).1 &&& E2P_CMD_EPC_TIMEOUT_ ≠ 0
  · refine ⟨{ exit := Exit.fatal 198, proc := (reg_r bus q1 E2P_CMD).2 }, f1, fun fuel hf => ?_⟩
    unfold programAddress
    rw [h1 fuel hf, Option.some_bind]
    dsimp only
    rw [if_pos c]
  · refine ⟨o2, max f1 f2, fun fuel hf => ?_⟩
    unfold programAddress
    rw [h1 fuel (by omega), Option.some_bind]
    dsimp only
    rw [if_neg c]
    exact h2 fuel (by omega)

/-- Against a device that clears BUSY within finitely many reads, every run of
`main` ends once the busy-waits are allowed enough polls. -/
theorem main_returns {σ : Type} (bus : Bus σ) (hc : clears_busy bus) (env : Env)
    (argv : List String) (dev : σ) :
    ∃ o fuel0, ∀ fuel, fuel0 ≤ fuel → main bus fuel env argv dev = some o := by
  unfold main
  cases hm : map_window env dev with
  | error e => exact ⟨_, 0, fun _ _ => rfl⟩
  | ok p2 =>
    dsimp only
    split
    · exact ⟨_, 0, fun _ _ => rfl⟩
    · cases hpa : parse_arg env (argv.getD 1 "") (show_current bus p2).1 with
      | error line => exact ⟨_, 0, fun _ _ => rfl⟩
      | ok mac => exact programAddress_returns bus hc mac _

/-- Every simulated controller clears BUSY within finitely many reads. -/
theorem sim_clears_busy (cfg : SimCfg) : clears_busy (simBus cfg) := by
  intro p
  refine ⟨p.dev.busy, ?_⟩
  have key : ∀ (n : Nat) (q : Proc Sim), q.dev.busy = n →
      poll_value (simBus cfg) n q &&& E2P_CMD_EPC_BUSY_ = 0 := by
    intro n
    induction n with
    | zero =>
      intro q hq
      have := (sim_busy_iff q.dev).not.2 (by simp [hq])
      simp only [poll_value, after_polls, sim_reg_r_cmd]
      simpa using this
    | succ n ih =>
      intro q hq
      have := ih (reg_r (simBus cfg) q E2P_CMD).2 (by rw [sim_reg_r_cmd]; simp [hq])
      simpa [poll_value, after_polls] using this
  exact key _ p rfl

/-! ## The claims -/

/-- C1: on a responsive, fault-free device the run of `programAddress` with the
address `a0:a1:a2:a3:a4:a5` ends with `exit(0)`; its register writes are the
first dump, EWEN, then for the cells 0 to 6 in this order the datum written to
the data register followed by the WRITE command without and with BUSY, then
the EWDS word and the second dump; the controller accepts exactly seven WRITE
commands, for the cells 0 to 6 in order, each finding its datum in the data
register; afterwards cell 0 holds 0xA5 and the cells 1 to 6 hold the address. -/
theorem C1_program_writes_magic_and_address (cfg : SimCfg) (fuel : Nat)
    (a0 a1 a2 a3 a4 a5 : Nat) (rest : List Nat) (p : Proc Sim)
    (hbyte : a0 < 256 ∧ a1 < 256 ∧ a2 < 256 ∧ a3 < 256 ∧ a4 < 256 ∧ a5 < 256)
    (hd : ∀ k, cfg.delay k < fuel) (hf : ∀ k, cfg.fails k = false)
    (hb : p.dev.busy < fuel) :
    ∃ o, programAddress (simBus cfg) fuel (a0 :: a1 :: a2 :: a3 :: a4 :: a5 :: rest) p = some o ∧
      o.exit = Exit.ok ∧
      writes o.proc.trace = writes p.trace ++ dump_writes ++ ewen_writes ++
        [(E2P_DATA, 0xA5), (E2P_CMD, 0x30000000), (E2P_CMD, 0xB0000000),
         (E2P_DATA, a0), (E2P_CMD, 0x30000001), (E2P_CMD, 0xB0000001),
         (E2P_DATA, a1), (E2P_CMD, 0x30000002), (E2P_CMD, 0xB0000002),
         (E2P_DATA, a2), (E2P_CMD, 0x30000003), (E2P_CMD, 0xB0000003),
         (E2P_DATA, a3), (E2P_CMD, 0x30000004), (E2P_CMD, 0xB0000004),
         (E2P_DATA, a4), (E2P_CMD, 0x30000005), (E2P_CMD, 0xB0000005),
         (E2P_DATA, a5), (E2P_CMD, 0x30000006), (E2P_CMD, 0xB0000006)] ++
        [(E2P_CMD, 0x10000000)] ++ dump_writes ∧
      o.proc.dev.log = p.dev.log ++ read_cmds ++ [{ op := 2, addr := 0, data := 0 }] ++
        [{ op := 3, addr := 0, data := 0xA5 }, { op := 3, addr := 1, data := a0 },
         { op := 3, addr := 2, data := a1 }, { op := 3, addr := 3, data := a2 },
         { op := 3, addr := 4, data := a3 }, { op := 3, addr := 5, data := a4 },
         { op := 3, addr := 6, data := a5 }] ++ read_cmds ∧
      (List.range 7).map o.proc.dev.cells = [0xA5, a0, a1, a2, a3, a4, a5] := by
  have ha := datum_lt a0 a1 a2 a3 a4 a5 rest hbyte
  obtain ⟨o, e, ex, -, -, -, -, hl, hc⟩ := sim_programAddress cfg fuel hd _ ha p hb
  have hok : o.exit = Exit.ok := by rw [ex, hf]; rfl
  refine ⟨o, e, hok, ?_, ?_, ?_⟩
  · rcases programAddress_writes _ _ _ _ _ e with ⟨_, w⟩ | ⟨h, _⟩
    · rw [w]; rfl
    · rw [hok] at h; exact absurd h (by decide)
  · obtain ⟨-, -, l⟩ := hl (hf _)
    obtain ⟨h0, h1, h2, h3, h4, h5⟩ := hbyte
    rw [l]
    simp [write_cmds, cat_range, datum_of, Nat.mod_eq_of_lt, h0, h1, h2, h3, h4, h5]
  · obtain ⟨c, -⟩ := hc hf
    simp [List.range, List.range.loop, c, datum_of]

/-- Witness of C1: a controller that keeps BUSY set for two polls after each
command, programmed with 02:00:00:00:00:01. -/
theorem C1_witness :
    ∃ o, programAddress (simBus { delay := fun _ => 2, fails := fun _ => false }) 3
        [0x02, 0x00, 0x00, 0x00, 0x00, 0x01, 0x33, 0x44]
        { dev := { cmd_lo := 0, cmd_hi := 0, data_lo := 0, data_hi := 0, ram := fun _ => 0,
                   cells := fun _ => 0xFF, wen := false, tmo := false, busy := 0, ncmd := 0,
                   log := [] },
          trace := [], out := [] } = some o ∧
      o.exit = Exit.ok ∧
      (List.range 7).map o.proc.dev.cells = [0xA5, 0x02, 0x00, 0x00, 0x00, 0x00, 0x01] := by
  obtain ⟨o, e, ex, -, -, c⟩ := C1_program_writes_magic_and_address
    { delay := fun _ => 2, fails := fun _ => false } 3 0x02 0x00 0x00 0x00 0x00 0x01 [0x33, 0x44]
    { dev := { cmd_lo := 0, cmd_hi := 0, data_lo := 0, data_hi := 0, ram := fun _ => 0,
               cells := fun _ => 0xFF, wen := false, tmo := false, busy := 0, ncmd := 0,
               log := [] },
      trace := [], out := [] }
    (by decide) (fun _ => (by decide : 2 < 3)) (fun _ => rfl) (by decide)
  exact ⟨o, e, ex, c⟩

/-- C2: whatever the initial EEPROM image, the delays of the controller and
the commands the EEPROM fails to answer, a run of `programAddress` ends and
leaves every cell from 7 on (so the cells 7 to 31) as it was; every command
the run submits is READ, EWEN, or WRITE with an address of at most 6, so no
WRAL, ERASE, ERAL or EWDS reaches the controller; on a fault-free controller
the values the second dump reads for the cells 7 to 31 are those the first
dump read. -/
theorem C2_cells_from_7_untouched (cfg : SimCfg) (fuel : Nat)
    (a0 a1 a2 a3 a4 a5 : Nat) (rest : List Nat) (p : Proc Sim)
    (hbyte : a0 < 256 ∧ a1 < 256 ∧ a2 < 256 ∧ a3 < 256 ∧ a4 < 256 ∧ a5 < 256)
    (hd : ∀ k, cfg.delay k < fuel) (hb : p.dev.busy < fuel) :
    ∃ o, programAddress (simBus cfg) fuel (a0 :: a1 :: a2 :: a3 :: a4 :: a5 :: rest) p = some o ∧
      (∀ c, 7 ≤ c → o.proc.dev.cells c = p.dev.cells c) ∧
      (∃ cmds, o.proc.dev.log = p.dev.log ++ cmds ∧
        ∀ x ∈ cmds, x.op = 0 ∨ x.op = 2 ∨ (x.op = 3 ∧ x.addr ≤ 6)) ∧
      (∀ w ∈ (writes o.proc.trace).drop (writes p.trace).length,
        (w.1 = E2P_DATA) ∨
        (w.1 = E2P_CMD ∧ (w.2 / 0x80000000 % 2 = 1 →
          w.2 / 0x10000000 % 8 = 0 ∨ w.2 / 0x10000000 % 8 = 2 ∨
          (w.2 / 0x10000000 % 8 = 3 ∧ w.2 % 256 ≤ 6)))) ∧
      ((∀ k, cfg.fails k = false) →
        ∃ pre post, reads_of E2P_DATA o.proc.trace = reads_of E2P_DATA p.trace ++ pre ++ post ∧
          pre.length = 32 ∧ post.length = 32 ∧ post.drop 7 = pre.drop 7) := by
  have ha := datum_lt a0 a1 a2 a3 a4 a5 rest hbyte
  obtain ⟨o, e, ex, -, -, fr, l1, l2, hc⟩ := sim_programAddress cfg fuel hd _ ha p hb
  refine ⟨o, e, fr, ?_, ?_, ?_⟩
  · have hr : ∀ x ∈ read_cmds, x.op = 0 ∨ x.op = 2 ∨ (x.op = 3 ∧ x.addr ≤ 6) := by
      intro x hx
      obtain ⟨j, -, -, hj⟩ := mem_cat_range _ _ _ _ hx
      simp only [List.mem_singleton] at hj
      left; rw [hj]
    have hw : ∀ x ∈ write_cmds (a0 :: a1 :: a2 :: a3 :: a4 :: a5 :: rest),
        x.op = 0 ∨ x.op = 2 ∨ (x.op = 3 ∧ x.addr ≤ 6) := by
      intro x hx
      obtain ⟨j, -, h2, hj⟩ := mem_cat_range _ _ _ _ hx
      simp only [List.mem_singleton] at hj
      right; right; rw [hj]; exact ⟨rfl, by simp; omega⟩
    cases hfk : cfg.fails (p.dev.ncmd + 32) with
    | true =>
      obtain ⟨-, -, l⟩ := l1 hfk
      refine ⟨read_cmds ++ [{ op := 2, addr := 0, data := 0 }], by rw [l, List.append_assoc], ?_⟩
      intro x hx
      rcases List.mem_append.1 hx with h | h
      · exact hr x h
      · simp only [List.mem_singleton] at h
        right; left; rw [h]
    | false =>
      obtain ⟨-, -, l⟩ := l2 hfk
      refine ⟨read_cmds ++ [{ op := 2, addr := 0, data := 0 }] ++
        write_cmds (a0 :: a1 :: a2 :: a3 :: a4 :: a5 :: rest) ++ read_cmds,
        by rw [l]; simp only [List.append_assoc], ?_⟩
      intro x hx
      rcases List.mem_append.1 hx with h | h
      · rcases List.mem_append.1 h with h | h
        · rcases List.mem_append.1 h with h | h
          · exact hr x h
          · simp only [List.mem_singleton] at h
            right; left; rw [h]
        · exact hw x h
      · exact hr x h
  · exact program_writes_classified _ _ _ _ _ e
  · intro hf
    obtain ⟨-, r⟩ := hc hf
    refine ⟨cat_range (fun c => [p.dev.cells c % 256]) 32 0,
      cat_range (fun c => [o.proc.dev.cells c % 256]) 32 0, r,
      cat_range_length _ _ _, cat_range_length _ _ _, ?_⟩
    rw [cat_range_split _ 7 25 0, cat_range_split (fun c => [p.dev.cells c % 256]) 7 25 0]
    rw [List.drop_left' (cat_range_length _ 7 0), List.drop_left' (cat_range_length _ 7 0)]
    apply cat_range_congr
    intro c h1 _
    rw [fr c (by omega)]

/-- Witness of C2: an image of 0xEE bytes, a controller whose EEPROM fails to
answer every third command. -/
theorem C2_witness :
    ∃ o, programAddress (simBus { delay := fun k => k % 2, fails := fun k => k % 3 = 0 }) 2
        [0x02, 0x00, 0x00, 0x00, 0x00, 0x01]
        { dev := { cmd_lo := 0, cmd_hi := 0, data_lo := 0, data_hi := 0, ram := fun _ => 0,
                   cells := fun _ => 0xEE, wen := false, tmo := false, busy := 1, ncmd := 0,
                   log := [] },
          trace := [], out := [] } = some o ∧
      ∀ c, 7 ≤ c → o.proc.dev.cells c = 0xEE := by
  obtain ⟨o, e, c, -⟩ := C2_cells_from_7_untouched
    { delay := fun k => k % 2, fails := fun k => k % 3 = 0 } 2 0x02 0x00 0x00 0x00 0x00 0x01 []
    { dev := { cmd_lo := 0, cmd_hi := 0, data_lo := 0, data_hi := 0, ram := fun _ => 0,
               cells := fun _ => 0xEE, wen := false, tmo := false, busy := 1, ncmd := 0,
               log := [] },
      trace := [], out := [] }
    (by decide) (fun k => Nat.mod_lt k (by decide)) (by decide)
  exact ⟨o, e, c⟩

/-- C3: on any device, if the first dump and the EWEN command complete and the
command register read that follows the busy-wait of EWEN has TIMEOUT (bit 9)
set, the run ends with `FATAL` at line 198, exit status 1; that read is its
last register access; the registers written since the start are exactly those
of the first dump (READ for the cells 0 to 31) followed by the two EWEN
words, all written to the command register with a CMD field other than WRITE:
the data register is never written and no WRITE command is written. -/
theorem C3_timeout_aborts_before_any_write {σ : Type} (bus : Bus σ) (fuel : Nat)
    (a : List Nat) (p p1 : Proc σ)
    (h1 : unlock bus fuel p = some p1)
    (h2 : (reg_r bus p1 E2P_CMD).1 &&& E2P_CMD_EPC_TIMEOUT_ ≠ 0) :
    ∃ o, programAddress bus fuel a p = some o ∧
      o.exit = Exit.fatal 198 ∧ o.exit.status = 1 ∧
      o.proc.trace = p1.trace ++ [Access.rd E2P_CMD (reg_r bus p1 E2P_CMD).1] ∧
      o.proc.dev = (reg_r bus p1 E2P_CMD).2.dev ∧
      writes o.proc.trace = writes p.trace ++ dump_writes ++ ewen_writes ∧
      (∀ w ∈ dump_writes ++ ewen_writes, w.1 = E2P_CMD ∧ w.1 ≠ E2P_DATA ∧
        w.2 / 0x10000000 % 8 ≠ 3) := by
  refine ⟨{ exit := Exit.fatal 198, proc := (reg_r bus p1 E2P_CMD).2 }, ?_, rfl, rfl, rfl, rfl,
    ?_, by decide⟩
  · unfold programAddress
    rw [h1]
    simp only [Option.some_bind]
    rw [if_pos h2]
  · have hu := unlock_writes bus fuel p p1 h1
    simp [hu]

/-- Witness of C3: a controller whose EEPROM does not answer the 33rd command,
the EWEN. -/
theorem C3_witness :
    ∃ o, programAddress (simBus { delay := fun _ => 0, fails := fun k => k = 32 }) 1
        [0x02, 0x00, 0x00, 0x00, 0x00, 0x01]
        { dev := { cmd_lo := 0, cmd_hi := 0, data_lo := 0, data_hi := 0, ram := fun _ => 0,
                   cells := fun _ => 0xFF, wen := false, tmo := false, busy := 0, ncmd := 0,
                   log := [] },
          trace := [], out := [] } = some o ∧
      o.exit.status = 1 := by
  obtain ⟨q, e, -, -, -, t, -⟩ := sim_unlock { delay := fun _ => 0, fails := fun k => k = 32 } 1
    (fun _ => (by decide : 0 < 1))
    { dev := { cmd_lo := 0, cmd_hi := 0, data_lo := 0, data_hi := 0, ram := fun _ => 0,
               cells := fun _ => 0xFF, wen := false, tmo := false, busy := 0, ncmd := 0,
               log := [] },
      trace := [], out := [] } (by decide)
  obtain ⟨o, e1, -, e2, -⟩ := C3_timeout_aborts_before_any_write _ 1
    [0x02, 0x00, 0x00, 0x00, 0x00, 0x01] _ q e
    (by rw [sim_reg_r_cmd]; exact (sim_timeout_iff q.dev).2 (by rw [t]; decide))
  exact ⟨o, e1, e2⟩

/-- C4: on a responsive, fault-free device, the data-register values read by
the run of `programAddress` with the address `a0:a1:a2:a3:a4:a5` are the 32
values of the first dump followed by the 32 values of the second dump, and
the second dump reads 0xA5, a0, a1, a2, a3, a4, a5 for the cells 0 to 6. -/
theorem C4_second_dump_reads_back_address (cfg : SimCfg) (fuel : Nat)
    (a0 a1 a2 a3 a4 a5 : Nat) (rest : List Nat) (p : Proc Sim)
    (hbyte : a0 < 256 ∧ a1 < 256 ∧ a2 < 256 ∧ a3 < 256 ∧ a4 < 256 ∧ a5 < 256)
    (hd : ∀ k, cfg.delay k < fuel) (hf : ∀ k, cfg.fails k = false)
    (hb : p.dev.busy < fuel) :
    ∃ o pre post,
      programAddress (simBus cfg) fuel (a0 :: a1 :: a2 :: a3 :: a4 :: a5 :: rest) p = some o ∧
      o.exit = Exit.ok ∧
      reads_of E2P_DATA o.proc.trace = reads_of E2P_DATA p.trace ++ pre ++ post ∧
      pre.length = 32 ∧ post.length = 32 ∧
      post.take 7 = [0xA5, a0, a1, a2, a3, a4, a5] := by
  have ha := datum_lt a0 a1 a2 a3 a4 a5 rest hbyte
  obtain ⟨o, e, ex, -, -, -, -, -, hc⟩ := sim_programAddress cfg fuel hd _ ha p hb
  obtain ⟨c, r⟩ := hc hf
  refine ⟨o, cat_range (fun c => [p.dev.cells c % 256]) 32 0,
    cat_range (fun c => [o.proc.dev.cells c % 256]) 32 0, e, by rw [ex, hf]; rfl, r,
    cat_range_length _ _ _, cat_range_length _ _ _, ?_⟩
  rw [cat_range_split _ 7 25 0, List.take_left' (cat_range_length _ 7 0)]
  obtain ⟨h0, h1, h2, h3, h4, h5⟩ := hbyte
  simp [cat_range, c, datum_of, Nat.mod_eq_of_lt, h0, h1, h2, h3, h4, h5]

/-- Witness of C4: the address 02:00:00:00:00:01 on a controller that answers
at once. -/
theorem C4_witness :
    ∃ o pre post,
      programAddress (simBus { delay := fun _ => 0, fails := fun _ => false }) 1
        [0x02, 0x00, 0x00, 0x00, 0x00, 0x01]
        { dev := { cmd_lo := 0, cmd_hi := 0, data_lo := 0, data_hi := 0, ram := fun _ => 0,
                   cells := fun _ => 0xFF, wen := false, tmo := false, busy := 0, ncmd := 0,
                   log := [] },
          trace := [], out := [] } = some o ∧
      reads_of E2P_DATA o.proc.trace = pre ++ post ∧ pre.length = 32 ∧
      post.take 7 = [0xA5, 0x02, 0x00, 0x00, 0x00, 0x00, 0x01] := by
  obtain ⟨o, pre, post, e, -, r, l, -, t⟩ := C4_second_dump_reads_back_address
    { delay := fun _ => 0, fails := fun _ => false } 1 0x02 0x00 0x00 0x00 0x00 0x01 []
    { dev := { cmd_lo := 0, cmd_hi := 0, data_lo := 0, data_hi := 0, ram := fun _ => 0,
               cells := fun _ => 0xFF, wen := false, tmo := false, busy := 0, ncmd := 0,
               log := [] },
      trace := [], out := [] }
    (by decide) (fun _ => (by decide : 0 < 1)) (fun _ => rfl) (by decide)
  exact ⟨o, pre, post, e, by simpa using r, l, t⟩

/-- C5: for every 32-bit value `v`, every register number and every window
content, `reg_r` applied to the window left by `reg_w` of `v` returns `v`. -/
theorem C5_reg_r_after_reg_w (p : Proc Window) (reg v : Nat) (hv : v < 4294967296) :
    (reg_r memBus (reg_w memBus p reg v) reg).1 = v := by
  have h : reg + 2 ≠ reg := by omega
  simp only [reg_r, reg_w, memBus, join_halves_eq]
  simp [Function.update, h]
  omega

/-- Witness of C5: the value 0x89ABCDEF, whose bit 31 is set, at `E2P_CMD`. -/
theorem C5_witness :
    (reg_r memBus (reg_w memBus { dev := fun _ => 0, trace := [], out := [] } E2P_CMD
      0x89ABCDEF) E2P_CMD).1 = 0x89ABCDEF :=
  C5_reg_r_after_reg_w { dev := fun _ => 0, trace := [], out := [] } E2P_CMD 0x89ABCDEF
    (by decide)

/-- With a 64-bit `unsigned long` the join of `reg_r` sign-extends: a high
half-word with bit 15 set fills the upper 32 bits of the result. -/
theorem join_halves_64_sign_extends :
    join_halves 64 0xCDEF 0x89AB = 0xFFFFFFFF89ABCDEF := by decide

set_option maxRecDepth 100000 in
theorem fix_byte (r : Nat) (h : r < 256) :
    ((r % 256 &&& 0xfe) % 256 ||| 0x02) % 256 = (r &&& 0xfe) ||| 0x02 ∧
    ((r &&& 0xfe) ||| 0x02) % 2 = 0 ∧ ((r &&& 0xfe) ||| 0x02) / 2 % 2 = 1 ∧
    ((r &&& 0xfe) ||| 0x02) / 4 = r / 4 ∧ ((r &&& 0xfe) ||| 0x02) < 256 := by
  revert r
  decide

/-- C6: when the window is mapped, the argument is `-r` and the random source
delivers the six bytes `r0 .. r5`, `main` runs the programming sequence with
an address whose byte 0 is `(r0 AND 0xFE) OR 0x02` and whose bytes 1 to 5 are
`r1 .. r5`; in byte 0 bit 0 is clear, bit 1 is set and the bits from 2 on are
those of `r0`. -/
theorem C6_random_address_fixup {σ : Type} (bus : Bus σ) (fuel : Nat) (env : Env)
    (argv0 : String) (dev : σ) (p2 : Proc σ) (r0 r1 r2 r3 r4 r5 : Nat)
    (hw : map_window env dev = Except.ok p2) (hu : env.open_urandom = true)
    (hr : env.urandom = some [r0, r1, r2, r3, r4, r5])
    (hbyte : r0 < 256 ∧ r1 < 256 ∧ r2 < 256 ∧ r3 < 256 ∧ r4 < 256 ∧ r5 < 256) :
    ∃ mac,
      mac = ((r0 &&& 0xfe) ||| 0x02) :: r1 :: r2 :: r3 :: r4 :: r5 ::
        (show_current bus p2).1.drop 6 ∧
      main bus fuel env [argv0, "-r"] dev =
        programAddress bus fuel mac (clear_gpio_cfg bus mac (show_current bus p2).2) ∧
      ((r0 &&& 0xfe) ||| 0x02) % 2 = 0 ∧ ((r0 &&& 0xfe) ||| 0x02) / 2 % 2 = 1 ∧
      ((r0 &&& 0xfe) ||| 0x02) / 4 = r0 / 4 ∧ ((r0 &&& 0xfe) ||| 0x02) < 256 := by
  obtain ⟨h0, h1, h2, h3, h4, h5⟩ := hbyte
  obtain ⟨f1, f2, f3, f4, f5⟩ := fix_byte r0 h0
  refine ⟨_, rfl, ?_, f2, f3, f4, f5⟩
  have hp : parse_arg env "-r" (show_current bus p2).1 =
      Except.ok (((r0 &&& 0xfe) ||| 0x02) :: r1 :: r2 :: r3 :: r4 :: r5 ::
        (show_current bus p2).1.drop 6) := by
    simp only [parse_arg, hu, hr, store_bytes, fix_random]
    simp [Nat.mod_eq_of_lt, h0, h1, h2, h3, h4, h5]
    rw [Nat.mod_eq_of_lt h0] at f1
    exact f1
  simp only [main, hw]
  simp [hp]

/-- Witness of C6: the random bytes 11 22 33 44 55 66 give the address
12:22:33:44:55:66. -/
theorem C6_witness :
    ∃ mac, mac = 0x12 :: 0x22 :: 0x33 :: 0x44 :: 0x55 :: 0x66 :: ([] : List Nat) ∧
      main memBus 1
        { verbose := false, open_mem := true, mmap_ok := true, base := 0x40000000,
          open_urandom := true, urandom := some [0x11, 0x22, 0x33, 0x44, 0x55, 0x66] }
        ["newmac", "-r"] (fun _ => 0) =
      programAddress memBus 1 (mac ++ [0, 0])
        (clear_gpio_cfg memBus (mac ++ [0, 0])
          (show_current memBus { dev := fun _ => 0, trace := [], out := [] }).2) := by
  obtain ⟨mac, e1, e2, -⟩ := C6_random_address_fixup memBus 1
    { verbose := false, open_mem := true, mmap_ok := true, base := 0x40000000,
      open_urandom := true, urandom := some [0x11, 0x22, 0x33, 0x44, 0x55, 0x66] }
    "newmac" (fun _ => 0) { dev := fun _ => 0, trace := [], out := [] }
    0x11 0x22 0x33 0x44 0x55 0x66 rfl rfl rfl (by decide)
  refine ⟨_, rfl, ?_⟩
  rw [e2, e1]
  rfl

/-- C7 (what the code does): on a responsive, fault-free device the run ends
with `exit(0)`, having written the EWDS word to the command register exactly
once, with BUSY clear, between the seventh WRITE and the READ of cell 0 of
the second dump; no command word with CMD=EWDS and BUSY set is ever written,
the controller never accepts an EWDS command and its write-enable latch is
still set when the program exits. -/
theorem C7_ewds_never_submitted (cfg : SimCfg) (fuel : Nat)
    (a0 a1 a2 a3 a4 a5 : Nat) (rest : List Nat) (p : Proc Sim)
    (hbyte : a0 < 256 ∧ a1 < 256 ∧ a2 < 256 ∧ a3 < 256 ∧ a4 < 256 ∧ a5 < 256)
    (hd : ∀ k, cfg.delay k < fuel) (hf : ∀ k, cfg.fails k = false)
    (hb : p.dev.busy < fuel) :
    ∃ o, programAddress (simBus cfg) fuel (a0 :: a1 :: a2 :: a3 :: a4 :: a5 :: rest) p = some o ∧
      o.exit = Exit.ok ∧
      writes o.proc.trace = writes p.trace ++ dump_writes ++ ewen_writes ++
        loop_writes (a0 :: a1 :: a2 :: a3 :: a4 :: a5 :: rest) ++
        [(E2P_CMD, 0x10000000)] ++ dump_writes ∧
      (∀ w ∈ (writes o.proc.trace).drop (writes p.trace).length,
        ¬ (w.1 = E2P_CMD ∧ w.2 / 0x80000000 % 2 = 1 ∧ w.2 / 0x10000000 % 8 = 1)) ∧
      (∃ cmds, o.proc.dev.log = p.dev.log ++ cmds ∧ ∀ x ∈ cmds, x.op ≠ 1) ∧
      o.proc.dev.wen = true := by
  have ha := datum_lt a0 a1 a2 a3 a4 a5 rest hbyte
  obtain ⟨o, e, ex, -, -, -, -, hl, -⟩ := sim_programAddress cfg fuel hd _ ha p hb
  have hok : o.exit = Exit.ok := by rw [ex, hf]; rfl
  obtain ⟨hw, -, l⟩ := hl (hf _)
  refine ⟨o, e, hok, ?_, ?_, ?_, hw⟩
  · rcases programAddress_writes _ _ _ _ _ e with ⟨_, w⟩ | ⟨h, _⟩
    · exact w
    · rw [hok] at h; exact absurd h (by decide)
  · intro w hw ⟨h1, h2, h3⟩
    rcases program_writes_classified _ _ _ _ _ e w hw with h | ⟨-, h⟩
    · rw [h1] at h; exact absurd h (by decide)
    · rcases h h2 with h | h | ⟨h, -⟩ <;> omega
  · refine ⟨read_cmds ++ [{ op := 2, addr := 0, data := 0 }] ++
      write_cmds (a0 :: a1 :: a2 :: a3 :: a4 :: a5 :: rest) ++ read_cmds,
      by rw [l]; simp only [List.append_assoc], ?_⟩
    intro x hx
    simp only [List.mem_append, List.mem_singleton] at hx
    rcases hx with ((h | h) | h) | h
    · obtain ⟨j, -, -, hj⟩ := mem_cat_range _ _ _ _ h
      simp only [List.mem_singleton] at hj
      rw [hj]; simp
    · rw [h]; decide
    · obtain ⟨j, -, -, hj⟩ := mem_cat_range _ _ _ _ h
      simp only [List.mem_singleton] at hj
      rw [hj]; simp
    · obtain ⟨j, -, -, hj⟩ := mem_cat_range _ _ _ _ h
      simp only [List.mem_singleton] at hj
      rw [hj]; simp

/-- Witness of C7: the address 02:00:00:00:00:01 on a controller that answers
at once: writing is still enabled at exit. -/
theorem C7_witness :
    ∃ o, programAddress (simBus { delay := fun _ => 0, fails := fun _ => false }) 1
        [0x02, 0x00, 0x00, 0x00, 0x00, 0x01]
        { dev := { cmd_lo := 0, cmd_hi := 0, data_lo := 0, data_hi := 0, ram := fun _ => 0,
                   cells := fun _ => 0xFF, wen := false, tmo := false, busy := 0, ncmd := 0,
                   log := [] },
          trace := [], out := [] } = some o ∧
      o.exit = Exit.ok ∧ o.proc.dev.wen = true := by
  obtain ⟨o, e, ex, -, -, -, w⟩ := C7_ewds_never_submitted
    { delay := fun _ => 0, fails := fun _ => false } 1 0x02 0x00 0x00 0x00 0x00 0x01 []
    { dev := { cmd_lo := 0, cmd_hi := 0, data_lo := 0, data_hi := 0, ram := fun _ => 0,
               cells := fun _ => 0xFF, wen := false, tmo := false, busy := 0, ncmd := 0,
               log := [] },
      trace := [], out := [] }
    (by decide) (fun _ => (by decide : 0 < 1)) (fun _ => rfl) (by decide)
  exact ⟨o, e, ex, w⟩

/-- C8 as amended: on any device, an iteration of the dump that completes ends
with one read of the data register and prints the whole 32-bit value `d` that
read returned, unmasked, with `%02lx` (at least two hexadecimal digits); `d`
is its own low byte `d AND 0xFF` when its upper 24 bits are zero. -/
theorem C8_dump_prints_whole_data_register {σ : Type} (bus : Bus σ) (fuel : Nat)
    (p q : Proc σ) (i : Nat) (h : dump_cell bus fuel p i = some q) :
    ∃ t d, q.trace = p.trace ++ t ++ [Access.rd E2P_DATA d] ∧
      reads_of E2P_DATA t = [] ∧ d < 4294967296 ∧
      q.out = p.out ++ fmt_hex 2 d ++ [if i &&& 7 = 7 then '\n' else ' '] ∧
      (d < 256 → d &&& 0xFF = d) := by
  unfold dump_cell at h
  simp only [Option.bind_eq_some, Option.some.injEq] at h
  obtain ⟨p1, h1, p4, h2, h⟩ := h
  obtain ⟨t1, e1, -, r1, o1⟩ := busy_wait_trace bus fuel p p1 h1
  obtain ⟨t2, e2, -, r2, o2⟩ := busy_wait_trace bus fuel _ p4 h2
  subst h
  refine ⟨t1 ++ [Access.wr E2P_CMD (0 ||| E2P_CMD_EPC_CMD_READ_ ||| i),
      Access.wr E2P_CMD (0 ||| E2P_CMD_EPC_BUSY_ ||| E2P_CMD_EPC_CMD_READ_ ||| i)] ++ t2,
    (reg_r bus p4 E2P_DATA).1, ?_, ?_, ?_, ?_, ?_⟩
  · simp [e2, e1]
  · simp [r1, r2]
  · simp only [reg_r, join_halves_eq]
    omega
  · simp [o2, o1]
  · intro hd
    have := Nat.and_pow_two_sub_one_eq_mod (reg_r bus p4 E2P_DATA).1 8
    simp only [Nat.reducePow, Nat.reduceSub] at this
    rw [this]
    exact Nat.mod_eq_of_lt hd

/-- Witness of C8: the first cell of an image of 0x5A bytes. -/
theorem C8_witness :
    ∃ q t d, dump_cell (simBus { delay := fun _ => 0, fails := fun _ => false }) 1
        { dev := { cmd_lo := 0, cmd_hi := 0, data_lo := 0, data_hi := 0, ram := fun _ => 0,
                   cells := fun _ => 0x5A, wen := false, tmo := false, busy := 0, ncmd := 0,
                   log := [] },
          trace := [], out := [] } 0 = some q ∧
      q.trace = [] ++ t ++ [Access.rd E2P_DATA d] ∧
      q.out = [] ++ fmt_hex 2 d ++ [' '] := by
  obtain ⟨q, e, -⟩ := sim_dump_cell { delay := fun _ => 0, fails := fun _ => false } 1
    { dev := { cmd_lo := 0, cmd_hi := 0, data_lo := 0, data_hi := 0, ram := fun _ => 0,
               cells := fun _ => 0x5A, wen := false, tmo := false, busy := 0, ncmd := 0,
               log := [] },
      trace := [], out := [] } 0 (by decide) (by decide) (fun _ => (by decide : 0 < 1))
  obtain ⟨t, d, h1, -, -, h3, -⟩ := C8_dump_prints_whole_data_register _ 1 _ q 0 e
  exact ⟨q, t, d, e, h1, h3⟩

/-- Counterexample to C8 as stated: when the EEPROM does not answer, the data
register keeps its content, here 0x1234; the dump prints `1234`, not the low
byte `34`. -/
theorem C8_counterexample :
    ∃ q, dump_cell (simBus { delay := fun _ => 0, fails := fun _ => true }) 1
        { dev := { cmd_lo := 0, cmd_hi := 0, data_lo := 0x1234, data_hi := 0, ram := fun _ => 0,
                   cells := fun _ => 0xFF, wen := false, tmo := false, busy := 0, ncmd := 0,
                   log := [] },
          trace := [], out := [] } 0 = some q ∧
      reads_of E2P_DATA q.trace = [0x1234] ∧
      q.out = ['1', '2', '3', '4', ' '] ∧
      fmt_hex 2 (0x1234 &&& 0xFF) ++ [' '] = ['3', '4', ' '] ∧
      q.out ≠ fmt_hex 2 (0x1234 &&& 0xFF) ++ [' '] :=
  ⟨_, rfl, by decide, by decide, by decide, by decide⟩

/-- C9 as amended: `reg_w` at register number `reg` stores the low 16 bits of
`v` in the half-word of index `reg`, which lies at byte offset `2 * reg` of
the window, and the next 16 bits of `v` in the half-word of index `reg + 2`,
at byte offset `2 * reg + 4`; `reg_r` joins the same two half-words, the one
of the lower index as the low half. -/
theorem C9_register_halfword_layout (p : Proc Window) (reg v : Nat) :
    halfword_at (reg_w memBus p reg v).dev (byte_offset reg) = v % 65536 ∧
    halfword_at (reg_w memBus p reg v).dev (byte_offset reg + 4) = v / 65536 % 65536 ∧
    byte_offset (reg + 2) = byte_offset reg + 4 ∧
    (∀ i, i ≠ reg → i ≠ reg + 2 → (reg_w memBus p reg v).dev i = p.dev i) ∧
    (reg_r memBus p reg).1 =
      halfword_at p.dev (byte_offset reg) % 65536 +
      halfword_at p.dev (byte_offset reg + 4) % 65536 * 65536 := by
  have h : reg ≠ reg + 2 := by omega
  have e1 : 2 * reg / 2 = reg := by omega
  have e2 : (2 * reg + 4) / 2 = reg + 2 := by omega
  refine ⟨?_, ?_, ?_, ?_, ?_⟩
  · simp [halfword_at, byte_offset, reg_w, memBus, Function.update, e1, h]
  · simp [halfword_at, byte_offset, reg_w, memBus, Function.update, e2]
  · simp [byte_offset]; omega
  · intro i h1 h2
    simp [reg_w, memBus, Function.update, h1, h2]
  · simp [halfword_at, byte_offset, reg_r, memBus, join_halves_eq, e1, e2]

/-- Counterexample to C9 as stated: after `reg_w` of 0x12345678 at `E2P_CMD`
(0xB0) on a zeroed window, the half-words at the byte offsets 0xB0 and 0xB2
are still zero; the value is in the half-words at byte offsets 0x160 and
0x164. -/
theorem C9_counterexample :
    halfword_at (reg_w memBus { dev := fun _ => 0, trace := [], out := [] } E2P_CMD
      0x12345678).dev 0xB0 = 0 ∧
    halfword_at (reg_w memBus { dev := fun _ => 0, trace := [], out := [] } E2P_CMD
      0x12345678).dev (0xB0 + 2) = 0 ∧
    halfword_at (reg_w memBus { dev := fun _ => 0, trace := [], out := [] } E2P_CMD
      0x12345678).dev 0x160 = 0x5678 ∧
    halfword_at (reg_w memBus { dev := fun _ => 0, trace := [], out := [] } E2P_CMD
      0x12345678).dev 0x164 = 0x1234 ∧
    ¬ (halfword_at (reg_w memBus { dev := fun _ => 0, trace := [], out := [] } E2P_CMD
        0x12345678).dev 0xB0 = 0x12345678 % 65536 ∧
       halfword_at (reg_w memBus { dev := fun _ => 0, trace := [], out := [] } E2P_CMD
        0x12345678).dev (0xB0 + 2) = 0x12345678 / 65536) := by
  decide

/-- C10: on a responsive, fault-free device, running `programAddress` with the
same address twice, the second run starting from the device state the first
one left, both runs end with `exit(0)` and leave 0xA5, a0, ..., a5 in the
cells 0 to 6; the second run makes the same register writes as the first,
the seven cell writes included, and the controller accepts its seven WRITE
commands. -/
theorem C10_programming_twice (cfg : SimCfg) (fuel : Nat)
    (a0 a1 a2 a3 a4 a5 : Nat) (rest : List Nat) (p : Proc Sim)
    (hbyte : a0 < 256 ∧ a1 < 256 ∧ a2 < 256 ∧ a3 < 256 ∧ a4 < 256 ∧ a5 < 256)
    (hd : ∀ k, cfg.delay k < fuel) (hf : ∀ k, cfg.fails k = false)
    (hb : p.dev.busy < fuel) :
    ∃ o1 o2,
      programAddress (simBus cfg) fuel (a0 :: a1 :: a2 :: a3 :: a4 :: a5 :: rest) p = some o1 ∧
      programAddress (simBus cfg) fuel (a0 :: a1 :: a2 :: a3 :: a4 :: a5 :: rest)
        { dev := o1.proc.dev, trace := [], out := [] } = some o2 ∧
      o1.exit = Exit.ok ∧ o2.exit = Exit.ok ∧
      (List.range 7).map o1.proc.dev.cells = [0xA5, a0, a1, a2, a3, a4, a5] ∧
      (List.range 7).map o2.proc.dev.cells = [0xA5, a0, a1, a2, a3, a4, a5] ∧
      (∀ c, 7 ≤ c → o2.proc.dev.cells c = o1.proc.dev.cells c) ∧
      writes o2.proc.trace = (writes o1.proc.trace).drop (writes p.trace).length ∧
      writes o2.proc.trace = dump_writes ++ ewen_writes ++
        loop_writes (a0 :: a1 :: a2 :: a3 :: a4 :: a5 :: rest) ++
        [(E2P_CMD, 0x10000000)] ++ dump_writes ∧
      o2.proc.dev.log = o1.proc.dev.log ++ read_cmds ++ [{ op := 2, addr := 0, data := 0 }] ++
        write_cmds (a0 :: a1 :: a2 :: a3 :: a4 :: a5 :: rest) ++ read_cmds := by
  have ha := datum_lt a0 a1 a2 a3 a4 a5 rest hbyte
  obtain ⟨o1, e1, ex1, -, b1, -, -, -, hc1⟩ := sim_programAddress cfg fuel hd _ ha p hb
  obtain ⟨o2, e2, ex2, -, -, fr2, -, hl2, hc2⟩ := sim_programAddress cfg fuel hd _ ha
    { dev := o1.proc.dev, trace := [], out := [] } b1
  have hok1 : o1.exit = Exit.ok := by rw [ex1, hf]; rfl
  have hok2 : o2.exit = Exit.ok := by rw [ex2, hf]; rfl
  have w1 : writes o1.proc.trace = writes p.trace ++ dump_writes ++ ewen_writes ++
      loop_writes (a0 :: a1 :: a2 :: a3 :: a4 :: a5 :: rest) ++
      [(E2P_CMD, 0x10000000)] ++ dump_writes := by
    rcases programAddress_writes _ _ _ _ _ e1 with ⟨_, w⟩ | ⟨h, _⟩
    · exact w
    · rw [hok1] at h; exact absurd h (by decide)
  have w2 : writes o2.proc.trace = dump_writes ++ ewen_writes ++
      loop_writes (a0 :: a1 :: a2 :: a3 :: a4 :: a5 :: rest) ++
      [(E2P_CMD, 0x10000000)] ++ dump_writes := by
    rcases programAddress_writes _ _ _ _ _ e2 with ⟨_, w⟩ | ⟨h, _⟩
    · simpa using w
    · rw [hok2] at h; exact absurd h (by decide)
  refine ⟨o1, o2, e1, e2, hok1, hok2, ?_, ?_, fr2, ?_, w2, (hl2 (hf _)).2.2⟩
  · obtain ⟨c, -⟩ := hc1 hf
    simp [List.range, List.range.loop, c, datum_of]
  · obtain ⟨c, -⟩ := hc2 hf
    simp [List.range, List.range.loop, c, datum_of]
  · rw [w1, w2]
    simp only [List.append_assoc, List.drop_left]

/-- Witness of C10: the address 02:00:00:00:00:01 programmed twice. -/
theorem C10_witness :
    ∃ o1 o2,
      programAddress (simBus { delay := fun _ => 1, fails := fun _ => false }) 2
        [0x02, 0x00, 0x00, 0x00, 0x00, 0x01]
        { dev := { cmd_lo := 0, cmd_hi := 0, data_lo := 0, data_hi := 0, ram := fun _ => 0,
                   cells := fun _ => 0xFF, wen := false, tmo := false, busy := 0, ncmd := 0,
                   log := [] },
          trace := [], out := [] } = some o1 ∧
      programAddress (simBus { delay := fun _ => 1, fails := fun _ => false }) 2
        [0x02, 0x00, 0x00, 0x00, 0x00, 0x01]
        { dev := o1.proc.dev, trace := [], out := [] } = some o2 ∧
      (List.range 7).map o1.proc.dev.cells = [0xA5, 0x02, 0x00, 0x00, 0x00, 0x00, 0x01] ∧
      (List.range 7).map o2.proc.dev.cells = [0xA5, 0x02, 0x00, 0x00, 0x00, 0x00, 0x01] := by
  obtain ⟨o1, o2, e1, e2, -, -, c1, c2, -⟩ := C10_programming_twice
    { delay := fun _ => 1, fails := fun _ => false } 2 0x02 0x00 0x00 0x00 0x00 0x01 []
    { dev := { cmd_lo := 0, cmd_hi := 0, data_lo := 0, data_hi := 0, ram := fun _ => 0,
               cells := fun _ => 0xFF, wen := false, tmo := false, busy := 0, ncmd := 0,
               log := [] },
      trace := [], out := [] }
    (by decide) (fun _ => (by decide : 1 < 2)) (fun _ => rfl) (by decide)
  exact ⟨o1, o2, e1, e2, c1, c2⟩

/-- C11: whatever the device and the environment, a run with an argument count
other than 2 ends, with exit status 1; the only register it has written is
the MAC indirect-address register 0xA4 (by `mac_r`): nothing was written to
`GPIO_CFG`, to the EEPROM command register or to the EEPROM data register, so
no EEPROM command was submitted. -/
theorem C11_wrong_argument_count {σ : Type} (bus : Bus σ) (fuel : Nat) (env : Env)
    (argv : List String) (dev : σ) (h : argv.length ≠ 2) :
    ∃ o, main bus fuel env argv dev = some o ∧ o.exit.status = 1 ∧
      (∀ w ∈ writes o.proc.trace,
        w.1 = 0xA4 ∧ w.1 ≠ GPIO_CFG ∧ w.1 ≠ E2P_CMD ∧ w.1 ≠ E2P_DATA) ∧
      (o.exit = Exit.usage ∨ o.exit = Exit.fatal 126 ∨ o.exit = Exit.fatal 135) := by
  obtain ⟨he, hp⟩ := map_window_trace env dev
  unfold main
  cases hm : map_window env dev with
  | error e =>
    refine ⟨_, rfl, rfl, ?_, ?_⟩
    · intro w hw
      simp [(he e hm).1] at hw
    · right
      rcases (he e hm).2.2 with h | h <;> simp [h]
  | ok p2 =>
    simp only [h, ne_eq, not_false_eq_true, if_true]
    refine ⟨_, rfl, rfl, ?_, Or.inl rfl⟩
    intro w hw
    rw [show_current_writes, (hp p2 hm).1] at hw
    simp only [writes_nil, List.nil_append, List.mem_cons, List.mem_singleton,
      List.not_mem_nil, or_false] at hw
    rcases hw with h | h <;> subst h <;> decide

/-- Witness of C11: the run without an argument on a window of memory. -/
theorem C11_witness :
    ∃ o, main memBus 0 env_plain ["newmac"] (fun _ => 0) = some o ∧ o.exit = Exit.usage ∧
      o.exit.status = 1 ∧
      ∀ w ∈ writes o.proc.trace, w.1 ≠ GPIO_CFG ∧ w.1 ≠ E2P_CMD ∧ w.1 ≠ E2P_DATA :=
  match C11_wrong_argument_count memBus 0 env_plain ["newmac"] (fun _ => 0) (by decide) with
  | ⟨o, h1, h2, h3, _⟩ =>
    ⟨o, h1, by
      have e : main memBus 0 env_plain ["newmac"] (fun _ => 0) =
          some { exit := Exit.usage,
                 proc := (show_current memBus { dev := fun _ => 0, trace := [], out := [] }).2 } :=
        rfl
      rw [e] at h1
      simp only [Option.some.injEq] at h1
      rw [← h1], h2, fun w hw => (h3 w hw).2⟩

/-- C13: in the register accesses of any run of `main` that ends, every write
of the command register with BUSY set comes directly after a write of the
command register with BUSY clear that carries the same word otherwise, so the
same CMD and ADDR fields; in a run that exits with 0 the words written with
BUSY set are the 32 READ of the first dump, EWEN, the 7 WRITE and the 32 READ
of the second dump, in a run stopped by the unlock timeout the 32 READ and
EWEN, and in every other run there is none. -/
theorem C13_two_phase_latch {σ : Type} (bus : Bus σ) (fuel : Nat) (env : Env)
    (argv : List String) (dev : σ) (o : Outcome σ)
    (h : main bus fuel env argv dev = some o) :
    (∀ pre post v, o.proc.trace = pre ++ Access.wr E2P_CMD v :: post → busy_flag v = true →
      ∃ pre0 u, pre = pre0 ++ [Access.wr E2P_CMD u] ∧ busy_flag u = false ∧
        v = u + E2P_CMD_EPC_BUSY_ ∧ u / 0x10000000 % 8 = v / 0x10000000 % 8 ∧
        u % 256 = v % 256) ∧
    (o.exit = Exit.ok → cmd_words true o.proc.trace =
      seq_range (fun i => 0x80000000 + i) 32 0 ++ [0xA0000000] ++
        seq_range (fun i => 0xB0000000 + i) 7 0 ++ seq_range (fun i => 0x80000000 + i) 32 0) ∧
    (o.exit = Exit.fatal 198 → cmd_words true o.proc.trace =
      seq_range (fun i => 0x80000000 + i) 32 0 ++ [0xA0000000]) ∧
    (o.exit ≠ Exit.ok → o.exit ≠ Exit.fatal 198 → cmd_words true o.proc.trace = []) := by
  have hacc := main_accepted bus fuel env argv dev o h
  refine ⟨?_, ?_⟩
  · intro pre post v ht hv
    obtain ⟨pre0, e, hf⟩ := latch_sound o.proc.trace (hacc.1 none) pre post v ht hv
    obtain ⟨hge, hm⟩ := busy_flag_ge v hv
    have e2 : E2P_CMD_EPC_BUSY_ = 2147483648 := by decide
    rw [e2] at hge hm
    refine ⟨pre0, v - E2P_CMD_EPC_BUSY_, e, hf, ?_, ?_, ?_⟩ <;> rw [e2] <;> omega
  · rcases main_cases bus fuel env argv dev o h with ⟨n1, n2, -, -, w⟩ | ⟨p2, mac, -, hp, -, -, hpa⟩
    · have hw : cmd_words true o.proc.trace = [] := by
        unfold cmd_words
        rcases w with w | w <;> rw [w] <;> decide
      exact ⟨fun e => absurd e n1, fun e => absurd e n2, fun _ _ => hw⟩
    · obtain ⟨c0, c1, c2, c3, c4, c5, c6, c7, c8⟩ := cmd_words_parts mac
      rcases main_writes bus fuel mac p2 o hp hpa with ⟨e, w⟩ | ⟨e, w⟩
      · refine ⟨fun _ => ?_, fun e2 => ?_, fun n _ => absurd e n⟩
        · unfold cmd_words
          rw [w]
          simp only [List.filterMap_append, c0 true, c1, c3, c5, c7, List.nil_append,
            List.append_nil]
        · rw [e] at e2; simp at e2
      · refine ⟨fun e2 => ?_, fun _ => ?_, fun _ n => absurd e n⟩
        · rw [e] at e2; simp at e2
        · unfold cmd_words
          rw [w]
          simp only [List.filterMap_append, c0 true, c1, c3, List.nil_append]

set_option maxRecDepth 1000000 in
/-- Witness of C13: the run `newmac 02:00:00:00:00:01` on a responsive
controller exits with 0 and its 72 submissions all follow the two-phase
pattern. -/
theorem C13_witness :
    ∃ o, main (simBus { delay := fun _ => 1, fails := fun _ => false }) 2 env_plain
        ["newmac", "02:00:00:00:00:01"] (sim_at_rest 0xFF 0 0) = some o ∧
      o.exit = Exit.ok ∧ (cmd_words true o.proc.trace).length = 72 ∧
      ∀ pre post v, o.proc.trace = pre ++ Access.wr E2P_CMD v :: post → busy_flag v = true →
        ∃ pre0 u, pre = pre0 ++ [Access.wr E2P_CMD u] ∧ busy_flag u = false ∧
          v = u + E2P_CMD_EPC_BUSY_ := by
  have hx : (main (simBus { delay := fun _ => 1, fails := fun _ => false }) 2 env_plain
        ["newmac", "02:00:00:00:00:01"] (sim_at_rest 0xFF 0 0)).map (fun o => o.exit) =
      some Exit.ok := by decide
  obtain ⟨o, ho, hx⟩ := Option.map_eq_some'.1 hx
  obtain ⟨h1, h2, -, -⟩ := C13_two_phase_latch _ 2 env_plain
    ["newmac", "02:00:00:00:00:01"] (sim_at_rest 0xFF 0 0) o ho
  refine ⟨o, ho, hx, ?_, ?_⟩
  · rw [h2 hx]; decide
  · intro pre post v ht hv
    obtain ⟨pre0, u, e1, e2, e3, -⟩ := h1 pre post v ht hv
    exact ⟨pre0, u, e1, e2, e3⟩

/-- C14: in the register accesses of any run of `main` that ends, (1) every
write of the command register with BUSY clear (the first write of a command)
comes after a read of the command register that returned BUSY clear, with no
access to the command register between the two; (2) every read of the data
register comes after a write of the command register that submitted READ and
after a later read of the command register that returned BUSY clear, with no
write of the command register since the submission and no access to the
command register since that read; (3) in a run that exits with 0 the first
writes are those of the 32 READ, of EWEN, of the 7 WRITE, of EWDS and of the
32 READ, in this order. -/
theorem C14_idle_before_command {σ : Type} (bus : Bus σ) (fuel : Nat) (env : Env)
    (argv : List String) (dev : σ) (o : Outcome σ)
    (h : main bus fuel env argv dev = some o) :
    (∀ pre post v, o.proc.trace = pre ++ Access.wr E2P_CMD v :: post → busy_flag v = false →
      ∃ pre0 u mid, pre = pre0 ++ Access.rd E2P_CMD u :: mid ∧ busy_flag u = false ∧
        ∀ a ∈ mid, ∀ x, a ≠ Access.rd E2P_CMD x ∧ a ≠ Access.wr E2P_CMD x) ∧
    (∀ pre post d, o.proc.trace = pre ++ Access.rd E2P_DATA d :: post →
      ∃ pre0 w pre1 u mid,
        pre = pre0 ++ Access.wr E2P_CMD w :: (pre1 ++ Access.rd E2P_CMD u :: mid) ∧
        busy_flag w = true ∧ w / 0x10000000 % 8 = 0 ∧ busy_flag u = false ∧
        (∀ a ∈ pre1, ∀ x, a ≠ Access.wr E2P_CMD x) ∧
        (∀ a ∈ mid, ∀ x, a ≠ Access.rd E2P_CMD x ∧ a ≠ Access.wr E2P_CMD x)) ∧
    (o.exit = Exit.ok → cmd_words false o.proc.trace =
      seq_range (fun i => i) 32 0 ++ [0x20000000] ++
        seq_range (fun i => 0x30000000 + i) 7 0 ++ [0x10000000] ++
        seq_range (fun i => i) 32 0) := by
  have hacc := main_accepted bus fuel env argv dev o h
  refine ⟨fun pre post v ht hv => idle_sound_cmd _ (hacc.2 _) pre post v ht hv,
    fun pre post d ht => idle_sound_data _ (hacc.2 _) pre post d ht, fun e => ?_⟩
  rcases main_cases bus fuel env argv dev o h with ⟨n1, -⟩ | ⟨p2, mac, -, hp, -, -, hpa⟩
  · exact absurd e n1
  · obtain ⟨c0, c1, c2, c3, c4, c5, c6, c7, c8⟩ := cmd_words_parts mac
    rcases main_writes bus fuel mac p2 o hp hpa with ⟨-, w⟩ | ⟨e2, -⟩
    · unfold cmd_words
      rw [w]
      simp only [List.filterMap_append, c0 false, c2, c4, c6, c8, List.nil_append]
    · rw [e] at e2; simp at e2

set_option maxRecDepth 1000000 in
/-- Witness of C14: the run `newmac -r` on a controller that shows BUSY for
one poll after each command. -/
theorem C14_witness :
    ∃ o, main (simBus { delay := fun _ => 1, fails := fun _ => false }) 2 env_plain
        ["newmac", "-r"] (sim_at_rest 0xFF 0 0) = some o ∧
      o.exit = Exit.ok ∧ (cmd_words false o.proc.trace).length = 73 ∧
      ∀ pre post v, o.proc.trace = pre ++ Access.wr E2P_CMD v :: post → busy_flag v = false →
        ∃ pre0 u mid, pre = pre0 ++ Access.rd E2P_CMD u :: mid ∧ busy_flag u = false ∧
          ∀ a ∈ mid, ∀ x, a ≠ Access.rd E2P_CMD x ∧ a ≠ Access.wr E2P_CMD x := by
  have hx : (main (simBus { delay := fun _ => 1, fails := fun _ => false }) 2 env_plain
        ["newmac", "-r"] (sim_at_rest 0xFF 0 0)).map (fun o => o.exit) = some Exit.ok := by
    decide
  obtain ⟨o, ho, hx⟩ := Option.map_eq_some'.1 hx
  obtain ⟨h1, -, h3⟩ := C14_idle_before_command _ 2 env_plain
    ["newmac", "-r"] (sim_at_rest 0xFF 0 0) o ho
  refine ⟨o, ho, hx, ?_, h1⟩
  rw [h3 hx]; decide

/-- C15: take two devices that agree on the BUSY bit of every read of the
command register (`agree_on_busy`), one address, and a run of the programming
sequence on the first device that ends. If on each device the read of the
command register that follows the busy-wait of EWEN has TIMEOUT clear, then
the run on the second device ends too, both exit with status 0, the two runs
make accesses of the same shape, and so the identical sequence of register
writes: the first dump, EWEN, the seven writes, the EWDS word and the second
dump for this address. Nothing is assumed about the TIMEOUT bit of any other
read nor about the values read from the data register. -/
theorem C15_writes_independent_of_timeout_and_data {σ τ : Type} (bus1 : Bus σ) (bus2 : Bus τ)
    (R : σ → τ → Prop) (fuel : Nat) (a : List Nat) (p1 : Proc σ) (p2 : Proc τ)
    (o1 : Outcome σ) (hR : agree_on_busy bus1 bus2 R) (h0 : R p1.dev p2.dev)
    (hrun : programAddress bus1 fuel a p1 = some o1)
    (ht1 : ∀ q, unlock bus1 fuel p1 = some q →
      (reg_r bus1 q E2P_CMD).1 &&& E2P_CMD_EPC_TIMEOUT_ = 0)
    (ht2 : ∀ q, unlock bus2 fuel p2 = some q →
      (reg_r bus2 q E2P_CMD).1 &&& E2P_CMD_EPC_TIMEOUT_ = 0) :
    ∃ o2 t1 t2, programAddress bus2 fuel a p2 = some o2 ∧
      o1.exit = Exit.ok ∧ o2.exit = Exit.ok ∧ o1.exit.status = 0 ∧ o2.exit.status = 0 ∧
      o1.proc.trace = p1.trace ++ t1 ∧ o2.proc.trace = p2.trace ++ t2 ∧
      shape t1 = shape t2 ∧ writes t1 = writes t2 ∧
      writes t1 = dump_writes ++ ewen_writes ++ loop_writes a ++ [(0xB0, 0x10000000)] ++
        dump_writes := by
  obtain ⟨o2, e, x1, x2, t1, t2, k1, k2, k3, -⟩ :=
    programAddress_alike hR fuel a p1 p2 o1 h0 hrun ht1 ht2
  have hw : writes t1 = writes t2 := by rw [writes_of_shape, writes_of_shape, k3]
  refine ⟨o2, t1, t2, e, x1, x2, by rw [x1]; rfl, by rw [x2]; rfl, k1, k2, k3, hw, ?_⟩
  rcases programAddress_writes bus1 fuel a p1 o1 hrun with ⟨-, w⟩ | ⟨f, -⟩
  · rw [k1, writes_append] at w
    simp only [List.append_assoc] at w ⊢
    exact List.append_cancel_left w
  · rw [x1] at f; simp at f

set_option maxRecDepth 1000000 in
/-- Witness of C15: a controller over a blank EEPROM that answers every
command, and one over an EEPROM of zeros that answers EWEN only (every READ
and WRITE runs into TIMEOUT), with 0x1234 left in the data register; same
delays. Both runs exit with 0 after the same register writes; at the end the
first controller shows TIMEOUT clear and the data 0xFF, the second TIMEOUT
set and the data 0x01. -/
theorem C15_witness :
    ∃ o1 o2 t1 t2,
      programAddress (simBus { delay := fun _ => 0, fails := fun _ => false }) 1
        [0x02, 0x00, 0x00, 0x00, 0x00, 0x01]
        { dev := sim_at_rest 0xFF 0 0, trace := [], out := [] } = some o1 ∧
      programAddress (simBus { delay := fun _ => 0, fails := fun k => k ≠ 32 }) 1
        [0x02, 0x00, 0x00, 0x00, 0x00, 0x01]
        { dev := sim_at_rest 0 0 0x1234, trace := [], out := [] } = some o2 ∧
      o1.exit.status = 0 ∧ o2.exit.status = 0 ∧
      o1.proc.trace = [] ++ t1 ∧ o2.proc.trace = [] ++ t2 ∧ writes t1 = writes t2 ∧
      (o1.proc.dev.tmo, o1.proc.dev.data_lo) = (false, 0xFF) ∧
      (o2.proc.dev.tmo, o2.proc.dev.data_lo) = (true, 0x01) := by
  have hx1 : (programAddress (simBus { delay := fun _ => 0, fails := fun _ => false }) 1
        [0x02, 0x00, 0x00, 0x00, 0x00, 0x01]
        { dev := sim_at_rest 0xFF 0 0, trace := [], out := [] }).map
        (fun o => (o.proc.dev.tmo, o.proc.dev.data_lo)) = some (false, 0xFF) := by decide
  have hx2 : (programAddress (simBus { delay := fun _ => 0, fails := fun k => k ≠ 32 }) 1
        [0x02, 0x00, 0x00, 0x00, 0x00, 0x01]
        { dev := sim_at_rest 0 0 0x1234, trace := [], out := [] }).map
        (fun o => (o.proc.dev.tmo, o.proc.dev.data_lo)) = some (true, 0x01) := by decide
  obtain ⟨o1, ho1, hx1⟩ := Option.map_eq_some'.1 hx1
  obtain ⟨o2, t1, t2, e, -, -, s1, s2, k1, k2, -, hw, -⟩ :=
    C15_writes_independent_of_timeout_and_data
      (simBus { delay := fun _ => 0, fails := fun _ => false })
      (simBus { delay := fun _ => 0, fails := fun k => k ≠ 32 })
      (fun s1 s2 => s1.busy = s2.busy ∧ s1.ncmd = s2.ncmd) 1
      [0x02, 0x00, 0x00, 0x00, 0x00, 0x01]
      { dev := sim_at_rest 0xFF 0 0, trace := [], out := [] }
      { dev := sim_at_rest 0 0 0x1234, trace := [], out := [] } o1
      (sim_agree_on_busy _ _ (fun _ => rfl)) ⟨rfl, rfl⟩ ho1
      (sim_unlock_timeout_clear _ 1 (fun _ => (by decide : 0 < 1)) _ (by decide) (by decide))
      (sim_unlock_timeout_clear _ 1 (fun _ => (by decide : 0 < 1)) _ (by decide) (by decide))
  rw [e] at hx2
  simp only [Option.map_some', Option.some.injEq] at hx2
  exact ⟨o1, o2, t1, t2, ho1, e, s1, s2, k1, k2, hw, hx1, hx2⟩

/-- C16: on any device whose command register reads with BUSY set for the
first `n` reads and with BUSY clear at read `n + 1`, the busy-wait returns as
soon as it may make more than `n` polls: it has then made exactly `n + 1`
register accesses, all reads of the command register, no register write, it
has printed nothing, and the last value read has bit 31 clear; allowed `n`
polls or fewer it has not returned. Consequently, on any device that from
every state clears BUSY within finitely many reads (`clears_busy`), every run
of the whole program ends, with any arguments, once the busy-waits are
allowed enough polls; every simulated controller is such a device, and on it
more polls than the longest BUSY phase are enough. -/
theorem C16_busy_wait_terminates {σ : Type} (bus : Bus σ) (n : Nat) (p : Proc σ)
    (hb : ∀ j, j < n → poll_value bus j p &&& E2P_CMD_EPC_BUSY_ ≠ 0)
    (h0 : poll_value bus n p &&& E2P_CMD_EPC_BUSY_ = 0) :
    (∀ fuel, n < fuel → ∃ q t, busy_wait bus fuel p = some q ∧ q.trace = p.trace ++ t ∧
      t.length = n + 1 ∧ (∀ a ∈ t, ∃ v, a = Access.rd E2P_CMD v) ∧ writes t = [] ∧
      t.getLast? = some (Access.rd E2P_CMD (poll_value bus n p)) ∧
      poll_value bus n p / 0x80000000 % 2 = 0 ∧ q.out = p.out ∧
      q.dev = (after_polls bus (n + 1) p).dev) ∧
    (∀ fuel, fuel ≤ n → busy_wait bus fuel p = none) ∧
    (clears_busy bus → ∀ (env : Env) (argv : List String) (dev : σ),
      ∃ o fuel0, ∀ fuel, fuel0 ≤ fuel → main bus fuel env argv dev = some o) ∧
    (∀ (cfg : SimCfg) (env : Env) (argv : List String) (dev : Sim),
      ∃ o fuel0, ∀ fuel, fuel0 ≤ fuel → main (simBus cfg) fuel env argv dev = some o) ∧
    (∀ (cfg : SimCfg) (B fuel : Nat) (env : Env) (argv : List String) (dev : Sim),
      (∀ k, cfg.delay k ≤ B) → dev.busy ≤ B → B < fuel →
      ∃ o, main (simBus cfg) fuel env argv dev = some o) := by
  refine ⟨fun fuel hf => ?_, fun fuel hf => ((busy_wait_exact bus n p hb h0) fuel).2 hf,
    fun hc env argv dev => main_returns bus hc env argv dev,
    fun cfg env argv dev => main_returns (simBus cfg) (sim_clears_busy cfg) env argv dev, ?_⟩
  · obtain ⟨e1, e2⟩ := after_polls_trace bus (n + 1) p
    obtain ⟨l1, l2, l3, l4⟩ := poll_trace_facts bus (n + 1) p
    refine ⟨_, poll_trace bus (n + 1) p, ((busy_wait_exact bus n p hb h0) fuel).1 hf, e1, l1,
      l3, l2, ?_, ?_, e2, rfl⟩
    · rw [List.getLast?_eq_getElem?, l1]
      exact l4 n (by omega)
    · have hlt : poll_value bus n p < 4294967296 := by
        simp only [poll_value, reg_r, join_halves_eq]
        omega
      have := (and_busy_ne_zero _ hlt).not.1 (by simpa using h0)
      omega
  · intro cfg B fuel env argv dev hd hbusy hB
    exact sim_main_terminates cfg fuel (fun k => by have := hd k; omega) env argv dev (by omega)

/-- Witness of C16: a controller that shows BUSY for three polls; the
busy-wait makes four reads. -/
theorem C16_witness :
    ∃ q t, busy_wait (simBus { delay := fun _ => 0, fails := fun _ => false }) 4
        { dev := { sim_at_rest 0xFF 0 0 with busy := 3 }, trace := [], out := [] } = some q ∧
      q.trace = [] ++ t ∧ t.length = 3 + 1 ∧ writes t = [] ∧
      busy_wait (simBus { delay := fun _ => 0, fails := fun _ => false }) 3
        { dev := { sim_at_rest 0xFF 0 0 with busy := 3 }, trace := [], out := [] } = none :=
  match C16_busy_wait_terminates (simBus { delay := fun _ => 0, fails := fun _ => false }) 3
      { dev := { sim_at_rest 0xFF 0 0 with busy := 3 }, trace := [], out := [] }
      (by decide) (by decide) with
  | ⟨h1, h2, _, _, _⟩ =>
    match h1 4 (by decide) with
    | ⟨q, t, e1, e2, e3, _, e5, _⟩ => ⟨q, t, e1, e2, e3, e5, h2 3 (by decide)⟩

/-- C17 as amended: a call of `dump_eep` that returns has made, besides polls
of the command register, exactly these accesses: for the cells 0, 1, ..., 31
in this order, the READ word of the cell without BUSY, the same word with
BUSY, and one read of the data register; the 32 words written with BUSY set
are READ for the addresses 0 to 31 ascending; each read of the data register
comes after its READ submission and after a later read of the command
register that returned BUSY clear; the output is the heading followed, for
the 32 values read in this order, by the value with `%02lx` (at least two
hexadecimal digits, two when the value is below 0x100) and a newline after
the 8th, 16th, 24th and 32nd value, a space after each other one. -/
theorem C17_dump_reads_and_prints {σ : Type} (bus : Bus σ) (fuel : Nat) (p q : Proc σ)
    (h : dump_eep bus fuel p = some q) :
    ∃ t d, q.trace = p.trace ++ t ∧
      nonpoll t = cat_range (cell_accesses d) 32 0 ∧
      cmd_words true t = seq_range (fun i => 0x80000000 + i) 32 0 ∧
      reads_of E2P_DATA t = seq_range d 32 0 ∧
      (∀ pre post x, t = pre ++ Access.rd E2P_DATA x :: post →
        ∃ pre0 w pre1 u mid,
          pre = pre0 ++ Access.wr E2P_CMD w :: (pre1 ++ Access.rd E2P_CMD u :: mid) ∧
          busy_flag w = true ∧ w / 0x10000000 % 8 = 0 ∧ busy_flag u = false ∧
          (∀ a ∈ pre1, ∀ y, a ≠ Access.wr E2P_CMD y) ∧
          (∀ a ∈ mid, ∀ y, a ≠ Access.rd E2P_CMD y ∧ a ≠ Access.wr E2P_CMD y)) ∧
      q.out = p.out ++ "Current eeprom:\n".toList ++ cat_range (cell_text d) 32 0 ∧
      (∀ i, cell_text d i = fmt_hex 2 (d i) ++ [if i &&& 7 = 7 then '\n' else ' '] ∧
        2 ≤ (fmt_hex 2 (d i)).length ∧ (d i < 256 → (fmt_hex 2 (d i)).length = 2)) ∧
      (∀ i, i < 32 → (i &&& 7 = 7 ↔ i = 7 ∨ i = 15 ∨ i = 23 ∨ i = 31)) := by
  obtain ⟨t, d, e, a, n, o⟩ := dump_eep_mon bus fuel p q h
  have hw : writes t = dump_writes := by
    have := dump_eep_writes bus fuel p q h
    rw [e, writes_append] at this
    exact List.append_cancel_left this
  refine ⟨t, d, e, n, ?_, ?_, ?_, o, ?_, by decide⟩
  · unfold cmd_words
    rw [hw]
    exact (cmd_words_parts []).2.1
  · rw [← reads_of_nonpoll E2P_DATA cmd_ne_data.symm, n, reads_of_cell_accesses]
  · intro pre post x ht
    exact idle_sound_data t ((accepted_idle_accepted t a).2 _) pre post x ht
  · intro i
    exact ⟨rfl, fmt_hex_two (d i)⟩

set_option maxRecDepth 1000000 in
/-- Witness of C17: the dump of an EEPROM whose cells all hold 0x5A. -/
theorem C17_witness :
    ∃ q t d, dump_eep (simBus { delay := fun _ => 1, fails := fun _ => false }) 2
        { dev := sim_at_rest 0x5A 0 0, trace := [], out := [] } = some q ∧
      q.trace = [] ++ t ∧ nonpoll t = cat_range (cell_accesses d) 32 0 ∧
      reads_of E2P_DATA t = seq_range d 32 0 ∧
      q.out = [] ++ "Current eeprom:\n".toList ++ cat_range (cell_text d) 32 0 ∧
      q.out = ("Current eeprom:\n" ++
        "5a 5a 5a 5a 5a 5a 5a 5a\n5a 5a 5a 5a 5a 5a 5a 5a\n" ++
        "5a 5a 5a 5a 5a 5a 5a 5a\n5a 5a 5a 5a 5a 5a 5a 5a\n").toList := by
  have hx : (dump_eep (simBus { delay := fun _ => 1, fails := fun _ => false }) 2
        { dev := sim_at_rest 0x5A 0 0, trace := [], out := [] }).map (fun q => q.out) =
      some ("Current eeprom:\n" ++
        "5a 5a 5a 5a 5a 5a 5a 5a\n5a 5a 5a 5a 5a 5a 5a 5a\n" ++
        "5a 5a 5a 5a 5a 5a 5a 5a\n5a 5a 5a 5a 5a 5a 5a 5a\n").toList := by decide
  obtain ⟨q, hq, hx⟩ := Option.map_eq_some'.1 hx
  obtain ⟨t, d, h1, h2, -, h4, -, h6, -⟩ := C17_dump_reads_and_prints _ 2 _ q hq
  exact ⟨q, t, d, hq, h1, h2, h4, h6, hx⟩

set_option maxRecDepth 1000000 in
/-- Counterexample to C17 as stated: when the EEPROM answers no READ, the data
register keeps its content, here 0x1234, and the dump prints each of the 32
values with four digits, `1234`, not two. -/
theorem C17_counterexample :
    ∃ q, dump_eep (simBus { delay := fun _ => 0, fails := fun _ => true }) 1
        { dev := sim_at_rest 0xFF 0 0x1234, trace := [], out := [] } = some q ∧
      reads_of E2P_DATA q.trace = List.replicate 32 0x1234 ∧
      q.out = ("Current eeprom:\n" ++
        "1234 1234 1234 1234 1234 1234 1234 1234\n1234 1234 1234 1234 1234 1234 1234 1234\n" ++
        "1234 1234 1234 1234 1234 1234 1234 1234\n1234 1234 1234 1234 1234 1234 1234 1234\n").toList ∧
      q.out.length = 16 + 32 * 5 ∧ q.out.length ≠ 16 + 32 * 3 := by
  have hx : (dump_eep (simBus { delay := fun _ => 0, fails := fun _ => true }) 1
        { dev := sim_at_rest 0xFF 0 0x1234, trace := [], out := [] }).map
        (fun q => (reads_of E2P_DATA q.trace, q.out)) =
      some (List.replicate 32 0x1234, ("Current eeprom:\n" ++
        "1234 1234 1234 1234 1234 1234 1234 1234\n1234 1234 1234 1234 1234 1234 1234 1234\n" ++
        "1234 1234 1234 1234 1234 1234 1234 1234\n1234 1234 1234 1234 1234 1234 1234 1234\n").toList) := by
    decide
  obtain ⟨q, hq, hx⟩ := Option.map_eq_some'.1 hx
  simp only [Prod.mk.injEq] at hx
  refine ⟨q, hq, hx.1, hx.2, ?_, ?_⟩ <;> rw [hx.2] <;> decide

/-- C18: for every cell address `i` from 0 to 31, each command word the program
builds (READ, EWEN, WRITE without and with BUSY, and the EWDS word) decodes to
its fields: bits 28-30 are the command code (READ 0, EWDS 1, EWEN 2, WRITE 3),
bits 0-7 are `i` (0 for EWEN and EWDS), bit 31 is the BUSY phase, bits 8-27
are zero; and OR-ing `i` into a word leaves its CMD and BUSY fields as they
are without the address. -/
theorem C18_command_words_decode (i : Nat) (hi : i < 32) :
    ((0 ||| E2P_CMD_EPC_CMD_READ_ ||| i) / 0x10000000 % 8 = 0 ∧
     (0 ||| E2P_CMD_EPC_CMD_READ_ ||| i) % 256 = i ∧
     (0 ||| E2P_CMD_EPC_CMD_READ_ ||| i) / 0x80000000 % 2 = 0 ∧
     (0 ||| E2P_CMD_EPC_CMD_READ_ ||| i) / 256 % 0x100000 = 0) ∧
    ((0 ||| E2P_CMD_EPC_BUSY_ ||| E2P_CMD_EPC_CMD_READ_ ||| i) / 0x10000000 % 8 = 0 ∧
     (0 ||| E2P_CMD_EPC_BUSY_ ||| E2P_CMD_EPC_CMD_READ_ ||| i) % 256 = i ∧
     (0 ||| E2P_CMD_EPC_BUSY_ ||| E2P_CMD_EPC_CMD_READ_ ||| i) / 0x80000000 % 2 = 1 ∧
     (0 ||| E2P_CMD_EPC_BUSY_ ||| E2P_CMD_EPC_CMD_READ_ ||| i) / 256 % 0x100000 = 0) ∧
    ((0 ||| E2P_CMD_EPC_CMD_WRITE_ ||| i) / 0x10000000 % 8 = 3 ∧
     (0 ||| E2P_CMD_EPC_CMD_WRITE_ ||| i) % 256 = i ∧
     (0 ||| E2P_CMD_EPC_CMD_WRITE_ ||| i) / 0x80000000 % 2 = 0 ∧
     (0 ||| E2P_CMD_EPC_CMD_WRITE_ ||| i) / 256 % 0x100000 = 0) ∧
    ((0 ||| E2P_CMD_EPC_BUSY_ ||| E2P_CMD_EPC_CMD_WRITE_ ||| i) / 0x10000000 % 8 = 3 ∧
     (0 ||| E2P_CMD_EPC_BUSY_ ||| E2P_CMD_EPC_CMD_WRITE_ ||| i) % 256 = i ∧
     (0 ||| E2P_CMD_EPC_BUSY_ ||| E2P_CMD_EPC_CMD_WRITE_ ||| i) / 0x80000000 % 2 = 1 ∧
     (0 ||| E2P_CMD_EPC_BUSY_ ||| E2P_CMD_EPC_CMD_WRITE_ ||| i) / 256 % 0x100000 = 0) ∧
    ((0 ||| E2P_CMD_EPC_CMD_EWEN_) / 0x10000000 % 8 = 2 ∧
     (0 ||| E2P_CMD_EPC_CMD_EWEN_) % 256 = 0 ∧
     (0 ||| E2P_CMD_EPC_CMD_EWEN_) / 0x80000000 % 2 = 0 ∧
     (0 ||| E2P_CMD_EPC_CMD_EWEN_) / 256 % 0x100000 = 0) ∧
    ((0 ||| E2P_CMD_EPC_BUSY_ ||| E2P_CMD_EPC_CMD_EWEN_) / 0x10000000 % 8 = 2 ∧
     (0 ||| E2P_CMD_EPC_BUSY_ ||| E2P_CMD_EPC_CMD_EWEN_) % 256 = 0 ∧
     (0 ||| E2P_CMD_EPC_BUSY_ ||| E2P_CMD_EPC_CMD_EWEN_) / 0x80000000 % 2 = 1 ∧
     (0 ||| E2P_CMD_EPC_BUSY_ ||| E2P_CMD_EPC_CMD_EWEN_) / 256 % 0x100000 = 0) ∧
    ((0 ||| E2P_CMD_EPC_CMD_EWDS_) / 0x10000000 % 8 = 1 ∧
     (0 ||| E2P_CMD_EPC_CMD_EWDS_) % 256 = 0 ∧
     (0 ||| E2P_CMD_EPC_CMD_EWDS_) / 0x80000000 % 2 = 0 ∧
     (0 ||| E2P_CMD_EPC_CMD_EWDS_) / 256 % 0x100000 = 0) ∧
    ((0 ||| E2P_CMD_EPC_CMD_READ_ ||| i) / 0x10000000 = (0 ||| E2P_CMD_EPC_CMD_READ_) / 0x10000000 ∧
     (0 ||| E2P_CMD_EPC_BUSY_ ||| E2P_CMD_EPC_CMD_READ_ ||| i) / 0x10000000 =
       (0 ||| E2P_CMD_EPC_BUSY_ ||| E2P_CMD_EPC_CMD_READ_) / 0x10000000 ∧
     (0 ||| E2P_CMD_EPC_CMD_WRITE_ ||| i) / 0x10000000 = (0 ||| E2P_CMD_EPC_CMD_WRITE_) / 0x10000000 ∧
     (0 ||| E2P_CMD_EPC_BUSY_ ||| E2P_CMD_EPC_CMD_WRITE_ ||| i) / 0x10000000 =
       (0 ||| E2P_CMD_EPC_BUSY_ ||| E2P_CMD_EPC_CMD_WRITE_) / 0x10000000) := by
  have h1 : ∀ j < 32, (0 ||| E2P_CMD_EPC_CMD_READ_ ||| j) / 0x10000000 % 8 = 0 ∧
      (0 ||| E2P_CMD_EPC_CMD_READ_ ||| j) % 256 = j ∧
      (0 ||| E2P_CMD_EPC_CMD_READ_ ||| j) / 0x80000000 % 2 = 0 ∧
      (0 ||| E2P_CMD_EPC_CMD_READ_ ||| j) / 256 % 0x100000 = 0 := by decide
  have h2 : ∀ j < 32, (0 ||| E2P_CMD_EPC_BUSY_ ||| E2P_CMD_EPC_CMD_READ_ ||| j) / 0x10000000 % 8 = 0 ∧
      (0 ||| E2P_CMD_EPC_BUSY_ ||| E2P_CMD_EPC_CMD_READ_ ||| j) % 256 = j ∧
      (0 ||| E2P_CMD_EPC_BUSY_ ||| E2P_CMD_EPC_CMD_READ_ ||| j) / 0x80000000 % 2 = 1 ∧
      (0 ||| E2P_CMD_EPC_BUSY_ ||| E2P_CMD_EPC_CMD_READ_ ||| j) / 256 % 0x100000 = 0 := by decide
  have h3 : ∀ j < 32, (0 ||| E2P_CMD_EPC_CMD_WRITE_ ||| j) / 0x10000000 % 8 = 3 ∧
      (0 ||| E2P_CMD_EPC_CMD_WRITE_ ||| j) % 256 = j ∧
      (0 ||| E2P_CMD_EPC_CMD_WRITE_ ||| j) / 0x80000000 % 2 = 0 ∧
      (0 ||| E2P_CMD_EPC_CMD_WRITE_ ||| j) / 256 % 0x100000 = 0 := by decide
  have h4 : ∀ j < 32, (0 ||| E2P_CMD_EPC_BUSY_ ||| E2P_CMD_EPC_CMD_WRITE_ ||| j) / 0x10000000 % 8 = 3 ∧
      (0 ||| E2P_CMD_EPC_BUSY_ ||| E2P_CMD_EPC_CMD_WRITE_ ||| j) % 256 = j ∧
      (0 ||| E2P_CMD_EPC_BUSY_ ||| E2P_CMD_EPC_CMD_WRITE_ ||| j) / 0x80000000 % 2 = 1 ∧
      (0 ||| E2P_CMD_EPC_BUSY_ ||| E2P_CMD_EPC_CMD_WRITE_ ||| j) / 256 % 0x100000 = 0 := by decide
  have h5 : ∀ j < 32,
      (0 ||| E2P_CMD_EPC_CMD_READ_ ||| j) / 0x10000000 = (0 ||| E2P_CMD_EPC_CMD_READ_) / 0x10000000 ∧
      (0 ||| E2P_CMD_EPC_BUSY_ ||| E2P_CMD_EPC_CMD_READ_ ||| j) / 0x10000000 =
        (0 ||| E2P_CMD_EPC_BUSY_ ||| E2P_CMD_EPC_CMD_READ_) / 0x10000000 ∧
      (0 ||| E2P_CMD_EPC_CMD_WRITE_ ||| j) / 0x10000000 = (0 ||| E2P_CMD_EPC_CMD_WRITE_) / 0x10000000 ∧
      (0 ||| E2P_CMD_EPC_BUSY_ ||| E2P_CMD_EPC_CMD_WRITE_ ||| j) / 0x10000000 =
        (0 ||| E2P_CMD_EPC_BUSY_ ||| E2P_CMD_EPC_CMD_WRITE_) / 0x10000000 := by decide
  exact ⟨h1 i hi, h2 i hi, h3 i hi, h4 i hi, by decide, by decide, by decide, h5 i hi⟩

/-- Witness of C18: the cell address 31. -/
theorem C18_witness :
    (0 ||| E2P_CMD_EPC_BUSY_ ||| E2P_CMD_EPC_CMD_WRITE_ ||| 31) / 0x10000000 % 8 = 3 ∧
    (0 ||| E2P_CMD_EPC_BUSY_ ||| E2P_CMD_EPC_CMD_WRITE_ ||| 31) % 256 = 31 ∧
    (0 ||| E2P_CMD_EPC_BUSY_ ||| E2P_CMD_EPC_CMD_WRITE_ ||| 31) / 0x80000000 % 2 = 1 ∧
    (0 ||| E2P_CMD_EPC_BUSY_ ||| E2P_CMD_EPC_CMD_WRITE_ ||| 31) / 256 % 0x100000 = 0 :=
  (C18_command_words_decode 31 (by decide)).2.2.2.1

/-- C19: in a run of `main` with the window mapped, two arguments and an
address obtained from the argument, (1) the programming sequence starts in a
state where the register writes made so far are the two of `mac_r` and one
write of 0 to `GPIO_CFG`, so before any EEPROM command; (2) the run is that of
the programming sequence from this state; (3) when it ends, it ends with
exit 0 or with the `FATAL` of the unlock timeout, and in the accesses made
since the write of 0 there is no write to `GPIO_CFG`: its register writes are
exactly the two of `mac_r` and `(GPIO_CFG, 0)`, followed by writes to the
EEPROM command and data registers only, so the one write to `GPIO_CFG` of the
whole run is that of 0 and nothing restores the value read before it. -/
theorem C19_gpio_cfg_cleared_not_restored {σ : Type} (bus : Bus σ) (fuel : Nat) (env : Env)
    (argv : List String) (dev : σ) (p2 : Proc σ) (mac : List Nat)
    (hw : map_window env dev = Except.ok p2) (hlen : argv.length = 2)
    (hparse : parse_arg env (argv.getD 1 "") (show_current bus p2).1 = Except.ok mac) :
    (∃ v1 v2 v3 g0 g1, (clear_gpio_cfg bus mac (show_current bus p2).2).trace =
      [Access.wr 0xA4 0xc0000002, Access.rd 0xA8 v1, Access.wr 0xA4 0xc0000003,
       Access.rd 0xA8 v2, Access.rd E2P_CMD v3,
       Access.rd GPIO_CFG g0, Access.wr GPIO_CFG 0, Access.rd GPIO_CFG g1]) ∧
    main bus fuel env argv dev =
      programAddress bus fuel mac (clear_gpio_cfg bus mac (show_current bus p2).2) ∧
    (∀ o, main bus fuel env argv dev = some o →
      (o.exit = Exit.ok ∨ o.exit = Exit.fatal 198) ∧
      (∃ t, o.proc.trace = (clear_gpio_cfg bus mac (show_current bus p2).2).trace ++ t ∧
        ∀ w ∈ writes t, w.1 ≠ GPIO_CFG ∧ (w.1 = E2P_CMD ∨ w.1 = E2P_DATA)) ∧
      (writes o.proc.trace).filter (fun w => w.1 = GPIO_CFG) = [(GPIO_CFG, 0)]) := by
  have hp : p2.trace = [] := ((map_window_trace env dev).2 p2 hw).1
  have hmain : main bus fuel env argv dev =
      programAddress bus fuel mac (clear_gpio_cfg bus mac (show_current bus p2).2) := by
    simp only [main, hw, hlen, hparse]
    simp
  refine ⟨?_, hmain, ?_⟩
  · obtain ⟨v1, v2, v3, g0, g1, e, -⟩ := prelude_trace bus mac p2
    rw [hp, List.nil_append] at e
    exact ⟨v1, v2, v3, g0, g1, e⟩
  · intro o ho
    rw [hmain] at ho
    obtain ⟨t, et, -⟩ := programAddress_mon bus fuel mac _ o ho
    have hcls := program_writes_classified bus fuel mac _ o ho
    obtain ⟨v1, v2, v3, g0, g1, e, -⟩ := prelude_trace bus mac p2
    rw [hp, List.nil_append] at e
    have hw0 : writes (clear_gpio_cfg bus mac (show_current bus p2).2).trace =
        [(0xA4, 0xc0000002), (0xA4, 0xc0000003), (GPIO_CFG, 0)] := by
      rw [e]; simp
    have hwt : writes o.proc.trace =
        [(0xA4, 0xc0000002), (0xA4, 0xc0000003), (GPIO_CFG, 0)] ++ writes t := by
      rw [et, writes_append, hw0]
    rw [hwt, hw0] at hcls
    simp only [List.length_cons, List.length_nil, List.drop_left'] at hcls
    have hcls2 : ∀ w ∈ writes t, w.1 ≠ GPIO_CFG ∧ (w.1 = E2P_CMD ∨ w.1 = E2P_DATA) := by
      intro w hw
      have := hcls w (by simpa using hw)
      rcases this with h | ⟨h, -⟩
      · exact ⟨by rw [h]; decide, Or.inr h⟩
      · exact ⟨by rw [h]; decide, Or.inl h⟩
    refine ⟨?_, ⟨t, et, hcls2⟩, ?_⟩
    · rcases programAddress_writes bus fuel mac _ o ho with ⟨e, -⟩ | ⟨e, -⟩
      · exact Or.inl e
      · exact Or.inr e
    · rw [hwt, List.filter_append]
      have : (writes t).filter (fun w => decide (w.1 = GPIO_CFG)) = [] := by
        rw [List.filter_eq_nil_iff]
        intro w hw
        simpa using (hcls2 w hw).1
      rw [this]
      decide

set_option maxRecDepth 1000000 in
/-- Witness of C19: with 0x1234 in `GPIO_CFG` before the run, the run
`newmac 02:00:00:00:00:01` writes `GPIO_CFG` once, with 0, and the register
holds 0 at exit. -/
theorem C19_witness :
    ∃ o, main (simBus { delay := fun _ => 1, fails := fun _ => false }) 2 env_plain
        ["newmac", "02:00:00:00:00:01"] (sim_at_rest 0xFF 0x1234 0) = some o ∧
      o.exit = Exit.ok ∧
      (writes o.proc.trace).filter (fun w => w.1 = GPIO_CFG) = [(GPIO_CFG, 0)] ∧
      (sim_at_rest 0xFF 0x1234 0).ram GPIO_CFG = 0x1234 ∧ o.proc.dev.ram GPIO_CFG = 0 := by
  have hx : (main (simBus { delay := fun _ => 1, fails := fun _ => false }) 2 env_plain
        ["newmac", "02:00:00:00:00:01"] (sim_at_rest 0xFF 0x1234 0)).map
        (fun o => (o.exit, o.proc.dev.ram GPIO_CFG)) = some (Exit.ok, 0) := by decide
  obtain ⟨o, ho, hx⟩ := Option.map_eq_some'.1 hx
  simp only [Prod.mk.injEq] at hx
  obtain ⟨-, -, h3⟩ := C19_gpio_cfg_cleared_not_restored
    (simBus { delay := fun _ => 1, fails := fun _ => false }) 2 env_plain
    ["newmac", "02:00:00:00:00:01"] (sim_at_rest 0xFF 0x1234 0)
    { dev := sim_at_rest 0xFF 0x1234 0, trace := [], out := [] }
    [0x02, 0x00, 0x00, 0x00, 0x00, 0x01, 0, 0] rfl rfl (by rfl)
  exact ⟨o, ho, hx.1, (h3 o ho).2.2, by decide, hx.2⟩

/-- C20: on a window that is memory, `reg_w` at register number `r` changes the
half-words of index `r` and `r + 2` and no other; the pairs of half-words of
the registers the program uses (0x88, 0xA4, 0xA8, 0xB0, 0xB4) are pairwise
disjoint and end before the 4 KiB of the mapping; so `reg_w` to one of these
registers leaves what `reg_r` returns for each of the others as it was. -/
theorem C20_register_footprints (p : Proc Window) (r v : Nat) :
    (∀ i, i ≠ r → i ≠ r + 2 → (reg_w memBus p r v).dev i = p.dev i) ∧
    (∀ r1 ∈ [GPIO_CFG, 0xA4, 0xA8, E2P_CMD, E2P_DATA],
      ∀ r2 ∈ [GPIO_CFG, 0xA4, 0xA8, E2P_CMD, E2P_DATA], r1 ≠ r2 →
        r1 ≠ r2 ∧ r1 ≠ r2 + 2 ∧ r1 + 2 ≠ r2 ∧ r1 + 2 ≠ r2 + 2) ∧
    (∀ r1 ∈ [GPIO_CFG, 0xA4, 0xA8, E2P_CMD, E2P_DATA],
      byte_offset (r1 + 2) + 2 ≤ MAP_SIZE) ∧
    (∀ r1 ∈ [GPIO_CFG, 0xA4, 0xA8, E2P_CMD, E2P_DATA],
      ∀ r2 ∈ [GPIO_CFG, 0xA4, 0xA8, E2P_CMD, E2P_DATA], r1 ≠ r2 →
        (reg_r memBus (reg_w memBus p r1 v) r2).1 = (reg_r memBus p r2).1) := by
  have hdis : ∀ r1 ∈ [GPIO_CFG, 0xA4, 0xA8, E2P_CMD, E2P_DATA],
      ∀ r2 ∈ [GPIO_CFG, 0xA4, 0xA8, E2P_CMD, E2P_DATA], r1 ≠ r2 →
        r1 ≠ r2 ∧ r1 ≠ r2 + 2 ∧ r1 + 2 ≠ r2 ∧ r1 + 2 ≠ r2 + 2 := by decide
  refine ⟨?_, hdis, by decide, ?_⟩
  · intro i h1 h2
    simp [reg_w, memBus, Function.update, h1, h2]
  · intro r1 h1 r2 h2 hne
    obtain ⟨a, b, c, d⟩ := hdis r1 h1 r2 h2 hne
    simp only [reg_r, reg_w, memBus, Function.update]
    simp [Ne.symm a, Ne.symm b, Ne.symm c, Ne.symm d]

end Newmac
